import Mathlib

/-!
# obmc-yadro-uefivar: decoder and variable store

A shallow embedding of `src/variable.cpp` (key order), `src/nvram.cpp`
(firmware-volume unwrapping and the NVAR list decoder) and `src/storage.cpp`
(the variable store and its two merge operations), followed by theorems
about them.

Conventions of the embedding:

* a byte is a `Nat`; every read from memory reduces it modulo 256;
* a pointer into a dump is its offset from the first byte of the dump
  (an `Int` where the source may step in front of the dump);
* `std::map<VariableKey, VariableValue>` is the list of its entries in
  ascending key order;
* a C++ exception is the `error` outcome; a read that leaves the dump is the
  `outOfBounds` outcome; loops carry a step budget and give `outOfFuel`
  when it is used up.
-/

namespace UefiVar

/-! ## variable.hpp / variable.cpp -/

/-- Unique variable key (`struct VariableKey`): name and vendor GUID. -/
structure VariableKey where
  name : List Nat
  guid : List Nat
deriving DecidableEq, Repr

/-- Value of a UEFI variable (`struct VariableValue`). -/
structure VariableValue where
  attributes : Nat
  data : List Nat
deriving DecidableEq, Repr

/-- Library function `uuid_compare` of libuuid: the sign of the first differing
byte, bytes taken as unsigned. -/
def uuid_compare : List Nat → List Nat → Int
  | [], [] => 0
  | [], _ :: _ => -1
  | _ :: _, [] => 1
  | a :: as, b :: bs =>
    if a < b then -1 else if b < a then 1 else uuid_compare as bs

/-- Library operator `<` of `std::string`: lexicographic on unsigned chars, a
proper prefix being smaller. -/
def stringLt : List Nat → List Nat → Bool
  | _, [] => false
  | [], _ :: _ => true
  | a :: as, b :: bs =>
    if a < b then true else if b < a then false else stringLt as bs

/-- Comparator `VariableKey::operator<`. -/
def VariableKey.lt (self rhs : VariableKey) : Bool :=
  let gc := uuid_compare self.guid rhs.guid
  gc < 0 || (gc == 0 && stringLt self.name rhs.name)

/-- UEFI variables container (`using Variables = std::map<...>`): the entries
in ascending key order. -/
abbrev Variables := List (VariableKey × VariableValue)

namespace Variables

/-- Representation invariant of the map: keys strictly ascending. -/
def WF (m : Variables) : Prop :=
  List.Pairwise (fun a b => a.1.lt b.1 = true) m

/-- Member `std::map::find` as an iterator: the entries from the one with the
given key onward, `[]` standing for `end()`. -/
def findIt : Variables → VariableKey → Variables
  | [], _ => []
  | e :: rest, key => if e.1 = key then e :: rest else findIt rest key

/-- Member `std::map::find`, dereferenced: the value stored under the key. -/
def find (m : Variables) (key : VariableKey) : Option VariableValue :=
  match findIt m key with
  | [] => none
  | e :: _ => some e.2

/-- Member `std::map::insert`: adds the pair at its place in the order; an
entry with an equivalent key is left as it is. -/
def insert : Variables → VariableKey → VariableValue → Variables
  | [], key, value => [(key, value)]
  | e :: rest, key, value =>
    if key.lt e.1 then (key, value) :: e :: rest
    else if e.1.lt key then e :: insert rest key value
    else e :: rest

/-- Statement `variables[key] = value`: inserts the pair at its place in the
order or overwrites the value of the equivalent key. -/
def assign : Variables → VariableKey → VariableValue → Variables
  | [], key, value => [(key, value)]
  | e :: rest, key, value =>
    if key.lt e.1 then (key, value) :: e :: rest
    else if e.1.lt key then e :: assign rest key value
    else (e.1, value) :: rest

/-- Write through the iterator returned by `find`: replaces the value of the
entry with the given key by `f` of it. -/
def modify : Variables → VariableKey → (VariableValue → VariableValue) → Variables
  | [], _, _ => []
  | e :: rest, key, f =>
    if e.1 = key then (e.1, f e.2) :: rest else e :: modify rest key f

/-- Member `std::map::erase(key)`. -/
def erase : Variables → VariableKey → Variables
  | [], _ => []
  | e :: rest, key => if e.1 = key then rest else e :: erase rest key

/-- The keys of the map in iteration order. -/
def keys (m : Variables) : List VariableKey := m.map Prod.fst

end Variables

/-! ## Outcomes of the decoder -/

/-- The exceptions thrown by the sources, by the place that throws them. -/
inductive Error where
  /-- Exception `std::system_error` of `FileMapper::load`. -/
  | system
  /-- Message "Not enough data in NVRAM". -/
  | notEnoughData
  /-- Message "Invalid header". -/
  | invalidHeader
  /-- Message "GUID not found". -/
  | guidNotFound
  /-- Message "Variable name too long". -/
  | nameTooLong
  /-- Message "Data not found". -/
  | dataNotFound
  /-- Message "Data out of range". -/
  | dataOutOfRange
  /-- Message "Value data is empty". -/
  | valueEmpty
  /-- Message "Invalid volume header". -/
  | invalidVolumeHeader
  /-- Message "Unsupported firmware file system". -/
  | unsupportedFileSystem
  /-- Message "Extended header not found". -/
  | extHeaderNotFound
  /-- Message "Invalid extended header". -/
  | invalidExtHeader
  /-- Message "Unsupported volume". -/
  | unsupportedVolume
  /-- Message "FFS file header not found". -/
  | ffsHeaderNotFound
  /-- Message "Unsupported NVRAM file system". -/
  | unsupportedNvram
  /-- Message "Unexpected end of NVRAM file". -/
  | unexpectedEnd
  /-- Message "StdDefaults not found". -/
  | stdDefaultsNotFound
  /-- Exception of `saveVariables` when the snapshot cannot be written. -/
  | writeFailed
  /-- Message "Invalid hex format: string is empty". -/
  | hexEmpty
  /-- Message "Invalid hex format: unacceptable character". -/
  | hexCharacter
  /-- Exception of `loadVariables` when the snapshot cannot be read. -/
  | loadFailed
  /-- Message "JSON: root node not found". -/
  | jsonRootNotFound
  /-- Message "JSON: incomplete variable". -/
  | jsonIncomplete
  /-- Message "JSON: invalid variable name". -/
  | jsonInvalidName
  /-- Message "JSON: invalid variable GUID". -/
  | jsonInvalidGuid
  /-- Message "JSON: invalid attribute". -/
  | jsonInvalidAttribute
  /-- Message "JSON: invalid data". -/
  | jsonInvalidData
deriving DecidableEq, Repr

/-- What running a piece of the sources gives: a value, an exception, a read
outside the dump (at the given offset), or an exhausted step budget. -/
inductive Outcome (α : Type) where
  | ok (a : α)
  | error (e : Error)
  | outOfBounds (off : Int)
  | outOfFuel
deriving DecidableEq, Repr

namespace Outcome

/-- Sequencing: everything but `ok` ends the computation. -/
def bind {α β : Type} (x : Outcome α) (f : α → Outcome β) : Outcome β :=
  match x with
  | ok a => f a
  | error e => error e
  | outOfBounds off => outOfBounds off
  | outOfFuel => outOfFuel

instance : Monad Outcome where
  pure := Outcome.ok
  bind := Outcome.bind

end Outcome

/-! ## nvram.cpp: memory access -/

/-- State of `class Nvram`: the bytes addressable from `dumpStart`, and
`dumpSize`. -/
structure Nvram where
  dump : List Nat
  dumpSize : Nat
deriving Repr

namespace Nvram

/-- Size of `struct NodeHeader` (packed): signature 4, size 2, next 3, flags 1. -/
abbrev sizeofNodeHeader : Nat := 10

/-- Size of `EFI_GUID`. -/
abbrev sizeofGuid : Nat := 16

/-- Constant `nvarSignature` = 'N' | 'V' << 8 | 'A' << 16 | 'R' << 24. -/
abbrev nvarSignature : Nat := 78 + 86 * 2 ^ 8 + 65 * 2 ^ 16 + 82 * 2 ^ 24

abbrev flagRuntime : Nat := 0b00000001
abbrev flagDataOnly : Nat := 0b00001000
abbrev flagHwError : Nat := 0b00100000
abbrev flagAuthWrite : Nat := 0b01000000
abbrev flagValid : Nat := 0b10000000

abbrev lastNodeId : Nat := 0x00ffffff

abbrev EFI_VARIABLE_NON_VOLATILE : Nat := 0x00000001
abbrev EFI_VARIABLE_BOOTSERVICE_ACCESS : Nat := 0x00000002
abbrev EFI_VARIABLE_RUNTIME_ACCESS : Nat := 0x00000004
abbrev EFI_VARIABLE_HARDWARE_ERROR_RECORD : Nat := 0x00000008
abbrev EFI_VARIABLE_AUTHENTICATED_WRITE_ACCESS : Nat := 0x00000010

/-- Member `Nvram::isPtrValid`:
`addr >= dumpStart && addr + size <= dumpStart + dumpSize`, on offsets from
`dumpStart`: the sums are those of the integers, so an address sum that would
wrap around the address space is not modelled. -/
def isPtrValid (nv : Nvram) (ptr : Int) (size : Nat) : Bool :=
  decide (0 ≤ ptr) && decide (ptr + size ≤ nv.dumpSize)

/-- Dereference of a `const uint8_t*`: the byte at the offset, or `outOfBounds`
when the offset is not inside `[0, dumpSize)` of the dump. -/
def read (nv : Nvram) (ptr : Int) : Outcome Nat :=
  if 0 ≤ ptr ∧ ptr < nv.dumpSize then
    match nv.dump.get? ptr.toNat with
    | some b => .ok (b % 256)
    | none => .outOfBounds ptr
  else .outOfBounds ptr

/-- The bytes of `[ptr, ptr + count)`, read one by one in ascending order. -/
def readRange (nv : Nvram) : Nat → Int → Outcome (List Nat)
  | 0, _ => .ok []
  | count + 1, ptr => do
    let b ← nv.read ptr
    let rest ← readRange nv count (ptr + 1)
    pure (b :: rest)

/-- Read of a `uint16_t` field (little-endian host). -/
def readU16 (nv : Nvram) (ptr : Int) : Outcome Nat := do
  let b0 ← nv.read ptr
  let b1 ← nv.read (ptr + 1)
  pure (b0 + b1 * 2 ^ 8)

/-- Read of a `uint32_t` field (little-endian host). -/
def readU32 (nv : Nvram) (ptr : Int) : Outcome Nat := do
  let b0 ← nv.read ptr
  let b1 ← nv.read (ptr + 1)
  let b2 ← nv.read (ptr + 2)
  let b3 ← nv.read (ptr + 3)
  pure (b0 + b1 * 2 ^ 8 + b2 * 2 ^ 16 + b3 * 2 ^ 24)

end Nvram

/-- Structure `EFI_GUID` of edk.hpp. -/
structure EFI_GUID where
  Data1 : Nat
  Data2 : Nat
  Data3 : Nat
  Data4 : List Nat
deriving DecidableEq, Repr

/-- The bytes of a 32-bit value, most significant first (`htobe32` stored to
memory). -/
def be32 (x : Nat) : List Nat :=
  [x / 2 ^ 24 % 256, x / 2 ^ 16 % 256, x / 2 ^ 8 % 256, x % 256]

/-- The bytes of a 16-bit value, most significant first (`htobe16` stored to
memory). -/
def be16 (x : Nat) : List Nat :=
  [x / 2 ^ 8 % 256, x % 256]

/-- Constructor `Guid::Guid(const EFI_GUID&)`: the `uuid_t` of an EFI GUID. -/
def Guid (guid : EFI_GUID) : List Nat :=
  be32 guid.Data1 ++ be16 guid.Data2 ++ be16 guid.Data3 ++ guid.Data4

namespace Nvram

/-- Read of an `EFI_GUID` structure (little-endian host). -/
def readGuid (nv : Nvram) (ptr : Int) : Outcome EFI_GUID := do
  let d1 ← nv.readU32 ptr
  let d2 ← nv.readU16 (ptr + 4)
  let d3 ← nv.readU16 (ptr + 6)
  let d4 ← nv.readRange 8 (ptr + 8)
  pure { Data1 := d1, Data2 := d2, Data3 := d3, Data4 := d4 }

end Nvram

/-! ## nvram.cpp: the NVAR list decoder -/

namespace Nvram

/-- Member `Nvram::getGuid`: the GUID of the reverse-indexed table at the end
of the dump, as a `uuid_t`. -/
def getGuid (nv : Nvram) (index : Nat) : Outcome (List Nat) :=
  let zeroGuid : Int := (nv.dumpSize : Int) - sizeofGuid
  let indexGuid : Int := zeroGuid - (index : Int) * sizeofGuid
  if !nv.isPtrValid indexGuid sizeofGuid then .error .guidNotFound
  else do
    let g ← nv.readGuid indexGuid
    pure (Guid g)

/-- Member `Nvram::getAttributes`. -/
def getAttributes (flags : Nat) : Nat :=
  let attr := EFI_VARIABLE_NON_VOLATILE ||| EFI_VARIABLE_BOOTSERVICE_ACCESS
  let attr := if flags &&& flagRuntime ≠ 0 then attr ||| EFI_VARIABLE_RUNTIME_ACCESS else attr
  let attr := if flags &&& flagHwError ≠ 0 then attr ||| EFI_VARIABLE_HARDWARE_ERROR_RECORD else attr
  let attr := if flags &&& flagAuthWrite ≠ 0 then attr ||| EFI_VARIABLE_AUTHENTICATED_WRITE_ACCESS
    else attr
  attr

/-- The expression `*reinterpret_cast<const uint32_t*>(node->next) & 0x00ffffff`:
the four bytes from the `next` field on, masked to 24 bits. -/
def nextOf (nv : Nvram) (node : Int) : Outcome Nat := do
  let w ← nv.readU32 (node + 6)
  pure (w &&& 0x00ffffff)

/-- The `while (next != lastNodeId)` loop of `Nvram::getLastNode`; `none` is
`nullptr`. -/
def lastNodeLoop (nv : Nvram) : Nat → Int → Nat → Outcome (Option Int)
  | 0, _, _ => .outOfFuel
  | fuel + 1, node, next =>
    if next ≠ lastNodeId then
      if next = 0 then .ok none
      else
        let node := node + (next : Int)
        if !nv.isPtrValid node sizeofNodeHeader then .ok none
        else do
          let signature ← nv.readU32 node
          if signature ≠ nvarSignature then .ok none
          else do
            let next ← nv.nextOf node
            lastNodeLoop nv fuel node next
    else .ok (some node)

/-- Member `Nvram::getLastNode`. -/
def getLastNode (nv : Nvram) (fuel : Nat) (node : Int) : Outcome (Option Int) := do
  let next ← nv.nextOf node
  lastNodeLoop nv fuel node next

/-- The `while (*payloadStart)` loop of `Nvram::readVariable`; gives the
position of the terminating NUL. -/
def nameLoop (nv : Nvram) (payloadEnd : Int) : Nat → Int → Outcome Int
  | 0, _ => .outOfFuel
  | fuel + 1, payloadStart => do
    let c ← nv.read payloadStart
    if c ≠ 0 then
      let payloadStart := payloadStart + 1
      if payloadStart ≥ payloadEnd then .error .nameTooLong
      else nameLoop nv payloadEnd fuel payloadStart
    else .ok payloadStart

/-- Member `Nvram::readVariable`. -/
def readVariable (nv : Nvram) (fuel : Nat) (node : Int) :
    Outcome (VariableKey × VariableValue) := do
  let size ← nv.readU16 (node + 4)
  if size < sizeofNodeHeader then .error .invalidHeader
  else
    let payloadStart : Int := node + sizeofNodeHeader
    let payloadEnd : Int := node + size
    if !nv.isPtrValid payloadStart 1 || !nv.isPtrValid (payloadEnd - 1) 1 then
      .error .invalidHeader
    else do
      -- vendor guid
      let guidIndex ← nv.read payloadStart
      let guid ← nv.getGuid guidIndex
      let payloadStart := payloadStart + 1
      -- variable name
      let name := payloadStart
      let payloadStart ← nv.nameLoop payloadEnd fuel payloadStart
      let keyName ← nv.readRange (payloadStart - name).toNat name
      let payloadStart := payloadStart + 1
      -- variable attributes
      let flags ← nv.read (node + 9)
      let attributes := getAttributes flags
      -- value data
      let dataNode ← nv.getLastNode fuel node
      match dataNode with
      | none => .error .dataNotFound
      | some dataNode =>
        let range : Outcome (Int × Int) :=
          if dataNode ≠ node then do
            let dataSize ← nv.readU16 (dataNode + 4)
            let payloadStart : Int := dataNode + sizeofNodeHeader
            let payloadEnd : Int := dataNode + dataSize
            if !nv.isPtrValid payloadStart 1 || !nv.isPtrValid (payloadEnd - 1) 1 then
              .error .dataOutOfRange
            else .ok (payloadStart, payloadEnd)
          else .ok (payloadStart, payloadEnd)
        do
          let (payloadStart, payloadEnd) ← range
          if payloadStart ≥ payloadEnd then .error .valueEmpty
          else do
            let data ← nv.readRange (payloadEnd - payloadStart).toNat payloadStart
            pure ({ name := keyName, guid := guid }, { attributes := attributes, data := data })

/-- The `while` loop of `Nvram::parse`, `vars` being the local `variables`:
`inner` is the step budget handed to the loops of `readVariable`, the first
`Nat` the budget of this loop. -/
def parseLoop (nv : Nvram) (inner : Nat) : Nat → Int → Variables → Outcome Variables
  | 0, _, _ => .outOfFuel
  | fuel + 1, node, vars =>
    if !nv.isPtrValid node sizeofNodeHeader then .ok vars
    else do
      let signature ← nv.readU32 node
      if signature ≠ nvarSignature then .ok vars
      else do
        let flags ← nv.read (node + 9)
        let vars ←
          if flags &&& flagValid ≠ 0 ∧ ¬ (flags &&& flagDataOnly ≠ 0) then do
            let (key, value) ← nv.readVariable inner node
            pure (vars.insert key value)
          else pure vars
        -- move to the next node
        let size ← nv.readU16 (node + 4)
        parseLoop nv inner fuel (node + size) vars

/-- Member `Nvram::parse`. -/
def parse (fuel : Nat) (data : List Nat) (size : Nat) : Outcome Variables :=
  if size < sizeofNodeHeader then .error .notEnoughData
  else parseLoop { dump := data, dumpSize := size } fuel fuel 0 []

end Nvram

/-- Function `nvram::parseNvram`. -/
def parseNvram (fuel : Nat) (data : List Nat) (size : Nat) : Outcome Variables :=
  Nvram.parse fuel data size

/-! ## nvram.cpp: unwrapping the firmware volume -/

/-- Constant `EFI_FIRMWARE_FILE_SYSTEM2_GUID` of edk.hpp. -/
def EFI_FIRMWARE_FILE_SYSTEM2_GUID : EFI_GUID :=
  { Data1 := 0x8c8ce578, Data2 := 0x8a3d, Data3 := 0x4f1c,
    Data4 := [0x99, 0x35, 0x89, 0x61, 0x85, 0xc3, 0x2d, 0xd3] }

/-- Constant `Nvram::volumeGuid`. -/
def Nvram.volumeGuid : EFI_GUID :=
  { Data1 := 0xfa4974fc, Data2 := 0xaf1d, Data3 := 0x4e5d,
    Data4 := [0xbd, 0xc5, 0xda, 0xcd, 0x6d, 0x27, 0xba, 0xec] }

/-- Constant `Nvram::ffsGuid`. -/
def Nvram.ffsGuid : EFI_GUID :=
  { Data1 := 0xcef5b9a3, Data2 := 0x476d, Data3 := 0x497f,
    Data4 := [0x9f, 0xdc, 0xe9, 0x81, 0x43, 0xe0, 0x42, 0x2c] }

/-- Size of `EFI_FIRMWARE_VOLUME_HEADER` (packed). -/
abbrev sizeofVolumeHeader : Nat := 64

/-- Size of `EFI_FIRMWARE_VOLUME_EXT_HEADER` (packed). -/
abbrev sizeofVolumeExtHeader : Nat := 20

/-- Size of `EFI_FFS_FILE_HEADER` (packed). -/
abbrev sizeofFfsFileHeader : Nat := 24

/-- Number of values of `size_t` (64-bit target). -/
abbrev sizeRange : Nat := 2 ^ 64

/-- Function `nvram::parseVolume`, from the result of `FileMapper::load` on:
`none` when the file cannot be opened or mapped, else the mapped bytes. The
mapping starts at a page boundary, so an address and its offset in the file
agree modulo 8. -/
def parseVolume (fuel : Nat) (file : Option (List Nat)) : Outcome Variables :=
  match file with
  | none => .error .system
  | some bytes =>
    let fileMap : Nvram := { dump := bytes, dumpSize := bytes.length }
    -- Unpack volume
    if fileMap.dumpSize < sizeofVolumeHeader then .error .invalidVolumeHeader
    else do
      let fileSystemGuid ← fileMap.readGuid 16
      if uuid_compare (Guid fileSystemGuid) (Guid EFI_FIRMWARE_FILE_SYSTEM2_GUID) ≠ 0 then
        .error .unsupportedFileSystem
      else do
        let extHeaderOffset ← fileMap.readU16 52
        if extHeaderOffset = 0 then .error .extHeaderNotFound
        else if fileMap.dumpSize < extHeaderOffset + sizeofVolumeExtHeader then
          .error .invalidExtHeader
        else do
          let volExtHdr : Nat := extHeaderOffset
          let fvName ← fileMap.readGuid volExtHdr
          if uuid_compare (Guid fvName) (Guid Nvram.volumeGuid) ≠ 0 then
            .error .unsupportedVolume
          else do
            -- Unpack file
            let extHeaderSize ← fileMap.readU32 (volExtHdr + 16)
            let ffsStart : Nat := volExtHdr + extHeaderSize
            let ffsStart : Nat := ffsStart + ffsStart % 8
            if fileMap.dumpSize < ffsStart + sizeofFfsFileHeader then .error .ffsHeaderNotFound
            else do
              let ffsName ← fileMap.readGuid ffsStart
              if uuid_compare (Guid ffsName) (Guid Nvram.ffsGuid) ≠ 0 then
                .error .unsupportedNvram
              else do
                -- Unpack NVRAM data
                let nvramStart : Nat := ffsStart + sizeofFfsFileHeader
                let ffsSize ← fileMap.readU32 (ffsStart + 20)
                let nvramSize : Nat :=
                  ((ffsSize &&& 0x00ffffff) + sizeRange - sizeofFfsFileHeader) % sizeRange
                if fileMap.dumpSize < (nvramStart + nvramSize) % sizeRange then
                  .error .unexpectedEnd
                else parseNvram fuel (bytes.drop nvramStart) nvramSize

/-! ## storage.cpp -/

/-- Special variable which contains default values for UEFI settings
(`stdDefaults`); the name is the text StdDefaults. -/
def stdDefaults : VariableKey :=
  { name := [83, 116, 100, 68, 101, 102, 97, 117, 108, 116, 115],
    guid := [0x45, 0x99, 0xD2, 0x6F, 0x1A, 0x11, 0x49, 0xB8,
             0xB9, 0x1F, 0x85, 0x87, 0x45, 0xCF, 0xF8, 0x24] }

/-- State of `class Storage`: `vars` is the member `variables`. -/
structure Storage where
  vars : Variables
deriving DecidableEq, Repr

/-- Audit records written to the log. -/
inductive Audit where
  /-- Record "AUDIT: Create UEFI setting" with the key. -/
  | create (key : VariableKey)
  /-- Record "AUDIT: Change UEFI setting" with the key. -/
  | change (key : VariableKey)
  /-- Record "AUDIT: Remove UEFI setting" with the key. -/
  | remove (key : VariableKey)
  /-- Record "AUDIT: Reset UEFI settings". -/
  | reset
  /-- Record "AUDIT: Update UEFI settings". -/
  | update
  /-- Record "AUDIT: Import UEFI settings". -/
  | importVars
deriving DecidableEq, Repr

/-- What one call of a mutating member of `Storage` leaves behind. -/
structure Run where
  /-- The object when the call returns or throws. -/
  storage : Storage
  /-- The maps handed to `saveVariables`, in call order. -/
  saveCalls : List Variables
  /-- The audit records logged. -/
  audit : List Audit
  /-- Normal return, or the exception that leaves the call. -/
  result : Outcome Unit
deriving DecidableEq, Repr

/-- Function `saveVariables` as the store sees it: the snapshot is written, or
the call throws; `writable` tells which. -/
def saveVariables (writable : Bool) (_vars : Variables) : Outcome Unit :=
  if writable then .ok () else .error .writeFailed

/-- The tail shared by the mutating members: `saveVariables(variables, file)`
followed by the audit record. -/
def Storage.saveAndLog (vars : Variables) (writable : Bool) (record : Audit) : Run :=
  match saveVariables writable vars with
  | .ok _ => { storage := ⟨vars⟩, saveCalls := [vars], audit := [record], result := .ok () }
  | .error e => { storage := ⟨vars⟩, saveCalls := [vars], audit := [], result := .error e }
  | .outOfBounds off =>
    { storage := ⟨vars⟩, saveCalls := [vars], audit := [], result := .outOfBounds off }
  | .outOfFuel => { storage := ⟨vars⟩, saveCalls := [vars], audit := [], result := .outOfFuel }

/-- A call left before anything is stored or saved. -/
def Storage.leave {α : Type} (self : Storage) (r : Outcome α) : Run :=
  { storage := self, saveCalls := [], audit := [], result := r.bind (fun _ => .ok ()) }

namespace Storage

/-- Member `Storage::empty`. -/
def empty (self : Storage) : Bool := self.vars.isEmpty

/-- Member `Storage::get`. -/
def get (self : Storage) (key : VariableKey) : Option VariableValue :=
  self.vars.find key

/-- Member `Storage::set`. -/
def set (self : Storage) (key : VariableKey) (value : VariableValue) (writable : Bool) : Run :=
  match self.vars.findIt key with
  | [] => saveAndLog (self.vars.assign key value) writable (.create key)
  | existing :: _ =>
    if existing.2.attributes ≠ value.attributes ∨ existing.2.data ≠ value.data then
      saveAndLog (self.vars.modify key (fun _ => value)) writable (.change key)
    else { storage := self, saveCalls := [], audit := [], result := .ok () }

/-- Member `Storage::remove`. -/
def remove (self : Storage) (key : VariableKey) (writable : Bool) : Run :=
  match self.vars.findIt key with
  | [] => { storage := self, saveCalls := [], audit := [], result := .ok () }
  | _ :: _ => saveAndLog (self.vars.erase key) writable (.remove key)

/-- Member `Storage::next`. -/
def next (self : Storage) (key : VariableKey) : Option VariableKey :=
  if key.name.isEmpty then
    -- Request for the first variable
    match self.vars with
    | [] => none
    | first :: _ => some first.1
  else
    match self.vars.findIt key with
    | [] => none
    | _ :: following =>
      match following with
      | [] => none
      | existing :: _ => some existing.1

/-- Member `Storage::reset`. -/
def reset (_self : Storage) (writable : Bool) : Run :=
  saveAndLog [] writable .reset

/-- The body of the `if (existing != variables.end())` of `Storage::updateVars`:
the stored value after the merge with the new default. -/
def mergeVar (oldVar newVar : VariableValue) : VariableValue :=
  let newDataSize := newVar.data.length
  let oldDataSize := oldVar.data.length
  { attributes := newVar.attributes,
    data :=
      if newDataSize > oldDataSize then oldVar.data ++ newVar.data.drop oldDataSize
      else if newDataSize < oldDataSize then oldVar.data.take newDataSize
      else oldVar.data }

/-- The loop `for (auto const& defVar : defVars)` of `Storage::updateVars`. -/
def mergeLoop : Variables → Variables → Variables
  | [], vars => vars
  | defVar :: rest, vars =>
    match vars.findIt defVar.1 with
    | [] => mergeLoop rest vars
    | _ :: _ => mergeLoop rest (vars.modify defVar.1 (fun oldVar => mergeVar oldVar defVar.2))

/-- Member `Storage::updateVars`; `newNvram` is what `FileMapper::load` gives
for the path. -/
def updateVars (self : Storage) (fuel : Nat) (newNvram : Option (List Nat))
    (writable : Bool) : Run :=
  -- get default variables to determine their new sizes
  match parseVolume fuel newNvram with
  | .ok newVars =>
    match newVars.findIt stdDefaults with
    | [] => self.leave (Outcome.error .stdDefaultsNotFound : Outcome Unit)
    | itDefaults :: _ =>
      if itDefaults.2.data.isEmpty then
        self.leave (Outcome.error .stdDefaultsNotFound : Outcome Unit)
      else
        match parseNvram fuel itDefaults.2.data itDefaults.2.data.length with
        | .ok defVars => saveAndLog (mergeLoop defVars self.vars) writable .update
        | failed => self.leave failed
  | failed => self.leave failed

/-- The loop `for (const auto& var : oldVars)` of `Storage::importVars`. -/
def importLoop : Variables → Variables → Variables
  | [], vars => vars
  | var :: rest, vars =>
    if var.1.name ≠ stdDefaults.name then importLoop rest (vars.assign var.1 var.2)
    else importLoop rest vars

/-- Member `Storage::importVars`; `oldNvram` is what `FileMapper::load` gives
for the path. -/
def importVars (self : Storage) (fuel : Nat) (oldNvram : Option (List Nat))
    (writable : Bool) : Run :=
  match parseVolume fuel oldNvram with
  | .ok oldVars =>
    -- unpack and put default variables
    match oldVars.findIt stdDefaults with
    | [] => self.leave (Outcome.error .stdDefaultsNotFound : Outcome Unit)
    | itDefaults :: _ =>
      if itDefaults.2.data.isEmpty then
        self.leave (Outcome.error .stdDefaultsNotFound : Outcome Unit)
      else
        match parseNvram fuel itDefaults.2.data itDefaults.2.data.length with
        | .ok vars =>
          -- put old variables
          saveAndLog (importLoop oldVars vars) writable .importVars
        | failed => self.leave failed
  | failed => self.leave failed

end Storage

/-! ## The records of a scan -/

namespace Nvram

/-- The pairs that `readVariable` yields during the loop of `Nvram::parse`, in
scan order: the sequence of the arguments of `variables.insert`. The loop is
the one of `parseLoop`, with the map left out. -/
def decodedLoop (nv : Nvram) (inner : Nat) : Nat → Int → Outcome (List (VariableKey × VariableValue))
  | 0, _ => .outOfFuel
  | fuel + 1, node =>
    if !nv.isPtrValid node sizeofNodeHeader then .ok []
    else do
      let signature ← nv.readU32 node
      if signature ≠ nvarSignature then .ok []
      else do
        let flags ← nv.read (node + 9)
        let found ←
          if flags &&& flagValid ≠ 0 ∧ ¬ (flags &&& flagDataOnly ≠ 0) then do
            let (key, value) ← nv.readVariable inner node
            pure [(key, value)]
          else pure []
        let size ← nv.readU16 (node + 4)
        let rest ← decodedLoop nv inner fuel (node + size)
        pure (found ++ rest)

/-- The variable-definition records of a dump as decoded, in scan order. -/
def decoded (fuel : Nat) (data : List Nat) (size : Nat) :
    Outcome (List (VariableKey × VariableValue)) :=
  if size < sizeofNodeHeader then .error .notEnoughData
  else decodedLoop { dump := data, dumpSize := size } fuel fuel 0

end Nvram

/-- The map built by `variables.insert` of each pair in turn. -/
def insertAll (recs : List (VariableKey × VariableValue)) (vars : Variables) : Variables :=
  recs.foldl (fun m r => m.insert r.1 r.2) vars

/-! ## Enumeration by a caller -/

/-- A caller that enumerates the store: the keys returned by `next`, each fed
back into `next`, until `next` returns nothing or the budget of calls is used
up; the flag tells that `next` has returned nothing. -/
def Storage.walk (self : Storage) : Nat → Option VariableKey → List VariableKey × Bool
  | _, none => ([], true)
  | 0, some _ => ([], false)
  | budget + 1, some key =>
    let following := walk self budget (self.next key)
    (key :: following.1, following.2)

/-! ## The fields of a dump -/

/-- The byte at an offset of a byte sequence, 0 past its end. -/
def byteAt (bytes : List Nat) (i : Nat) : Nat := bytes.getD i 0 % 256

/-- The little-endian 16-bit field at an offset. -/
def u16At (bytes : List Nat) (i : Nat) : Nat :=
  byteAt bytes i + byteAt bytes (i + 1) * 2 ^ 8

/-- The little-endian 32-bit field at an offset. -/
def u32At (bytes : List Nat) (i : Nat) : Nat :=
  byteAt bytes i + byteAt bytes (i + 1) * 2 ^ 8 + byteAt bytes (i + 2) * 2 ^ 16
    + byteAt bytes (i + 3) * 2 ^ 24

/-- The bytes at the offsets `i`, ..., `i + count - 1`. -/
def bytesAt (bytes : List Nat) : Nat → Nat → List Nat
  | 0, _ => []
  | count + 1, i => byteAt bytes i :: bytesAt bytes count (i + 1)

/-- The `EFI_GUID` structure stored at an offset. -/
def efiGuidAt (bytes : List Nat) (i : Nat) : EFI_GUID :=
  { Data1 := u32At bytes i, Data2 := u16At bytes (i + 4), Data3 := u16At bytes (i + 6),
    Data4 := bytesAt bytes 8 (i + 8) }

/-- The `uuid_t` that `Guid::Guid` makes of the `EFI_GUID` stored at an offset. -/
def uuidAt (bytes : List Nat) (i : Nat) : List Nat := Guid (efiGuidAt bytes i)

/-! ## nvram.cpp: the container checks by field -/

/-- Field `volHdr->ExtHeaderOffset` of a mapped file. -/
def extHeaderOffsetOf (bytes : List Nat) : Nat := u16At bytes 52

/-- Field `volExtHdr->ExtHeaderSize` of a mapped file. -/
def extHeaderSizeOf (bytes : List Nat) : Nat := u32At bytes (extHeaderOffsetOf bytes + 16)

/-- Local `ffsStart` of `nvram::parseVolume` after the statement
`ffsStart += reinterpret_cast<size_t>(ffsStart) % 8`, as an offset in the
mapped file: the offset at which the FFS file header is read. -/
def ffsStartOf (bytes : List Nat) : Nat :=
  let ffsStart := extHeaderOffsetOf bytes + extHeaderSizeOf bytes
  ffsStart + ffsStart % 8

/-- Local `nvramStart` of `nvram::parseVolume`, as an offset in the mapped
file. -/
def nvramStartOf (bytes : List Nat) : Nat := ffsStartOf bytes + sizeofFfsFileHeader

/-- The 24-bit field `ffsHdr->Size` of a mapped file. -/
def ffsSizeOf (bytes : List Nat) : Nat := u32At bytes (ffsStartOf bytes + 20) &&& 0x00ffffff

/-- Local `nvramSize` of `nvram::parseVolume`: the size field minus the size
of the file header, in `size_t` arithmetic. -/
def nvramSizeOf (bytes : List Nat) : Nat :=
  (ffsSizeOf bytes + sizeRange - sizeofFfsFileHeader) % sizeRange

/-- The checks of `nvram::parseVolume` on a mapped file, in the order of the
source, up to the call of `parseNvram`: gives the arguments of that call as
the offset `nvramStart` and `nvramSize`. -/
def unwrapVolume (bytes : List Nat) : Outcome (Nat × Nat) :=
  if bytes.length < sizeofVolumeHeader then .error .invalidVolumeHeader
  else if uuid_compare (uuidAt bytes 16) (Guid EFI_FIRMWARE_FILE_SYSTEM2_GUID) ≠ 0 then
    .error .unsupportedFileSystem
  else if extHeaderOffsetOf bytes = 0 then .error .extHeaderNotFound
  else if bytes.length < extHeaderOffsetOf bytes + sizeofVolumeExtHeader then
    .error .invalidExtHeader
  else if uuid_compare (uuidAt bytes (extHeaderOffsetOf bytes)) (Guid Nvram.volumeGuid) ≠ 0 then
    .error .unsupportedVolume
  else if bytes.length < ffsStartOf bytes + sizeofFfsFileHeader then .error .ffsHeaderNotFound
  else if uuid_compare (uuidAt bytes (ffsStartOf bytes)) (Guid Nvram.ffsGuid) ≠ 0 then
    .error .unsupportedNvram
  else if bytes.length < (nvramStartOf bytes + nvramSizeOf bytes) % sizeRange then
    .error .unexpectedEnd
  else .ok (nvramStartOf bytes, nvramSizeOf bytes)

/-! ## The key order in the words of the specification -/

/-- Lexicographic order of byte sequences, bytes compared as numbers. -/
def lexSmaller (a b : List Nat) : Prop := List.Lex (fun x y : Nat => x < y) a b

/-- GUID-major order of keys: the GUID bytes lexicographically smaller, or the
GUIDs equal and the name lexicographically smaller. -/
def guidMajorLt (a b : VariableKey) : Prop :=
  lexSmaller a.guid b.guid ∨ (a.guid = b.guid ∧ lexSmaller a.name b.name)

/-! ## variable.cpp: the hex codec -/

/-- Table `hexMap` of `binToHex`: the characters 0-9 and A-F. -/
def hexMap : List Nat := [48, 49, 50, 51, 52, 53, 54, 55, 56, 57, 65, 66, 67, 68, 69, 70]

/-- Function `binToHex`: two characters of `hexMap` for every byte, the high
half first. -/
def binToHex : List Nat → List Nat
  | [] => []
  | b :: rest =>
    let byte := b % 256
    hexMap.getD (byte >>> 4) 0 :: hexMap.getD (byte &&& 0x0f) 0 :: binToHex rest

/-- Dereference `*hex` of a C string given by its characters: the end of the
list reads as the terminating NUL. -/
def charAt (hex : List Nat) : Nat := hex.headD 0 % 256

/-- Library function `isspace` in the C locale. -/
def isspace (c : Nat) : Bool := c == 32 || (decide (9 ≤ c) && decide (c ≤ 13))

/-- The loop `while (isspace(*hex) || *hex == '-') ++hex;` of `hexToBin`. -/
def skipSeparators : List Nat → List Nat
  | [] => []
  | c :: rest =>
    if isspace (c % 256) || c % 256 == 45 then skipSeparators rest else c :: rest

/-- The chain of tests on `ch` in `hexToBin`: the value that is or-ed into
`val`, `none` standing for the throw. -/
def hexValue (ch : Nat) : Option Nat :=
  if 48 ≤ ch ∧ ch ≤ 57 then some (ch - 48)
  else if 97 ≤ ch ∧ ch ≤ 102 then some (0x0a + ch - 97)
  else if 65 ≤ ch ∧ ch ≤ 70 then some (0x0a + ch - 65)
  else none

/-- The loop `while (*hex)` of `hexToBin`, giving the bytes pushed to `data`
from here on. -/
def hexToBinLoop : Nat → List Nat → Outcome (List Nat)
  | 0, _ => .outOfFuel
  | fuel + 1, hex =>
    if charAt hex = 0 then .ok []
    else
      -- Skip spaces and dashes
      let hex := skipSeparators hex
      if charAt hex = 0 then .ok []
      else
        -- Convert 2-bytes text hex to numeric
        let val := 0
        match hexValue (charAt hex) with
        | none => .error .hexCharacter
        | some d =>
          let val := (val <<< (4 * 0)) % 256 ||| d
          let hex := hex.tail
          match hexValue (charAt hex) with
          | none => .error .hexCharacter
          | some d => do
            let val := (val <<< (4 * 1)) % 256 ||| d
            let hex := hex.tail
            let rest ← hexToBinLoop fuel hex
            pure (val :: rest)

/-- Function `hexToBin`. -/
def hexToBin (fuel : Nat) (hex : List Nat) : Outcome (List Nat) :=
  if charAt hex = 0 then .error .hexEmpty
  else hexToBinLoop fuel hex

/-- Library function `tolower` in the C locale. -/
def tolower (c : Nat) : Nat := if 65 ≤ c ∧ c ≤ 90 then c + 32 else c

/-- The string with every character lower-cased. -/
def lowerCase (s : List Nat) : List Nat := s.map tolower

/-! ## variable.cpp: the snapshot -/

/-- A C string handed over as `const char*`: the characters before the first
NUL. -/
def cString (s : List Nat) : List Nat := s.takeWhile fun c => c % 256 != 0

/-- Library function `uuid_unparse_upper` of libuuid: the format
`%08X-%04X-%04X-%02X%02X-%02X%02X%02X%02X%02X%02X` of the sixteen bytes. -/
def uuid_unparse_upper (uu : List Nat) : List Nat :=
  binToHex (uu.take 4) ++ [45] ++ binToHex ((uu.drop 4).take 2) ++ [45]
    ++ binToHex ((uu.drop 6).take 2) ++ [45] ++ binToHex ((uu.drop 8).take 2) ++ [45]
    ++ binToHex ((uu.drop 10).take 6)

/-- The bytes written by a string of hex digit pairs, `none` when a character
is not a hex digit or a digit has no partner. -/
def hexPairs : List Nat → Option (List Nat)
  | [] => some []
  | [_] => none
  | h :: l :: rest =>
    match hexValue h, hexValue l, hexPairs rest with
    | some hi, some lo, some r => some ((hi * 16 + lo) :: r)
    | _, _, _ => none

/-- Library function `uuid_parse` of libuuid, `none` standing for the result
-1: the string has 36 characters, hyphens at the positions 8, 13, 18 and 23
and hex digits elsewhere, and the bytes are the digit pairs in their order. -/
def uuid_parse (input : List Nat) : Option (List Nat) :=
  let s := cString input
  if s.length ≠ 36 then none
  else if s.getD 8 0 ≠ 45 ∨ s.getD 13 0 ≠ 45 ∨ s.getD 18 0 ≠ 45 ∨ s.getD 23 0 ≠ 45 then none
  else hexPairs (s.take 8 ++ (s.drop 9).take 4 ++ (s.drop 14).take 4 ++ (s.drop 19).take 4
    ++ s.drop 24)

/-- Library function `json_object_get_int` of json-c on a number: the value
clamped to the range of `int32_t`. -/
def json_object_get_int (value : Int) : Int :=
  if value ≤ -2147483648 then -2147483648
  else if value ≥ 2147483647 then 2147483647
  else value

/-- Value `EINVAL` of errno.h. -/
abbrev EINVAL : Nat := 22

/-- One element of the array "variables" of a snapshot, by field: `none` is a
field that `json_object_object_get_ex` does not find, a string is given by its
characters and a number by its value. -/
structure JsonVar where
  name : Option (List Nat)
  guid : Option (List Nat)
  attr : Option Int
  data : Option (List Nat)
deriving DecidableEq, Repr

/-- What `json_object_from_file` gives for a snapshot: no object, an object
without the node "variables", or the elements of that array. -/
inductive JsonFile where
  | unreadable
  | noRoot
  | root (jvarlist : List JsonVar)
deriving DecidableEq, Repr

/-- The body of the loop of `saveVariables`: the object `jvar` made for one
entry of the map. -/
def jsonVar (it : VariableKey × VariableValue) : JsonVar :=
  { name := some (cString it.1.name),
    guid := some (uuid_unparse_upper it.1.guid),
    attr := some (it.2.attributes : Int),
    data := some (cString (binToHex it.2.data)) }

/-- The snapshot written by `saveVariables(variables, file)` when the write
succeeds, as `json_object_from_file` reads it back: json-c is taken to return
the strings and numbers it has been given. -/
def savedFile (vars : Variables) : JsonFile := .root (vars.map jsonVar)

/-- The loop `while (--idx >= 0)` of `loadVariables` over the elements in the
order it visits them; `errno` is the value of `errno` when the attribute has
been read, a number node leaving it as it was. -/
def loadLoop (fuel : Nat) (errno : Nat) : List JsonVar → Variables → Outcome Variables
  | [], vars => .ok vars
  | jvar :: rest, vars =>
    match jvar.name, jvar.guid, jvar.attr, jvar.data with
    | some name, some guid, some attr, some data =>
      if charAt name = 0 then .error .jsonInvalidName
      else
        match uuid_parse guid with
        | none => .error .jsonInvalidGuid
        | some uu =>
          let attributes := (json_object_get_int attr % 2 ^ 32).toNat
          if attributes = 0 ∧ errno = EINVAL then .error .jsonInvalidAttribute
          else if charAt data = 0 then .error .jsonInvalidData
          else do
            let bytes ← hexToBin fuel data
            loadLoop fuel errno rest
              (vars.assign { name := cString name, guid := uu }
                { attributes := attributes, data := bytes })
    | _, _, _, _ => .error .jsonIncomplete

/-- Function `loadVariables`: the array is visited from its last element to
its first. -/
def loadVariables (fuel : Nat) (errno : Nat) : JsonFile → Outcome Variables
  | .unreadable => .error .loadFailed
  | .noRoot => .error .jsonRootNotFound
  | .root jvarlist => loadLoop fuel errno jvarlist.reverse []

/-- What the round trip of a snapshot asks of an entry: a name that is not
empty and has no NUL, a GUID of sixteen bytes, attributes below `2 ^ 31`, and
data bytes that are not empty. -/
def Loadable (it : VariableKey × VariableValue) : Prop :=
  it.1.name ≠ [] ∧ (∀ c ∈ it.1.name, c % 256 ≠ 0) ∧
  it.1.guid.length = 16 ∧ (∀ b ∈ it.1.guid, b < 256) ∧
  it.2.attributes < 2 ^ 31 ∧
  it.2.data ≠ [] ∧ (∀ b ∈ it.2.data, b < 256)

/-! ## The value chain in the words of the specification -/

/-- The 24-bit `next` field of the record header at an offset of the dump. -/
def nextAt (bytes : List Nat) (i : Nat) : Nat := u32At bytes (i + 6) &&& 0x00ffffff

/-- The chain of `next` offsets that starts at the node at offset `o` ends at
the node at offset `d`: every offset is taken from the current node, every hop
target leaves room for a header inside the dump and carries the signature, and
`d` is the first node whose `next` field is the end mark `0xFFFFFF`. -/
inductive ChainEnds (nv : Nvram) : Nat → Nat → Prop where
  | last (o : Nat) : nextAt nv.dump o = Nvram.lastNodeId → ChainEnds nv o o
  | hop (o d : Nat) : nextAt nv.dump o ≠ Nvram.lastNodeId → nextAt nv.dump o ≠ 0 →
      o + nextAt nv.dump o + 10 ≤ nv.dumpSize →
      u32At nv.dump (o + nextAt nv.dump o) = Nvram.nvarSignature →
      ChainEnds nv (o + nextAt nv.dump o) d → ChainEnds nv o d

/-- The chain of `next` offsets that starts at the node at offset `o` is
broken: some node of it has the `next` field 0, or a hop target that leaves no
room for a header inside the dump, or a hop target without the signature. -/
inductive ChainBroken (nv : Nvram) : Nat → Prop where
  | zero (o : Nat) : nextAt nv.dump o = 0 → ChainBroken nv o
  | noRoom (o : Nat) : nextAt nv.dump o ≠ Nvram.lastNodeId →
      ¬ (o + nextAt nv.dump o + 10 ≤ nv.dumpSize) → ChainBroken nv o
  | badSignature (o : Nat) : nextAt nv.dump o ≠ Nvram.lastNodeId →
      u32At nv.dump (o + nextAt nv.dump o) ≠ Nvram.nvarSignature → ChainBroken nv o
  | hop (o : Nat) : nextAt nv.dump o ≠ Nvram.lastNodeId → nextAt nv.dump o ≠ 0 →
      o + nextAt nv.dump o + 10 ≤ nv.dumpSize →
      u32At nv.dump (o + nextAt nv.dump o) = Nvram.nvarSignature →
      ChainBroken nv (o + nextAt nv.dump o) → ChainBroken nv o

/-! ## The turns of a scan -/

namespace Nvram

/-- One turn of the `while` loop of `Nvram::parse` from the position `node`
with the map `vars`: `none` when the loop condition fails, else the position
and the map after the body. -/
def scanStep (nv : Nvram) (inner : Nat) (node : Int) (vars : Variables) :
    Outcome (Option (Int × Variables)) :=
  if !nv.isPtrValid node sizeofNodeHeader then .ok none
  else do
    let signature ← nv.readU32 node
    if signature ≠ nvarSignature then .ok none
    else do
      let flags ← nv.read (node + 9)
      let vars ←
        if flags &&& flagValid ≠ 0 ∧ ¬ (flags &&& flagDataOnly ≠ 0) then do
          let (key, value) ← nv.readVariable inner node
          pure (vars.insert key value)
        else pure vars
      -- move to the next node
      let size ← nv.readU16 (node + 4)
      pure (some (node + size, vars))

/-- The position and the map that the loop of `Nvram::parse` has reached after
the given number of turns, `none` when the loop has ended before. -/
def scanAfter (nv : Nvram) (inner : Nat) : Nat → Int → Variables → Outcome (Option (Int × Variables))
  | 0, node, vars => .ok (some (node, vars))
  | turns + 1, node, vars => do
    let state ← nv.scanStep inner node vars
    match state with
    | none => .ok none
    | some (node, vars) => scanAfter nv inner turns node vars

end Nvram

/-! ## GUIDs and attributes in the words of the specification -/

/-- The key GUID of the table entry at an offset in the words of the
specification: the raw bytes b0 .. b15 in the order b3 b2 b1 b0, b5 b4, b7 b6,
b8 .. b15. -/
def swappedGuid (bytes : List Nat) (i : Nat) : List Nat :=
  [byteAt bytes (i + 3), byteAt bytes (i + 2), byteAt bytes (i + 1), byteAt bytes i,
   byteAt bytes (i + 5), byteAt bytes (i + 4), byteAt bytes (i + 7), byteAt bytes (i + 6),
   byteAt bytes (i + 8), byteAt bytes (i + 9), byteAt bytes (i + 10), byteAt bytes (i + 11),
   byteAt bytes (i + 12), byteAt bytes (i + 13), byteAt bytes (i + 14), byteAt bytes (i + 15)]

/-- The attributes of a record flag byte in the words of the specification:
0x3, with 0x4 for the bit 0x01, 0x8 for the bit 0x20 and 0x10 for the bit
0x40. -/
def flagAttributes (f : Nat) : Nat :=
  0x3 ||| (if f &&& 0x01 ≠ 0 then 0x4 else 0) ||| (if f &&& 0x20 ≠ 0 then 0x8 else 0)
    ||| (if f &&& 0x40 ≠ 0 then 0x10 else 0)

/-! ## Example data -/

namespace Example

/-- The memory image of the `EFI_GUID` whose `uuid_t` is the given one. -/
def efiBytes (uuid : List Nat) : List Nat :=
  (uuid.take 4).reverse ++ ((uuid.drop 4).take 2).reverse ++ ((uuid.drop 6).take 2).reverse
    ++ uuid.drop 8

/-- One NVAR record that holds its own value: header with the given flag byte
and `next` = 0xffffff, GUID index, NUL-terminated name, value bytes. -/
def record (flags guidIndex : Nat) (name data : List Nat) : List Nat :=
  let size := 10 + 1 + name.length + 1 + data.length
  [78, 86, 65, 82, size % 256, size / 256, 255, 255, 255, flags, guidIndex] ++ name ++ [0] ++ data

/-- A firmware volume around an NVAR payload: volume header (extended header
at 64), extended header of size 20, padding to 88, file header, payload. -/
def volume (payload : List Nat) : List Nat :=
  let size := 24 + payload.length
  List.replicate 16 0 ++ [0x78, 0xe5, 0x8c, 0x8c, 0x3d, 0x8a, 0x1c, 0x4f]
    ++ [0x99, 0x35, 0x89, 0x61, 0x85, 0xc3, 0x2d, 0xd3]
    ++ List.replicate 20 0 ++ [64, 0] ++ List.replicate 10 0
    ++ [0xfc, 0x74, 0x49, 0xfa, 0x1d, 0xaf, 0x5d, 0x4e]
    ++ [0xbd, 0xc5, 0xda, 0xcd, 0x6d, 0x27, 0xba, 0xec] ++ [20, 0, 0, 0]
    ++ List.replicate 4 0
    ++ [0xa3, 0xb9, 0xf5, 0xce, 0x6d, 0x47, 0x7f, 0x49]
    ++ [0x9f, 0xdc, 0xe9, 0x81, 0x43, 0xe0, 0x42, 0x2c] ++ [0, 0, 0, 0]
    ++ [size % 256, size / 256 % 256, size / 65536 % 256, 0]
    ++ payload

/-- The GUID of the tests of the store (`GUID1`). -/
def guid1 : List Nat := [1, 2, 3, 4, 5, 6, 7, 8, 9, 10, 11, 12, 13, 14, 15, 16]

/-- The key NetworkStackVar of the tests. -/
def netVar : VariableKey :=
  { name := [78, 101, 116, 119, 111, 114, 107, 83, 116, 97, 99, 107, 86, 97, 114],
    guid := [0xd1, 0x40, 0x5d, 0x16, 0x7a, 0xfc, 0x46, 0x95,
             0xbb, 0x12, 0x41, 0x45, 0x9d, 0x36, 0x95, 0xa2] }

/-- The eight bytes 01 01 00 01 00 01 00 00. -/
def netDefault : List Nat := [1, 1, 0, 1, 0, 1, 0, 0]

/-- A nested default list: NetworkStackVar = `netDefault`, then the GUID table. -/
def defaultsPayload : List Nat :=
  record 0x80 0 netVar.name netDefault ++ efiBytes netVar.guid

/-- A dump with the sentinel StdDefaults holding `defaultsPayload`, a second
variable named StdDefaults under `guid1` with value 7, and the variable
named A under `guid1` with value 5. -/
def dumpPayload : List Nat :=
  record 0x80 0 stdDefaults.name defaultsPayload
    ++ record 0x80 1 stdDefaults.name [7]
    ++ record 0x81 1 [65] [5]
    ++ efiBytes guid1 ++ efiBytes stdDefaults.guid

/-- The firmware volume of `dumpPayload`. -/
def dumpFile : List Nat := volume dumpPayload

/-- A payload with one key twice: A under `guid1` with value 1, then with
value 2, then the GUID table. -/
def twicePayload : List Nat :=
  record 0x80 0 [65] [1] ++ record 0x80 0 [65] [2] ++ efiBytes guid1

/-- A record that is skipped (flag byte 0) and declares the length 0. -/
def stuckPayload : List Nat := [78, 86, 65, 82, 0, 0, 0, 0, 0, 0]

/-- A skipped record of 10 bytes, then a record of declared length 11 whose
GUID index is the last byte of the dump. -/
def edgePayload : List Nat :=
  [78, 86, 65, 82, 10, 0, 0, 0, 0, 0, 78, 86, 65, 82, 11, 0, 255, 255, 255, 128, 0]

/-- A firmware volume as `volume`, with the given `ExtHeaderSize`, padding
after the 20 bytes of the extended header, and size field of the file. -/
def volumeWith (extHeaderSize padding ffsSize : Nat) (payload : List Nat) : List Nat :=
  List.replicate 16 0 ++ [0x78, 0xe5, 0x8c, 0x8c, 0x3d, 0x8a, 0x1c, 0x4f]
    ++ [0x99, 0x35, 0x89, 0x61, 0x85, 0xc3, 0x2d, 0xd3]
    ++ List.replicate 20 0 ++ [64, 0] ++ List.replicate 10 0
    ++ [0xfc, 0x74, 0x49, 0xfa, 0x1d, 0xaf, 0x5d, 0x4e]
    ++ [0xbd, 0xc5, 0xda, 0xcd, 0x6d, 0x27, 0xba, 0xec] ++ [extHeaderSize, 0, 0, 0]
    ++ List.replicate padding 0
    ++ [0xa3, 0xb9, 0xf5, 0xce, 0x6d, 0x47, 0x7f, 0x49]
    ++ [0x9f, 0xdc, 0xe9, 0x81, 0x43, 0xe0, 0x42, 0x2c] ++ [0, 0, 0, 0]
    ++ [ffsSize % 256, ffsSize / 256 % 256, ffsSize / 65536 % 256, 0]
    ++ payload

/-- The volume of `dumpPayload` with an extended header of 22 bytes (ends at
offset 86) and the file header at offset 88, the next multiple of 8. -/
def alignedFile : List Nat := volumeWith 22 4 (24 + dumpPayload.length) dumpPayload

/-- The same volume with the file header at offset 92 = 86 + 86 % 8. -/
def shiftedFile : List Nat := volumeWith 22 8 (24 + dumpPayload.length) dumpPayload

/-- A volume whose file declares the size 0, less than its own header, with
ten bytes after the header. -/
def shortSizeFile : List Nat := volumeWith 20 4 0 (List.replicate 10 0)

/-- A dump of 39 bytes: a variable-definition record at offset 0 of declared
length 11 (header and GUID index, no room for a name) whose `next` field is
12; the byte 0 at offset 11; at offset 12 a data-only record of declared
length 11 with the value byte 42; the GUID table (`guid1`). -/
def namelessPayload : List Nat :=
  [78, 86, 65, 82, 11, 0, 12, 0, 0, 0x80, 0] ++ [0]
    ++ [78, 86, 65, 82, 11, 0, 255, 255, 255, 0x88, 42] ++ efiBytes guid1

/-- The test of the key order (`VariableKeyTest.Less`): the names Abc and Def. -/
def nameAbc : List Nat := [65, 98, 99]

/-- The name Def. -/
def nameDef : List Nat := [68, 101, 102]

/-- The GUID of the tests `GUID2`. -/
def guid2 : List Nat := [16, 15, 14, 13, 12, 11, 10, 9, 8, 7, 6, 5, 4, 3, 2, 1]

/-- The key named A under `guid1`. -/
def keyA : VariableKey := { name := [65], guid := guid1 }

/-- The key named StdDefaults under `guid1`, not the GUID of the sentinel. -/
def otherDefaults : VariableKey := { name := stdDefaults.name, guid := guid1 }

/-- The top-level variables of `dumpFile`. -/
def dumpVars : Variables :=
  [(keyA, { attributes := 7, data := [5] }),
   (otherDefaults, { attributes := 3, data := [7] }),
   (stdDefaults, { attributes := 3, data := defaultsPayload })]

/-- The default set nested in `dumpFile`. -/
def dumpDefaults : Variables := [(netVar, { attributes := 3, data := netDefault })]

/-- A key with an empty name, under the GUID of the tests `GUID2`. -/
def unnamed : VariableKey :=
  { name := [], guid := [16, 15, 14, 13, 12, 11, 10, 9, 8, 7, 6, 5, 4, 3, 2, 1] }

/-- The store after `set` of `keyA` and of `unnamed` on an empty store. -/
def unnamedStore : Storage :=
  ((Storage.set ⟨[]⟩ keyA { attributes := 0, data := [0] } true).storage.set unnamed
    { attributes := 0, data := [0] } true).storage

/-- The variable of the test `VariablesTest.LoadSave`. -/
def testVariable : Variables :=
  [({ name := [84, 101, 115, 116, 86, 97, 114, 105, 97, 98, 108, 101],
      guid := [0x96, 0x46, 0xa1, 0x0c, 0x1f, 0xd0, 0x4b, 0xdc, 0x9a, 0x59, 0xab, 0x5b, 0x17, 0x5b,
               0x57, 0x9e] },
    { attributes := 0x12345678, data := [1, 2, 3, 4] })]

/-- A dump of 29 bytes: a variable-definition record named A at offset 0 whose
`next` field is 19, and at offset 19 a data-only node of declared length 10
(a header without value bytes) that ends with the dump; the last sixteen
bytes also serve as the GUID table. -/
def endNodePayload : List Nat :=
  [78, 86, 65, 82, 13, 0, 19, 0, 0, 0x80, 0, 65, 0] ++ List.replicate 6 0
    ++ [78, 86, 65, 82, 10, 0, 255, 255, 255, 0x88]

/-- A variable-definition record named A that holds its own value and has no
value bytes, then the GUID table. -/
def emptyValuePayload : List Nat := record 0x80 0 [65] [] ++ efiBytes guid1

/-- A variable-definition record named A with the value byte 5 whose `next`
field is 0, then the GUID table. -/
def brokenPayload : List Nat :=
  [78, 86, 65, 82, 14, 0, 0, 0, 0, 0x80, 0, 65, 0, 5] ++ efiBytes guid1

/-- A dump of 36 bytes: at offset 0 a record of declared length 6 with the
flag byte 0x52 (valid bit clear) and the given three bytes as `next` field;
from offset 10 on the bytes that make a variable-definition record named A
with the value 5 out of the ten bytes at offset 6; the GUID table (`guid1`). -/
def overlapPayload (next : List Nat) : List Nat :=
  [78, 86, 65, 82, 6, 0] ++ next ++ [0x52] ++ [14, 0, 255, 255, 255, 0x80, 0, 65, 0, 5]
    ++ efiBytes guid1

/-- Two variable-definition records, A with the flag byte 0x81 and the value 5
and B with the flag byte 0xE1 and the value 6, then the GUID table (`guid1`). -/
def flagsPayload : List Nat :=
  record 0x81 0 [65] [5] ++ record 0xe1 0 [66] [6] ++ efiBytes guid1

end Example

/-! ## The key order -/

theorem uuid_compare_eq_zero (a b : List Nat) : uuid_compare a b = 0 ↔ a = b := by
  induction a generalizing b with
  | nil => cases b <;> simp [uuid_compare]
  | cons x xs ih =>
    cases b with
    | nil => simp [uuid_compare]
    | cons y ys =>
      simp only [uuid_compare]
      split_ifs with h1 h2
      · simp; omega
      · simp; omega
      · have hxy : x = y := by omega
        simp [ih, hxy]

theorem uuid_compare_neg (a b : List Nat) : uuid_compare a b < 0 ↔ stringLt a b = true := by
  induction a generalizing b with
  | nil => cases b <;> simp [uuid_compare, stringLt]
  | cons x xs ih =>
    cases b with
    | nil => simp [uuid_compare, stringLt]
    | cons y ys =>
      simp only [uuid_compare, stringLt]
      split_ifs with h1 h2
      · simp
      · simp
      · exact ih ys

theorem stringLt_irrefl (a : List Nat) : stringLt a a = false := by
  induction a with
  | nil => simp [stringLt]
  | cons x xs ih => simp [stringLt, ih]

theorem stringLt_trans (a b c : List Nat) (hab : stringLt a b = true)
    (hbc : stringLt b c = true) : stringLt a c = true := by
  induction a generalizing b c with
  | nil =>
    cases c with
    | nil => cases b <;> simp [stringLt] at hbc
    | cons z zs => simp [stringLt]
  | cons x xs ih =>
    cases b with
    | nil => simp [stringLt] at hab
    | cons y ys =>
      cases c with
      | nil => simp [stringLt] at hbc
      | cons z zs =>
        simp only [stringLt] at hab hbc ⊢
        split_ifs at hab hbc ⊢ with h1 h2 h3 h4 h5 h6 <;> first
          | rfl
          | omega
          | exact ih ys zs hab hbc

theorem stringLt_total (a b : List Nat) (hne : a ≠ b) :
    stringLt a b = true ∨ stringLt b a = true := by
  induction a generalizing b with
  | nil =>
    cases b with
    | nil => exact absurd rfl hne
    | cons y ys => simp [stringLt]
  | cons x xs ih =>
    cases b with
    | nil => simp [stringLt]
    | cons y ys =>
      simp only [stringLt]
      by_cases h1 : x < y
      · simp [h1]
      · by_cases h2 : y < x
        · simp [h2]
        · have hxy : x = y := by omega
          subst hxy
          simp only [h1, if_false]
          exact ih ys (fun h => hne (by rw [h]))

namespace VariableKey

theorem lt_iff (a b : VariableKey) :
    a.lt b = true ↔
      stringLt a.guid b.guid = true ∨ (a.guid = b.guid ∧ stringLt a.name b.name = true) := by
  simp [VariableKey.lt, uuid_compare_neg, uuid_compare_eq_zero]

theorem lt_irrefl (a : VariableKey) : a.lt a = false := by
  have h := lt_iff a a
  simp only [stringLt_irrefl] at h
  cases hlt : a.lt a
  · rfl
  · simp [hlt] at h

theorem lt_trans (a b c : VariableKey) (hab : a.lt b = true) (hbc : b.lt c = true) :
    a.lt c = true := by
  rw [lt_iff] at hab hbc ⊢
  rcases hab with hab | ⟨hg, hab⟩
  · rcases hbc with hbc | ⟨hg2, _⟩
    · exact Or.inl (stringLt_trans _ _ _ hab hbc)
    · exact Or.inl (hg2 ▸ hab)
  · rcases hbc with hbc | ⟨hg2, hbc⟩
    · exact Or.inl (hg ▸ hbc)
    · exact Or.inr ⟨hg.trans hg2, stringLt_trans _ _ _ hab hbc⟩

theorem lt_total (a b : VariableKey) (hne : a ≠ b) : a.lt b = true ∨ b.lt a = true := by
  rw [lt_iff, lt_iff]
  by_cases hg : a.guid = b.guid
  · have hn : a.name ≠ b.name := by
      intro hn
      apply hne
      cases a; cases b
      simp_all
    rcases stringLt_total _ _ hn with h | h
    · exact Or.inl (Or.inr ⟨hg, h⟩)
    · exact Or.inr (Or.inr ⟨hg.symm, h⟩)
  · rcases stringLt_total _ _ hg with h | h
    · exact Or.inl (Or.inl h)
    · exact Or.inr (Or.inl h)

theorem lt_asymm (a b : VariableKey) (hab : a.lt b = true) : b.lt a = false := by
  cases hba : b.lt a
  · rfl
  · have h := lt_trans a b a hab hba
    rw [lt_irrefl] at h
    exact absurd h (by decide)

theorem ne_of_lt (a b : VariableKey) (hab : a.lt b = true) : a ≠ b := by
  intro h
  subst h
  rw [lt_irrefl] at hab
  exact absurd hab (by decide)

theorem eq_of_not_lt (a b : VariableKey) (h1 : a.lt b = false) (h2 : b.lt a = false) :
    a = b := by
  by_contra hne
  rcases lt_total a b hne with h | h
  · rw [h1] at h; exact absurd h (by decide)
  · rw [h2] at h; exact absurd h (by decide)

end VariableKey

/-! ## The map operations -/

namespace Variables

theorem find_nil (key : VariableKey) : find [] key = none := rfl

theorem find_cons (e : VariableKey × VariableValue) (rest : Variables) (key : VariableKey) :
    find (e :: rest) key = if e.1 = key then some e.2 else find rest key := by
  unfold find
  simp only [findIt]
  split_ifs <;> rfl

theorem findIt_eq_nil_iff (m : Variables) (key : VariableKey) :
    findIt m key = [] ↔ find m key = none := by
  unfold find
  cases findIt m key <;> simp

theorem findIt_eq_cons (m : Variables) (key : VariableKey) (e : VariableKey × VariableValue)
    (tail : Variables) (h : findIt m key = e :: tail) : find m key = some e.2 ∧ e.1 = key := by
  induction m with
  | nil => simp [findIt] at h
  | cons x rest ih =>
    rw [find_cons]
    simp only [findIt] at h
    split_ifs at h ⊢ with hx
    · simp only [List.cons.injEq] at h
      rw [← h.1]
      exact ⟨rfl, hx⟩
    · exact ih h

theorem find_eq_some_findIt (m : Variables) (key : VariableKey) (v : VariableValue)
    (h : find m key = some v) : ∃ tail, findIt m key = (key, v) :: tail := by
  induction m with
  | nil => simp [find_nil] at h
  | cons x rest ih =>
    rw [find_cons] at h
    simp only [findIt]
    split_ifs at h ⊢ with hx
    · refine ⟨rest, ?_⟩
      simp only [Option.some.injEq] at h
      rw [← hx, ← h]
    · exact ih h

theorem find_eq_none_of_forall_ne (m : Variables) (key : VariableKey)
    (h : ∀ e ∈ m, e.1 ≠ key) : find m key = none := by
  induction m with
  | nil => rfl
  | cons x rest ih =>
    rw [find_cons, if_neg (h x (List.mem_cons_self _ _))]
    exact ih (fun e he => h e (List.mem_cons_of_mem _ he))

theorem find_eq_none_of_lt (e : VariableKey × VariableValue) (rest : Variables)
    (key : VariableKey) (hwf : WF (e :: rest)) (hlt : key.lt e.1 = true) :
    find (e :: rest) key = none := by
  apply find_eq_none_of_forall_ne
  intro x hx
  rcases List.mem_cons.1 hx with rfl | hx
  · exact (VariableKey.ne_of_lt _ _ hlt).symm
  · have h1 : e.1.lt x.1 = true := (List.pairwise_cons.1 hwf).1 x hx
    exact (VariableKey.ne_of_lt _ _ (VariableKey.lt_trans _ _ _ hlt h1)).symm

theorem mem_insert (m : Variables) (key : VariableKey) (value : VariableValue)
    (x : VariableKey × VariableValue) (hx : x ∈ insert m key value) :
    x = (key, value) ∨ x ∈ m := by
  induction m with
  | nil => simpa [insert] using hx
  | cons e rest ih =>
    simp only [insert] at hx
    split_ifs at hx with h1 h2
    · rcases List.mem_cons.1 hx with h | h
      · exact Or.inl h
      · exact Or.inr h
    · rcases List.mem_cons.1 hx with h | h
      · exact Or.inr (h ▸ List.mem_cons_self _ _)
      · rcases ih h with h | h
        · exact Or.inl h
        · exact Or.inr (List.mem_cons_of_mem _ h)
    · exact Or.inr hx

theorem insert_WF (m : Variables) (key : VariableKey) (value : VariableValue) (hwf : WF m) :
    WF (insert m key value) := by
  induction m with
  | nil => simp [insert, WF]
  | cons e rest ih =>
    have hrest : WF rest := (List.pairwise_cons.1 hwf).2
    have hhead := (List.pairwise_cons.1 hwf).1
    simp only [insert]
    split_ifs with h1 h2
    · refine List.pairwise_cons.2 ⟨?_, hwf⟩
      intro x hx
      rcases List.mem_cons.1 hx with rfl | hx
      · exact h1
      · exact VariableKey.lt_trans _ _ _ h1 (hhead x hx)
    · refine List.pairwise_cons.2 ⟨?_, ih hrest⟩
      intro x hx
      rcases mem_insert rest key value x hx with rfl | hx
      · exact h2
      · exact hhead x hx
    · exact hwf

theorem find_insert (m : Variables) (key : VariableKey) (value : VariableValue)
    (key' : VariableKey) (hwf : WF m) :
    find (insert m key value) key' =
      if key' = key then (match find m key with
        | some old => some old
        | none => some value)
      else find m key' := by
  induction m with
  | nil =>
    simp only [insert, find_cons, find_nil]
    by_cases h : key' = key
    · simp [h]
    · simp [h, Ne.symm h]
  | cons e rest ih =>
    have hrest : WF rest := (List.pairwise_cons.1 hwf).2
    by_cases h1 : key.lt e.1 = true
    · simp only [insert, if_pos h1]
      by_cases hk : key' = key
      · subst hk
        rw [find_cons, find_eq_none_of_lt e rest key' hwf h1]
      · rw [find_cons, if_neg hk, if_neg (fun h => hk h.symm)]
    · by_cases h2 : e.1.lt key = true
      · simp only [insert, if_neg h1, if_pos h2]
        have hne : e.1 ≠ key := VariableKey.ne_of_lt _ _ h2
        by_cases hk : key' = key
        · subst hk
          rw [find_cons, if_neg hne, ih hrest, find_cons, if_neg hne]
        · rw [find_cons, ih hrest, if_neg hk, if_neg hk, find_cons]
      · simp only [insert, if_neg h1, if_neg h2]
        have heq : e.1 = key :=
          (VariableKey.eq_of_not_lt _ _ (by simpa using h1) (by simpa using h2)).symm
        by_cases hk : key' = key
        · subst hk
          rw [if_pos rfl, find_cons, if_pos heq]
        · rw [if_neg hk]

theorem find_assign (m : Variables) (key : VariableKey) (value : VariableValue)
    (key' : VariableKey) :
    find (assign m key value) key' = if key' = key then some value else find m key' := by
  induction m with
  | nil =>
    simp only [assign, find_cons, find_nil]
    by_cases h : key' = key
    · simp [h]
    · simp [h, Ne.symm h]
  | cons e rest ih =>
    by_cases h1 : key.lt e.1 = true
    · simp only [assign, if_pos h1]
      by_cases hk : key' = key
      · subst hk
        rw [find_cons]
      · rw [find_cons, if_neg hk, if_neg (fun h => hk h.symm)]
    · by_cases h2 : e.1.lt key = true
      · simp only [assign, if_neg h1, if_pos h2]
        have hne : e.1 ≠ key := VariableKey.ne_of_lt _ _ h2
        by_cases hk : key' = key
        · subst hk
          rw [find_cons, if_neg hne, ih, if_pos rfl, if_pos rfl]
        · rw [find_cons, ih, if_neg hk, if_neg hk, find_cons]
      · simp only [assign, if_neg h1, if_neg h2]
        have heq : e.1 = key :=
          (VariableKey.eq_of_not_lt _ _ (by simpa using h1) (by simpa using h2)).symm
        by_cases hk : key' = key
        · subst hk
          rw [if_pos rfl, find_cons]
          simp [heq]
        · rw [if_neg hk, find_cons, find_cons]
          simp [heq, Ne.symm hk]

theorem keys_modify (m : Variables) (key : VariableKey) (f : VariableValue → VariableValue) :
    keys (modify m key f) = keys m := by
  induction m with
  | nil => rfl
  | cons e rest ih =>
    simp only [modify]
    split_ifs with h
    · simp [keys]
    · simp only [keys, List.map_cons] at ih ⊢
      rw [ih]

theorem find_modify (m : Variables) (key : VariableKey) (f : VariableValue → VariableValue)
    (key' : VariableKey) :
    find (modify m key f) key' = if key' = key then (find m key).map f else find m key' := by
  induction m with
  | nil => simp [modify, find_nil]
  | cons e rest ih =>
    by_cases h1 : e.1 = key
    · simp only [modify, if_pos h1]
      by_cases hk : key' = key
      · subst hk
        rw [find_cons, find_cons]
        simp [h1]
      · have hne : e.1 ≠ key' := fun h => hk (h.symm.trans h1)
        rw [find_cons, if_neg hk, if_neg hne, find_cons, if_neg hne]
    · simp only [modify, if_neg h1]
      by_cases hk : key' = key
      · subst hk
        rw [find_cons, if_neg h1, ih, if_pos rfl, if_pos rfl, find_cons, if_neg h1]
      · rw [find_cons, ih, if_neg hk, if_neg hk, find_cons]

theorem modify_WF (m : Variables) (key : VariableKey) (f : VariableValue → VariableValue)
    (hwf : WF m) : WF (modify m key f) := by
  have h : (modify m key f).map Prod.fst = m.map Prod.fst := keys_modify m key f
  unfold WF at hwf ⊢
  have h1 : List.Pairwise (fun a b : VariableKey => a.lt b = true) (m.map Prod.fst) :=
    List.pairwise_map.2 hwf
  rw [← h] at h1
  exact List.pairwise_map.1 h1

theorem mem_assign (m : Variables) (key : VariableKey) (value : VariableValue)
    (x : VariableKey × VariableValue) (hx : x ∈ assign m key value) :
    x.1 = key ∨ x ∈ m := by
  induction m with
  | nil =>
    simp only [assign, List.mem_singleton] at hx
    exact Or.inl (by rw [hx])
  | cons e rest ih =>
    by_cases h1 : key.lt e.1 = true
    · simp only [assign, if_pos h1] at hx
      rcases List.mem_cons.1 hx with h | h
      · exact Or.inl (by rw [h])
      · exact Or.inr h
    · by_cases h2 : e.1.lt key = true
      · simp only [assign, if_neg h1, if_pos h2] at hx
        rcases List.mem_cons.1 hx with h | h
        · exact Or.inr (h ▸ List.mem_cons_self _ _)
        · rcases ih h with h | h
          · exact Or.inl h
          · exact Or.inr (List.mem_cons_of_mem _ h)
      · have heq : e.1 = key :=
          (VariableKey.eq_of_not_lt _ _ (by simpa using h1) (by simpa using h2)).symm
        simp only [assign, if_neg h1, if_neg h2] at hx
        rcases List.mem_cons.1 hx with h | h
        · exact Or.inl (by rw [h]; exact heq)
        · exact Or.inr (List.mem_cons_of_mem _ h)

theorem assign_WF (m : Variables) (key : VariableKey) (value : VariableValue) (hwf : WF m) :
    WF (assign m key value) := by
  induction m with
  | nil => simp [assign, WF]
  | cons e rest ih =>
    have hrest : WF rest := (List.pairwise_cons.1 hwf).2
    have hhead := (List.pairwise_cons.1 hwf).1
    by_cases h1 : key.lt e.1 = true
    · simp only [assign, if_pos h1]
      refine List.pairwise_cons.2 ⟨?_, hwf⟩
      intro x hx
      rcases List.mem_cons.1 hx with rfl | hx
      · exact h1
      · exact VariableKey.lt_trans _ _ _ h1 (hhead x hx)
    · by_cases h2 : e.1.lt key = true
      · simp only [assign, if_neg h1, if_pos h2]
        refine List.pairwise_cons.2 ⟨?_, ih hrest⟩
        intro x hx
        rcases mem_assign rest key value x hx with h | h
        · rw [h]; exact h2
        · exact hhead x h
      · simp only [assign, if_neg h1, if_neg h2]
        exact List.pairwise_cons.2 ⟨hhead, hrest⟩

theorem erase_sublist (m : Variables) (key : VariableKey) : List.Sublist (erase m key) m := by
  induction m with
  | nil => exact List.Sublist.slnil
  | cons e rest ih =>
    simp only [erase]
    split_ifs with h
    · exact List.sublist_cons_self e rest
    · exact List.Sublist.cons₂ e ih

theorem erase_WF (m : Variables) (key : VariableKey) (hwf : WF m) : WF (erase m key) :=
  List.Pairwise.sublist (erase_sublist m key) hwf

end Variables

/-! ## Duplicate keys in a scan -/

namespace Outcome

@[simp] theorem ok_bind {α β : Type} (a : α) (f : α → Outcome β) :
    (Outcome.ok a >>= f) = f a := rfl

@[simp] theorem error_bind {α β : Type} (e : Error) (f : α → Outcome β) :
    (Outcome.error e >>= f) = Outcome.error e := rfl

@[simp] theorem outOfBounds_bind {α β : Type} (off : Int) (f : α → Outcome β) :
    (Outcome.outOfBounds off >>= f) = Outcome.outOfBounds off := rfl

@[simp] theorem outOfFuel_bind {α β : Type} (f : α → Outcome β) :
    ((Outcome.outOfFuel : Outcome α) >>= f) = Outcome.outOfFuel := rfl

@[simp] theorem pure_eq {α : Type} (a : α) : (pure a : Outcome α) = Outcome.ok a := rfl

end Outcome

theorem insertAll_WF (recs : List (VariableKey × VariableValue)) (vars : Variables)
    (hwf : vars.WF) : (insertAll recs vars).WF := by
  induction recs generalizing vars with
  | nil => exact hwf
  | cons r rest ih => exact ih _ (Variables.insert_WF vars r.1 r.2 hwf)

theorem find_insertAll (recs : List (VariableKey × VariableValue)) (vars : Variables)
    (hwf : vars.WF) (key : VariableKey) :
    (insertAll recs vars).find key =
      match vars.find key with
      | some old => some old
      | none => recs.lookup key := by
  induction recs generalizing vars with
  | nil =>
    simp only [insertAll, List.foldl_nil, List.lookup_nil]
    cases Variables.find vars key <;> rfl
  | cons r rest ih =>
    have h := ih (vars.insert r.1 r.2) (Variables.insert_WF vars r.1 r.2 hwf)
    simp only [insertAll, List.foldl_cons] at h ⊢
    rw [h, Variables.find_insert vars r.1 r.2 key hwf]
    by_cases hk : key = r.1
    · subst hk
      rw [if_pos rfl]
      cases Variables.find vars r.1 <;> simp [List.lookup]
    · rw [if_neg hk]
      have hb : (key == r.1) = false := by simpa using hk
      cases Variables.find vars key
      · obtain ⟨k, v⟩ := r
        simp only [List.lookup, hb]
      · rfl

theorem parseLoop_eq_insertAll (nv : Nvram) (inner fuel : Nat) (node : Int) (vars : Variables) :
    nv.parseLoop inner fuel node vars =
      (nv.decodedLoop inner fuel node >>= fun recs => Outcome.ok (insertAll recs vars)) := by
  induction fuel generalizing node vars with
  | zero => rfl
  | succ fuel ih =>
    simp only [Nvram.parseLoop, Nvram.decodedLoop]
    split_ifs with hv
    · rfl
    · cases nv.readU32 node with
      | ok signature =>
        simp only [Outcome.ok_bind]
        split_ifs with hs
        · rfl
        · cases nv.read (node + 9) with
          | ok flags =>
            simp only [Outcome.ok_bind]
            split_ifs with hf
            · cases nv.readVariable inner node with
              | ok kv =>
                obtain ⟨key, value⟩ := kv
                simp only [Outcome.ok_bind, Outcome.pure_eq]
                cases nv.readU16 (node + 4) with
                | ok size =>
                  simp only [Outcome.ok_bind]
                  rw [ih]
                  cases nv.decodedLoop inner fuel (node + size) <;> rfl
                | error e => rfl
                | outOfBounds off => rfl
                | outOfFuel => rfl
              | error e => rfl
              | outOfBounds off => rfl
              | outOfFuel => rfl
            · simp only [Outcome.ok_bind, Outcome.pure_eq]
              cases nv.readU16 (node + 4) with
              | ok size =>
                simp only [Outcome.ok_bind]
                rw [ih]
                cases nv.decodedLoop inner fuel (node + size) <;> rfl
              | error e => rfl
              | outOfBounds off => rfl
              | outOfFuel => rfl
          | error e => rfl
          | outOfBounds off => rfl
          | outOfFuel => rfl
      | error e => rfl
      | outOfBounds off => rfl
      | outOfFuel => rfl

theorem parseNvram_eq_insertAll (fuel : Nat) (data : List Nat) (size : Nat) :
    parseNvram fuel data size =
      (Nvram.decoded fuel data size >>= fun recs => Outcome.ok (insertAll recs [])) := by
  unfold parseNvram Nvram.parse Nvram.decoded
  split_ifs with h
  · rfl
  · exact parseLoop_eq_insertAll _ fuel fuel 0 []

theorem parseNvram_WF (fuel : Nat) (data : List Nat) (size : Nat) (vars : Variables)
    (h : parseNvram fuel data size = .ok vars) : vars.WF := by
  rw [parseNvram_eq_insertAll] at h
  cases hd : Nvram.decoded fuel data size with
  | ok recs =>
    rw [hd] at h
    simp only [Outcome.ok_bind, Outcome.ok.injEq] at h
    rw [← h]
    exact insertAll_WF recs [] List.Pairwise.nil
  | error e => rw [hd] at h; cases h
  | outOfBounds off => rw [hd] at h; cases h
  | outOfFuel => rw [hd] at h; cases h

/-! ## The merge loops of the store -/

namespace Variables

theorem modify_of_findIt_nil (m : Variables) (key : VariableKey)
    (f : VariableValue → VariableValue) (h : findIt m key = []) : modify m key f = m := by
  induction m with
  | nil => rfl
  | cons e rest ih =>
    simp only [findIt] at h
    split_ifs at h with hk
    simp only [modify, if_neg hk]
    rw [ih h]

theorem find_eq_none_of_WF_cons (e : VariableKey × VariableValue) (rest : Variables)
    (hwf : WF (e :: rest)) : find rest e.1 = none := by
  apply find_eq_none_of_forall_ne
  intro x hx
  exact (VariableKey.ne_of_lt _ _ ((List.pairwise_cons.1 hwf).1 x hx)).symm

end Variables

namespace Storage

theorem mergeLoop_cons (defVar : VariableKey × VariableValue) (rest vars : Variables) :
    mergeLoop (defVar :: rest) vars =
      mergeLoop rest (vars.modify defVar.1 (fun oldVar => mergeVar oldVar defVar.2)) := by
  simp only [mergeLoop]
  cases h : vars.findIt defVar.1 with
  | nil => simp only []; rw [Variables.modify_of_findIt_nil vars defVar.1 _ h]
  | cons x tail => rfl

theorem keys_mergeLoop (defVars vars : Variables) :
    (mergeLoop defVars vars).keys = vars.keys := by
  induction defVars generalizing vars with
  | nil => rfl
  | cons defVar rest ih => rw [mergeLoop_cons, ih, Variables.keys_modify]

theorem find_mergeLoop_of_none (defVars vars : Variables) (key : VariableKey)
    (h : defVars.find key = none) : (mergeLoop defVars vars).find key = vars.find key := by
  induction defVars generalizing vars with
  | nil => rfl
  | cons defVar rest ih =>
    rw [Variables.find_cons] at h
    split_ifs at h with hk
    rw [mergeLoop_cons, ih _ h, Variables.find_modify, if_neg (fun hh => hk hh.symm)]

theorem find_mergeLoop_of_some (defVars vars : Variables) (key : VariableKey)
    (newVar : VariableValue) (hwf : defVars.WF) (h : defVars.find key = some newVar) :
    (mergeLoop defVars vars).find key =
      (vars.find key).map (fun oldVar => mergeVar oldVar newVar) := by
  induction defVars generalizing vars with
  | nil => simp [Variables.find_nil] at h
  | cons defVar rest ih =>
    have hrest : Variables.WF rest := (List.pairwise_cons.1 hwf).2
    rw [Variables.find_cons] at h
    rw [mergeLoop_cons]
    split_ifs at h with hk
    · simp only [Option.some.injEq] at h
      have hnone : Variables.find rest key = none := by
        rw [← hk]; exact Variables.find_eq_none_of_WF_cons defVar rest hwf
      rw [find_mergeLoop_of_none rest _ key hnone, Variables.find_modify, if_pos hk.symm, hk, h]
    · rw [ih _ hrest h, Variables.find_modify, if_neg (fun hh => hk hh.symm)]

theorem mergeVar_data (oldVar newVar : VariableValue) :
    (mergeVar oldVar newVar).data =
      oldVar.data.take (min oldVar.data.length newVar.data.length) ++
        newVar.data.drop oldVar.data.length := by
  simp only [mergeVar]
  split_ifs with h1 h2
  · rw [Nat.min_eq_left (by omega), List.take_length]
  · rw [Nat.min_eq_right (by omega), List.drop_eq_nil_of_le (by omega), List.append_nil]
  · rw [Nat.min_eq_left (by omega), List.take_length, List.drop_eq_nil_of_le (by omega),
      List.append_nil]

theorem importLoop_find (oldVars vars : Variables) (key : VariableKey) (hwf : oldVars.WF) :
    (importLoop oldVars vars).find key =
      if key.name ≠ stdDefaults.name then
        (match oldVars.find key with
          | some recorded => some recorded
          | none => vars.find key)
      else vars.find key := by
  induction oldVars generalizing vars with
  | nil =>
    simp only [importLoop, Variables.find_nil]
    split_ifs <;> rfl
  | cons var rest ih =>
    have hrest : Variables.WF rest := (List.pairwise_cons.1 hwf).2
    have hnone := Variables.find_eq_none_of_WF_cons var rest hwf
    simp only [importLoop]
    by_cases hv : var.1.name ≠ stdDefaults.name
    · rw [if_pos hv, ih _ hrest, Variables.find_assign, Variables.find_cons]
      by_cases hk : key = var.1
      · subst hk
        simp only [hnone, if_true, if_pos hv]
      · have hk2 : ¬ var.1 = key := fun hh => hk hh.symm
        simp only [if_neg hk, if_neg hk2]
    · rw [if_neg hv, ih _ hrest, Variables.find_cons]
      by_cases hk : key = var.1
      · subst hk
        simp only [if_neg hv]
      · have hk2 : ¬ var.1 = key := fun hh => hk hh.symm
        simp only [if_neg hk2]

theorem saveAndLog_storage (vars : Variables) (writable : Bool) (record : Audit) :
    (saveAndLog vars writable record).storage = ⟨vars⟩ := by
  cases writable <;> rfl

theorem saveAndLog_failed (vars : Variables) (record : Audit) :
    saveAndLog vars false record =
      { storage := ⟨vars⟩, saveCalls := [vars], audit := [], result := .error .writeFailed } :=
  rfl

theorem parseNvram_data_ne_nil (fuel : Nat) (data : List Nat) (vars : Variables)
    (h : parseNvram fuel data data.length = .ok vars) : data.isEmpty = false := by
  cases data with
  | nil => simp [parseNvram, Nvram.parse] at h
  | cons b rest => rfl

theorem updateVars_eq (self : Storage) (fuel : Nat) (newNvram : Option (List Nat))
    (writable : Bool) (newVars defVars : Variables) (defaults : VariableValue)
    (hvol : parseVolume fuel newNvram = .ok newVars)
    (hstd : newVars.find stdDefaults = some defaults)
    (hdef : parseNvram fuel defaults.data defaults.data.length = .ok defVars) :
    self.updateVars fuel newNvram writable =
      saveAndLog (mergeLoop defVars self.vars) writable .update := by
  obtain ⟨tail, hit⟩ := Variables.find_eq_some_findIt newVars stdDefaults defaults hstd
  have hne := parseNvram_data_ne_nil fuel defaults.data defVars hdef
  simp only [updateVars, hvol, hit, hne, hdef]
  rfl

theorem importVars_eq (self : Storage) (fuel : Nat) (oldNvram : Option (List Nat))
    (writable : Bool) (oldVars vars : Variables) (defaults : VariableValue)
    (hvol : parseVolume fuel oldNvram = .ok oldVars)
    (hstd : oldVars.find stdDefaults = some defaults)
    (hdef : parseNvram fuel defaults.data defaults.data.length = .ok vars) :
    self.importVars fuel oldNvram writable =
      saveAndLog (importLoop oldVars vars) writable .importVars := by
  obtain ⟨tail, hit⟩ := Variables.find_eq_some_findIt oldVars stdDefaults defaults hstd
  have hne := parseNvram_data_ne_nil fuel defaults.data vars hdef
  simp only [importVars, hvol, hit, hne, hdef]
  rfl

end Storage

theorem Outcome.bind_eq_ok {α β : Type} (x : Outcome α) (f : α → Outcome β) (b : β)
    (h : (x >>= f) = .ok b) : ∃ a, x = .ok a ∧ f a = .ok b := by
  cases x with
  | ok a => exact ⟨a, rfl, h⟩
  | error e => cases h
  | outOfBounds off => cases h
  | outOfFuel => cases h

theorem parseVolume_ok (fuel : Nat) (file : Option (List Nat)) (vars : Variables)
    (h : parseVolume fuel file = .ok vars) :
    ∃ data size, parseNvram fuel data size = .ok vars := by
  unfold parseVolume at h
  cases file with
  | none => cases h
  | some bytes =>
    simp only [] at h
    split_ifs at h with h1
    obtain ⟨g1, -, h⟩ := Outcome.bind_eq_ok _ _ _ h
    split_ifs at h with h2
    obtain ⟨off, -, h⟩ := Outcome.bind_eq_ok _ _ _ h
    split_ifs at h with h3 h4
    obtain ⟨g2, -, h⟩ := Outcome.bind_eq_ok _ _ _ h
    split_ifs at h with h5
    obtain ⟨es, -, h⟩ := Outcome.bind_eq_ok _ _ _ h
    split_ifs at h with h6
    obtain ⟨g3, -, h⟩ := Outcome.bind_eq_ok _ _ _ h
    split_ifs at h with h7
    obtain ⟨sz, -, h⟩ := Outcome.bind_eq_ok _ _ _ h
    split_ifs at h with h8
    exact ⟨_, _, h⟩

theorem parseVolume_WF (fuel : Nat) (file : Option (List Nat)) (vars : Variables)
    (h : parseVolume fuel file = .ok vars) : vars.WF := by
  obtain ⟨data, size, h⟩ := parseVolume_ok fuel file vars h
  exact parseNvram_WF fuel data size vars h

namespace Storage

theorem get_updateVars_shared (self : Storage) (fuel : Nat) (newNvram : Option (List Nat))
    (writable : Bool) (newVars defVars : Variables) (defaults : VariableValue)
    (key : VariableKey) (oldVar newVar : VariableValue)
    (hvol : parseVolume fuel newNvram = .ok newVars)
    (hstd : newVars.find stdDefaults = some defaults)
    (hdef : parseNvram fuel defaults.data defaults.data.length = .ok defVars)
    (hold : self.get key = some oldVar) (hnew : defVars.find key = some newVar) :
    (self.updateVars fuel newNvram writable).storage.get key = some (mergeVar oldVar newVar) := by
  have hwf := parseNvram_WF fuel _ _ defVars hdef
  rw [updateVars_eq self fuel newNvram writable newVars defVars defaults hvol hstd hdef,
    saveAndLog_storage]
  unfold get at hold ⊢
  simp only []
  rw [find_mergeLoop_of_some defVars self.vars key newVar hwf hnew, hold]
  rfl

theorem leave_error (self : Storage) (e : Error) :
    self.leave (Outcome.error e : Outcome Variables) =
      { storage := self, saveCalls := [], audit := [], result := .error e } := rfl

end Storage

/-! ## Enumeration -/

namespace Storage

theorem findIt_append_of_WF (pre : Variables) (e : VariableKey × VariableValue)
    (post : Variables) (hwf : Variables.WF (pre ++ e :: post)) :
    Variables.findIt (pre ++ e :: post) e.1 = e :: post := by
  induction pre with
  | nil => simp [Variables.findIt]
  | cons x pre ih =>
    have hx : x.1.lt e.1 = true :=
      (List.pairwise_cons.1 hwf).1 e (List.mem_append_right _ (List.mem_cons_self _ _))
    have hne : x.1 ≠ e.1 := VariableKey.ne_of_lt _ _ hx
    simp only [List.cons_append, Variables.findIt, if_neg hne]
    exact ih (List.pairwise_cons.1 hwf).2

theorem next_of_mem (self : Storage) (pre post : Variables) (e : VariableKey × VariableValue)
    (hwf : self.vars.WF) (hvars : self.vars = pre ++ e :: post) (hname : e.1.name ≠ []) :
    self.next e.1 = (post.head?).map Prod.fst := by
  have hit : self.vars.findIt e.1 = e :: post := by
    rw [hvars]
    exact findIt_append_of_WF pre e post (hvars ▸ hwf)
  have hemp : e.1.name.isEmpty = false := by
    cases hn : e.1.name with
    | nil => exact absurd hn hname
    | cons c cs => rfl
  simp only [next, hemp, hit]
  cases post <;> rfl

theorem walk_suffix (self : Storage) (hwf : self.vars.WF)
    (hnamed : ∀ e ∈ self.vars, e.1.name ≠ []) (post : Variables) :
    ∀ pre : Variables, self.vars = pre ++ post →
      self.walk post.length ((post.head?).map Prod.fst) = (post.map Prod.fst, true) := by
  induction post with
  | nil => intro pre _; rfl
  | cons e post ih =>
    intro pre hvars
    have hmem : e ∈ self.vars := by
      rw [hvars]; exact List.mem_append_right _ (List.mem_cons_self _ _)
    have hnext := next_of_mem self pre post e hwf hvars (hnamed e hmem)
    have hrec := ih (pre ++ [e]) (by rw [hvars]; simp)
    simp only [List.head?_cons, Option.map_some', List.length_cons, walk, hnext, hrec,
      List.map_cons]

theorem set_WF (self : Storage) (key : VariableKey) (value : VariableValue) (writable : Bool)
    (hwf : self.vars.WF) : (self.set key value writable).storage.vars.WF := by
  unfold set
  split
  · rw [saveAndLog_storage]
    exact Variables.assign_WF self.vars key value hwf
  · split_ifs
    · rw [saveAndLog_storage]
      exact Variables.modify_WF self.vars key _ hwf
    · exact hwf

theorem remove_WF (self : Storage) (key : VariableKey) (writable : Bool)
    (hwf : self.vars.WF) : (self.remove key writable).storage.vars.WF := by
  unfold remove
  split
  · exact hwf
  · rw [saveAndLog_storage]
    exact Variables.erase_WF self.vars key hwf

theorem next_of_empty_name (self : Storage) (start : VariableKey) (hstart : start.name = []) :
    self.next start = (self.vars.head?).map Prod.fst := by
  simp only [next, hstart, List.isEmpty_nil, if_true]
  cases self.vars <;> rfl

end Storage

/-! ## Reads inside the dump -/

namespace Nvram

theorem read_ok (nv : Nvram) (p : Int) (i : Nat) (hp : p = (i : Int)) (h1 : i < nv.dumpSize)
    (h2 : i < nv.dump.length) : nv.read p = .ok (byteAt nv.dump i) := by
  subst hp
  have hc : (0 : Int) ≤ (i : Int) ∧ (i : Int) < (nv.dumpSize : Int) := ⟨by omega, by omega⟩
  simp only [read, if_pos hc, Int.toNat_ofNat, byteAt]
  rw [List.get?_eq_get h2, List.getD_eq_getElem _ _ h2]
  rfl

theorem read_outOfBounds (nv : Nvram) (p : Int) (h : ¬ (0 ≤ p ∧ p < nv.dumpSize)) :
    nv.read p = .outOfBounds p := by
  simp only [read, if_neg h]

theorem readU16_ok (nv : Nvram) (p : Int) (i : Nat) (hp : p = (i : Int))
    (h1 : i + 2 ≤ nv.dumpSize) (h2 : i + 2 ≤ nv.dump.length) :
    nv.readU16 p = .ok (u16At nv.dump i) := by
  simp only [readU16, u16At]
  rw [read_ok nv p i hp (by omega) (by omega),
    read_ok nv (p + 1) (i + 1) (by omega) (by omega) (by omega)]
  rfl

theorem readU32_ok (nv : Nvram) (p : Int) (i : Nat) (hp : p = (i : Int))
    (h1 : i + 4 ≤ nv.dumpSize) (h2 : i + 4 ≤ nv.dump.length) :
    nv.readU32 p = .ok (u32At nv.dump i) := by
  simp only [readU32, u32At]
  rw [read_ok nv p i hp (by omega) (by omega),
    read_ok nv (p + 1) (i + 1) (by omega) (by omega) (by omega),
    read_ok nv (p + 2) (i + 2) (by omega) (by omega) (by omega),
    read_ok nv (p + 3) (i + 3) (by omega) (by omega) (by omega)]
  rfl

theorem readRange_ok (nv : Nvram) (count : Nat) :
    ∀ (p : Int) (i : Nat), p = (i : Int) → i + count ≤ nv.dumpSize →
      i + count ≤ nv.dump.length → nv.readRange count p = .ok (bytesAt nv.dump count i) := by
  induction count with
  | zero => intro p i _ _ _; rfl
  | succ count ih =>
    intro p i hp h1 h2
    simp only [readRange, bytesAt]
    rw [read_ok nv p i hp (by omega) (by omega),
      ih (p + 1) (i + 1) (by omega) (by omega) (by omega)]
    rfl

theorem readGuid_ok (nv : Nvram) (p : Int) (i : Nat) (hp : p = (i : Int))
    (h1 : i + 16 ≤ nv.dumpSize) (h2 : i + 16 ≤ nv.dump.length) :
    nv.readGuid p = .ok (efiGuidAt nv.dump i) := by
  simp only [readGuid, efiGuidAt]
  rw [readU32_ok nv p i hp (by omega) (by omega),
    readU16_ok nv (p + 4) (i + 4) (by omega) (by omega) (by omega),
    readU16_ok nv (p + 6) (i + 6) (by omega) (by omega) (by omega),
    readRange_ok nv 8 (p + 8) (i + 8) (by omega) (by omega) (by omega)]
  rfl

end Nvram

/-! ## The key order and the lexicographic order -/

theorem stringLt_iff_lexSmaller (a b : List Nat) : stringLt a b = true ↔ lexSmaller a b := by
  unfold lexSmaller
  induction a generalizing b with
  | nil =>
    cases b with
    | nil => simp [stringLt]
    | cons y ys => simp only [stringLt, true_iff]; exact List.Lex.nil
  | cons x xs ih =>
    cases b with
    | nil => simp [stringLt]
    | cons y ys =>
      simp only [stringLt]
      by_cases h1 : x < y
      · simp only [if_pos h1, true_iff]
        exact List.Lex.rel h1
      · by_cases h2 : y < x
        · simp only [if_neg h1, if_pos h2]
          constructor
          · intro h; cases h
          · intro h
            cases h with
            | cons h => omega
            | rel h => omega
        · have hxy : x = y := by omega
          subst hxy
          simp only [if_neg h1]
          rw [ih ys]
          constructor
          · intro h; exact List.Lex.cons h
          · intro h
            cases h with
            | cons h => exact h
            | rel h => omega

/-! ## Lookups after `set` and `remove` -/

namespace Variables

theorem findIt_suffix (m : Variables) (key : VariableKey) : ∃ pre, m = pre ++ findIt m key := by
  induction m with
  | nil => exact ⟨[], rfl⟩
  | cons e rest ih =>
    simp only [findIt]
    split_ifs with h
    · exact ⟨[], rfl⟩
    · obtain ⟨pre, hpre⟩ := ih
      exact ⟨e :: pre, by rw [List.cons_append, ← hpre]⟩

theorem find_erase (m : Variables) (key key' : VariableKey) (hwf : WF m) :
    find (erase m key) key' = if key' = key then none else find m key' := by
  induction m with
  | nil => simp [erase, find_nil]
  | cons e rest ih =>
    have hrest : WF rest := (List.pairwise_cons.1 hwf).2
    by_cases he : e.1 = key
    · simp only [erase, if_pos he]
      by_cases hk : key' = key
      · rw [if_pos hk, hk, ← he]
        exact find_eq_none_of_WF_cons e rest hwf
      · rw [if_neg hk, find_cons, if_neg (fun h => hk (h.symm.trans he))]
    · simp only [erase, if_neg he]
      by_cases hk : key' = key
      · subst hk
        rw [find_cons, if_neg he, ih hrest, if_pos rfl, if_pos rfl]
      · rw [find_cons, ih hrest, if_neg hk, if_neg hk, find_cons]

end Variables

namespace Storage

theorem set_storage_get (self : Storage) (key : VariableKey) (value : VariableValue)
    (writable : Bool) (key' : VariableKey) :
    (self.set key value writable).storage.get key' =
      if key' = key then some value else self.get key' := by
  unfold set get
  cases hit : self.vars.findIt key with
  | nil =>
    simp only [saveAndLog_storage]
    exact Variables.find_assign self.vars key value key'
  | cons existing tail =>
    obtain ⟨hfind, hkey⟩ := Variables.findIt_eq_cons self.vars key existing tail hit
    simp only []
    split_ifs with hd hk hk
    · rw [saveAndLog_storage]
      simp only []
      rw [Variables.find_modify, if_pos hk, hfind]
      rfl
    · rw [saveAndLog_storage]
      simp only []
      rw [Variables.find_modify, if_neg hk]
    · have hsame : existing.2 = value := by
        have h1 : existing.2.attributes = value.attributes := by
          by_contra h; exact hd (Or.inl h)
        have h2 : existing.2.data = value.data := by
          by_contra h; exact hd (Or.inr h)
        cases hv : existing.2 with
        | mk a d =>
          cases value with
          | mk a' d' =>
            rw [hv] at h1 h2
            simp only at h1 h2
            rw [h1, h2]
      rw [hk, hfind, hsame]
    · rfl

theorem set_of_get_eq (self : Storage) (key : VariableKey) (value : VariableValue)
    (writable : Bool) (h : self.get key = some value) :
    self.set key value writable =
      { storage := self, saveCalls := [], audit := [], result := .ok () } := by
  obtain ⟨tail, hit⟩ := Variables.find_eq_some_findIt self.vars key value h
  simp only [set, hit]
  rw [if_neg (by simp)]

theorem set_of_get_ne (self : Storage) (key : VariableKey) (value : VariableValue)
    (writable : Bool) (h : self.get key ≠ some value) :
    ∃ vars record, self.set key value writable = saveAndLog vars writable record ∧
      (record = .create key ∨ record = .change key) := by
  unfold set
  cases hit : self.vars.findIt key with
  | nil => exact ⟨_, _, rfl, Or.inl rfl⟩
  | cons existing tail =>
    obtain ⟨hfind, hkey⟩ := Variables.findIt_eq_cons self.vars key existing tail hit
    simp only []
    split_ifs with hd
    · exact ⟨_, _, rfl, Or.inr rfl⟩
    · exfalso
      apply h
      have h1 : existing.2.attributes = value.attributes := by
        by_contra h; exact hd (Or.inl h)
      have h2 : existing.2.data = value.data := by
        by_contra h; exact hd (Or.inr h)
      unfold get
      rw [hfind]
      cases hv : existing.2 with
      | mk a d =>
        cases value with
        | mk a' d' =>
          rw [hv] at h1 h2
          simp only at h1 h2
          rw [h1, h2]

theorem remove_storage_get (self : Storage) (key : VariableKey) (writable : Bool)
    (key' : VariableKey) (hwf : self.vars.WF) :
    (self.remove key writable).storage.get key' =
      if key' = key then none else self.get key' := by
  unfold remove get
  cases hit : self.vars.findIt key with
  | nil =>
    simp only []
    have hnone := (Variables.findIt_eq_nil_iff self.vars key).1 hit
    by_cases hk : key' = key
    · rw [if_pos hk, hk, hnone]
    · rw [if_neg hk]
  | cons existing tail =>
    simp only [saveAndLog_storage]
    exact Variables.find_erase self.vars key key' hwf

theorem remove_of_get_none (self : Storage) (key : VariableKey) (writable : Bool)
    (h : self.get key = none) :
    self.remove key writable =
      { storage := self, saveCalls := [], audit := [], result := .ok () } := by
  have hit := (Variables.findIt_eq_nil_iff self.vars key).2 h
  simp only [remove, hit]

theorem next_of_absent (self : Storage) (key : VariableKey) (hname : key.name ≠ [])
    (h : self.get key = none) : self.next key = none := by
  have hit := (Variables.findIt_eq_nil_iff self.vars key).2 h
  have hemp : key.name.isEmpty = false := by
    cases hn : key.name with
    | nil => exact absurd hn hname
    | cons c cs => rfl
  simp only [next, hemp, hit]
  rfl

theorem split_of_get (self : Storage) (key : VariableKey) (value : VariableValue)
    (h : self.get key = some value) : ∃ pre post, self.vars = pre ++ (key, value) :: post := by
  obtain ⟨tail, hit⟩ := Variables.find_eq_some_findIt self.vars key value h
  obtain ⟨pre, hpre⟩ := Variables.findIt_suffix self.vars key
  rw [hit] at hpre
  exact ⟨pre, tail, hpre⟩

end Storage

/-! ## The GUID table -/

theorem byteAt_slice (bytes : List Nat) (i n j : Nat) (hj : j < n) :
    byteAt ((bytes.drop i).take n) j = byteAt bytes (i + j) := by
  unfold byteAt
  rw [List.getD_eq_getElem?_getD, List.getD_eq_getElem?_getD, List.getElem?_take_of_lt hj,
    List.getElem?_drop]

theorem uuidAt_slice (bytes : List Nat) (i : Nat) :
    uuidAt ((bytes.drop i).take 16) 0 = uuidAt bytes i := by
  simp only [uuidAt, efiGuidAt, u32At, u16At, bytesAt, Nat.zero_add]
  rw [byteAt_slice bytes i 16 0 (by omega), byteAt_slice bytes i 16 1 (by omega),
    byteAt_slice bytes i 16 2 (by omega), byteAt_slice bytes i 16 3 (by omega),
    byteAt_slice bytes i 16 4 (by omega), byteAt_slice bytes i 16 5 (by omega),
    byteAt_slice bytes i 16 6 (by omega), byteAt_slice bytes i 16 7 (by omega),
    byteAt_slice bytes i 16 8 (by omega), byteAt_slice bytes i 16 9 (by omega),
    byteAt_slice bytes i 16 10 (by omega), byteAt_slice bytes i 16 11 (by omega),
    byteAt_slice bytes i 16 12 (by omega), byteAt_slice bytes i 16 13 (by omega),
    byteAt_slice bytes i 16 14 (by omega), byteAt_slice bytes i 16 15 (by omega)]
  rfl

namespace Nvram

theorem getGuid_of_fits (nv : Nvram) (index : Nat) (hsize : nv.dump.length = nv.dumpSize)
    (hfit : 16 * (index + 1) ≤ nv.dumpSize) :
    nv.getGuid index = .ok (uuidAt nv.dump (nv.dumpSize - 16 * (index + 1))) := by
  have hvalid : nv.isPtrValid ((nv.dumpSize : Int) - sizeofGuid - (index : Int) * sizeofGuid)
      sizeofGuid = true := by
    simp only [isPtrValid, sizeofGuid, Bool.and_eq_true, decide_eq_true_eq]
    constructor <;> omega
  simp only [getGuid, hvalid, Bool.not_true]
  rw [readGuid_ok nv _ (nv.dumpSize - 16 * (index + 1)) (by simp only [sizeofGuid]; omega)
    (by omega) (by omega)]
  rfl

theorem getGuid_of_not_fits (nv : Nvram) (index : Nat)
    (hfit : nv.dumpSize < 16 * (index + 1)) : nv.getGuid index = .error .guidNotFound := by
  have hvalid : nv.isPtrValid ((nv.dumpSize : Int) - sizeofGuid - (index : Int) * sizeofGuid)
      sizeofGuid = false := by
    simp only [isPtrValid, sizeofGuid, Bool.and_eq_false_imp, decide_eq_true_eq,
      decide_eq_false_iff_not]
    intro h
    omega
  simp only [getGuid, hvalid]
  rfl

end Nvram

/-! ## The container checks -/

theorem parseVolume_eq_unwrap (fuel : Nat) (bytes : List Nat) :
    parseVolume fuel (some bytes) =
      (unwrapVolume bytes >>= fun w => parseNvram fuel (bytes.drop w.1) w.2) := by
  unfold parseVolume unwrapVolume
  simp only [nvramSizeOf, ffsSizeOf, nvramStartOf, ffsStartOf, extHeaderSizeOf,
    extHeaderOffsetOf, uuidAt]
  generalize sizeRange = range
  by_cases h1 : bytes.length < sizeofVolumeHeader
  · simp only [if_pos h1]; rfl
  simp only [if_neg h1]
  have h1' : 64 ≤ bytes.length := by simpa [sizeofVolumeHeader] using h1
  rw [Nvram.readGuid_ok { dump := bytes, dumpSize := bytes.length } 16 16 rfl
    (by simp only []; omega) (by simp only []; omega)]
  simp only [Outcome.ok_bind]
  by_cases h2 : uuid_compare (Guid (efiGuidAt bytes 16)) (Guid EFI_FIRMWARE_FILE_SYSTEM2_GUID) ≠ 0
  · simp only [if_pos h2]; rfl
  simp only [if_neg h2]
  rw [Nvram.readU16_ok { dump := bytes, dumpSize := bytes.length } 52 52 rfl
    (by simp only []; omega) (by simp only []; omega)]
  simp only [Outcome.ok_bind]
  by_cases h3 : u16At bytes 52 = 0
  · simp only [if_pos h3]; rfl
  simp only [if_neg h3]
  by_cases h4 : bytes.length < u16At bytes 52 + sizeofVolumeExtHeader
  · simp only [if_pos h4]; rfl
  simp only [if_neg h4]
  have h4' : u16At bytes 52 + 20 ≤ bytes.length := by
    simpa [sizeofVolumeExtHeader] using h4
  rw [Nvram.readGuid_ok { dump := bytes, dumpSize := bytes.length } _ (u16At bytes 52)
    rfl (by simp only []; omega) (by simp only []; omega)]
  simp only [Outcome.ok_bind]
  by_cases h5 : uuid_compare (Guid (efiGuidAt bytes (u16At bytes 52))) (Guid Nvram.volumeGuid) ≠ 0
  · simp only [if_pos h5]; rfl
  simp only [if_neg h5]
  rw [Nvram.readU32_ok { dump := bytes, dumpSize := bytes.length } _
    (u16At bytes 52 + 16) (by push_cast; rfl) (by simp only []; omega)
    (by simp only []; omega)]
  simp only [Outcome.ok_bind]
  generalize hffs : u16At bytes 52 + u32At bytes (u16At bytes 52 + 16) +
    (u16At bytes 52 + u32At bytes (u16At bytes 52 + 16)) % 8 = ffs
  by_cases h6 : bytes.length < ffs + sizeofFfsFileHeader
  · simp only [if_pos h6]; rfl
  simp only [if_neg h6]
  have h6' : ffs + 24 ≤ bytes.length := by
    simpa [sizeofFfsFileHeader] using h6
  rw [Nvram.readGuid_ok { dump := bytes, dumpSize := bytes.length } _ ffs
    rfl (by simp only []; omega) (by simp only []; omega)]
  simp only [Outcome.ok_bind]
  by_cases h7 : uuid_compare (Guid (efiGuidAt bytes ffs)) (Guid Nvram.ffsGuid) ≠ 0
  · simp only [if_pos h7]; rfl
  simp only [if_neg h7]
  have hread : Nvram.readU32 { dump := bytes, dumpSize := bytes.length } ((ffs : Int) + 20) =
      .ok (u32At bytes (ffs + 20)) :=
    Nvram.readU32_ok { dump := bytes, dumpSize := bytes.length } _ (ffs + 20)
      (by push_cast; rfl) (by simp only []; omega) (by simp only []; omega)
  rewrite [hread, Outcome.ok_bind]
  generalize ((u32At bytes (ffs + 20) &&& 16777215) + range - sizeofFfsFileHeader) %
    range = size
  by_cases h8 : bytes.length < (ffs + sizeofFfsFileHeader + size) % range
  · simp only [if_pos h8]; rfl
  · rewrite [if_neg h8, if_neg h8, Outcome.ok_bind]
    exact Eq.refl _

theorem ffsStartOf_mod_eight (bytes : List Nat) :
    ffsStartOf bytes % 8 = 0 ↔
      (extHeaderOffsetOf bytes + extHeaderSizeOf bytes) % 8 = 0 ∨
        (extHeaderOffsetOf bytes + extHeaderSizeOf bytes) % 8 = 4 := by
  simp only [ffsStartOf]
  omega

theorem unwrapVolume_failure (bytes : List Nat)
    (h : bytes.length < 64 ∨
      uuidAt bytes 16 ≠ Guid EFI_FIRMWARE_FILE_SYSTEM2_GUID ∨
      extHeaderOffsetOf bytes = 0 ∨
      bytes.length < extHeaderOffsetOf bytes + 20 ∨
      uuidAt bytes (extHeaderOffsetOf bytes) ≠ Guid Nvram.volumeGuid ∨
      bytes.length < ffsStartOf bytes + 24 ∨
      uuidAt bytes (ffsStartOf bytes) ≠ Guid Nvram.ffsGuid) :
    ∃ e, unwrapVolume bytes = .error e ∧
      e ∈ [Error.invalidVolumeHeader, .unsupportedFileSystem, .extHeaderNotFound,
        .invalidExtHeader, .unsupportedVolume, .ffsHeaderNotFound, .unsupportedNvram] := by
  unfold unwrapVolume
  by_cases h1 : bytes.length < sizeofVolumeHeader
  · exact ⟨_, if_pos h1, by simp⟩
  rw [if_neg h1]
  by_cases h2 : uuid_compare (uuidAt bytes 16) (Guid EFI_FIRMWARE_FILE_SYSTEM2_GUID) ≠ 0
  · exact ⟨_, if_pos h2, by simp⟩
  rw [if_neg h2]
  by_cases h3 : extHeaderOffsetOf bytes = 0
  · exact ⟨_, if_pos h3, by simp⟩
  rw [if_neg h3]
  by_cases h4 : bytes.length < extHeaderOffsetOf bytes + sizeofVolumeExtHeader
  · exact ⟨_, if_pos h4, by simp⟩
  rw [if_neg h4]
  by_cases h5 : uuid_compare (uuidAt bytes (extHeaderOffsetOf bytes)) (Guid Nvram.volumeGuid) ≠ 0
  · exact ⟨_, if_pos h5, by simp⟩
  rw [if_neg h5]
  by_cases h6 : bytes.length < ffsStartOf bytes + sizeofFfsFileHeader
  · exact ⟨_, if_pos h6, by simp⟩
  rw [if_neg h6]
  by_cases h7 : uuid_compare (uuidAt bytes (ffsStartOf bytes)) (Guid Nvram.ffsGuid) ≠ 0
  · exact ⟨_, if_pos h7, by simp⟩
  exfalso
  rw [Ne, uuid_compare_eq_zero, not_not] at h2 h5 h7
  rcases h with h | h | h | h | h | h | h
  · exact h1 h
  · exact h h2
  · exact h3 h
  · exact h4 h
  · exact h h5
  · exact h6 h
  · exact h h7

/-! ## The hex codec -/

set_option maxRecDepth 100000

theorem hexMap_nibble (n : Nat) (hn : n < 16) :
    hexMap.getD n 0 % 256 ≠ 0 ∧ isspace (hexMap.getD n 0 % 256) = false ∧
    hexMap.getD n 0 % 256 ≠ 45 ∧ hexValue (hexMap.getD n 0 % 256) = some n ∧
    (48 ≤ hexMap.getD n 0 ∧ hexMap.getD n 0 ≤ 57 ∨ 65 ≤ hexMap.getD n 0 ∧ hexMap.getD n 0 ≤ 70) := by
  revert n; decide

theorem hexMap_nibble_lower (n : Nat) (hn : n < 16) :
    tolower (hexMap.getD n 0) % 256 ≠ 0 ∧ isspace (tolower (hexMap.getD n 0) % 256) = false ∧
    tolower (hexMap.getD n 0) % 256 ≠ 45 ∧
    hexValue (tolower (hexMap.getD n 0) % 256) = some n := by
  revert n; decide

theorem byte_halves (b : Nat) (hb : b < 256) :
    b >>> 4 < 16 ∧ b &&& 15 < 16 ∧ ((0 <<< (4 * 0)) % 256 ||| (b >>> 4)) <<< (4 * 1) % 256 ||| (b &&& 15) = b := by
  revert b; decide

theorem hexToBinLoop_pair (fuel : Nat) (h l hi lo : Nat) (rest : List Nat)
    (h0 : h % 256 ≠ 0) (hs : isspace (h % 256) = false) (hd : h % 256 ≠ 45)
    (hv : hexValue (h % 256) = some hi) (lv : hexValue (l % 256) = some lo) :
    hexToBinLoop (fuel + 1) (h :: l :: rest) =
      (do
        let r ← hexToBinLoop fuel rest
        pure (((((0 <<< (4 * 0)) % 256 ||| hi) <<< (4 * 1)) % 256 ||| lo) :: r)) := by
  have hsep : skipSeparators (h :: l :: rest) = h :: l :: rest := by
    simp [skipSeparators, hs, hd]
  simp only [hexToBinLoop, hsep, charAt, List.headD_cons, List.tail_cons, if_neg h0, hv, lv]

theorem hexToBinLoop_nil (fuel : Nat) : hexToBinLoop (fuel + 1) [] = .ok [] := by
  simp [hexToBinLoop, charAt]

theorem hexToBinLoop_binToHex (d : List Nat) (hbytes : ∀ b ∈ d, b < 256) :
    ∀ fuel, d.length < fuel → hexToBinLoop fuel (binToHex d) = .ok d := by
  induction d with
  | nil =>
    intro fuel hf
    obtain ⟨f, rfl⟩ : ∃ f, fuel = f + 1 := ⟨fuel - 1, by omega⟩
    exact hexToBinLoop_nil f
  | cons b rest ih =>
    intro fuel hf
    obtain ⟨f, rfl⟩ : ∃ f, fuel = f + 1 := ⟨fuel - 1, by omega⟩
    have hb : b < 256 := hbytes b (List.mem_cons_self _ _)
    have hmod : b % 256 = b := Nat.mod_eq_of_lt hb
    obtain ⟨h1, h2, h3⟩ := byte_halves b hb
    obtain ⟨a0, a1, a2, a3, _⟩ := hexMap_nibble _ h1
    obtain ⟨_, _, _, c3, _⟩ := hexMap_nibble _ h2
    have hrest := ih (fun x hx => hbytes x (List.mem_cons_of_mem _ hx)) f
      (by simp only [List.length_cons] at hf; omega)
    simp only [binToHex, hmod]
    rw [hexToBinLoop_pair f _ _ _ _ _ a0 a1 a2 a3 c3, hrest, Outcome.ok_bind, h3]
    rfl

theorem hexToBinLoop_lowerCase (d : List Nat) (hbytes : ∀ b ∈ d, b < 256) :
    ∀ fuel, d.length < fuel → hexToBinLoop fuel (lowerCase (binToHex d)) = .ok d := by
  induction d with
  | nil =>
    intro fuel hf
    obtain ⟨f, rfl⟩ : ∃ f, fuel = f + 1 := ⟨fuel - 1, by omega⟩
    exact hexToBinLoop_nil f
  | cons b rest ih =>
    intro fuel hf
    obtain ⟨f, rfl⟩ : ∃ f, fuel = f + 1 := ⟨fuel - 1, by omega⟩
    have hb : b < 256 := hbytes b (List.mem_cons_self _ _)
    have hmod : b % 256 = b := Nat.mod_eq_of_lt hb
    obtain ⟨h1, h2, h3⟩ := byte_halves b hb
    obtain ⟨a0, a1, a2, a3⟩ := hexMap_nibble_lower _ h1
    obtain ⟨_, _, _, c3⟩ := hexMap_nibble_lower _ h2
    have hrest := ih (fun x hx => hbytes x (List.mem_cons_of_mem _ hx)) f
      (by simp only [List.length_cons] at hf; omega)
    simp only [lowerCase] at hrest
    simp only [binToHex, hmod, lowerCase, List.map_cons]
    rw [hexToBinLoop_pair f _ _ _ _ _ a0 a1 a2 a3 c3, hrest, Outcome.ok_bind, h3]
    rfl

theorem binToHex_length (d : List Nat) : (binToHex d).length = 2 * d.length := by
  induction d with
  | nil => rfl
  | cons b rest ih => simp only [binToHex, List.length_cons, ih]; omega

theorem binToHex_chars (d : List Nat) :
    ∀ c ∈ binToHex d, 48 ≤ c ∧ c ≤ 57 ∨ 65 ≤ c ∧ c ≤ 70 := by
  induction d with
  | nil => intro c hc; simp [binToHex] at hc
  | cons b rest ih =>
    intro c hc
    have hb : b % 256 < 256 := Nat.mod_lt _ (by decide)
    obtain ⟨h1, h2, _⟩ := byte_halves _ hb
    simp only [binToHex, List.mem_cons] at hc
    rcases hc with rfl | rfl | hc
    · exact (hexMap_nibble _ h1).2.2.2.2
    · exact (hexMap_nibble _ h2).2.2.2.2
    · exact ih c hc

theorem charAt_binToHex (d : List Nat) (hd : d ≠ []) : charAt (binToHex d) ≠ 0 := by
  cases d with
  | nil => exact absurd rfl hd
  | cons b rest =>
    have hb : b % 256 < 256 := Nat.mod_lt _ (by decide)
    obtain ⟨h1, _, _⟩ := byte_halves _ hb
    simp only [binToHex, charAt, List.headD_cons]
    exact (hexMap_nibble _ h1).1

theorem charAt_lowerCase_binToHex (d : List Nat) (hd : d ≠ []) :
    charAt (lowerCase (binToHex d)) ≠ 0 := by
  cases d with
  | nil => exact absurd rfl hd
  | cons b rest =>
    have hb : b % 256 < 256 := Nat.mod_lt _ (by decide)
    obtain ⟨h1, _, _⟩ := byte_halves _ hb
    simp only [binToHex, charAt, lowerCase, List.map_cons, List.headD_cons]
    exact (hexMap_nibble_lower _ h1).1

theorem hexToBin_binToHex (d : List Nat) (hbytes : ∀ b ∈ d, b < 256) (hd : d ≠ [])
    (fuel : Nat) (hf : d.length < fuel) : hexToBin fuel (binToHex d) = .ok d := by
  simp only [hexToBin, if_neg (charAt_binToHex d hd)]
  exact hexToBinLoop_binToHex d hbytes fuel hf

/-! ## The snapshot -/

theorem cString_of_no_nul (s : List Nat) (h : ∀ c ∈ s, c % 256 ≠ 0) : cString s = s := by
  induction s with
  | nil => rfl
  | cons c rest ih =>
    have hc := h c (List.mem_cons_self _ _)
    have hrest := ih fun x hx => h x (List.mem_cons_of_mem _ hx)
    simp only [cString] at hrest
    simp [cString, List.takeWhile_cons, hc, hrest]

theorem hexValue_nibble (n : Nat) (hn : n < 16) : hexValue (hexMap.getD n 0) = some n := by
  revert n; decide

theorem byte_join (b : Nat) (hb : b < 256) : (b >>> 4) * 16 + (b &&& 15) = b := by
  revert b; decide

theorem hexPairs_binToHex (d : List Nat) (hbytes : ∀ b ∈ d, b < 256) :
    hexPairs (binToHex d) = some d := by
  induction d with
  | nil => rfl
  | cons b rest ih =>
    have hb : b < 256 := hbytes b (List.mem_cons_self _ _)
    have hmod : b % 256 = b := Nat.mod_eq_of_lt hb
    obtain ⟨h1, h2, _⟩ := byte_halves b hb
    have hrest := ih fun x hx => hbytes x (List.mem_cons_of_mem _ hx)
    simp only [binToHex, hexPairs, hmod, hexValue_nibble _ h1, hexValue_nibble _ h2, hrest,
      byte_join b hb]

theorem cString_binToHex (d : List Nat) : cString (binToHex d) = binToHex d := by
  apply cString_of_no_nul
  intro c hc
  have := binToHex_chars d c hc
  omega

theorem binToHex_append (a b : List Nat) : binToHex (a ++ b) = binToHex a ++ binToHex b := by
  induction a with
  | nil => rfl
  | cons x rest ih =>
    rw [List.cons_append]
    simp only [binToHex]
    rw [ih]
    rfl

theorem uuid_layout (A B C D E : List Nat) (hA : A.length = 8) (hB : B.length = 4)
    (hC : C.length = 4) (hD : D.length = 4) (hE : E.length = 12) :
    ∀ s, s = A ++ [45] ++ B ++ [45] ++ C ++ [45] ++ D ++ [45] ++ E →
    s.length = 36 ∧ s.getD 8 0 = 45 ∧ s.getD 13 0 = 45 ∧ s.getD 18 0 = 45 ∧ s.getD 23 0 = 45 ∧
    s.take 8 ++ (s.drop 9).take 4 ++ (s.drop 14).take 4 ++ (s.drop 19).take 4 ++ s.drop 24 =
      A ++ B ++ C ++ D ++ E := by
  match A, hA, B, hB, C, hC, D, hD, E, hE with
  | [a0, a1, a2, a3, a4, a5, a6, a7], _, [b0, b1, b2, b3], _, [c0, c1, c2, c3], _,
    [d0, d1, d2, d3], _, [e0, e1, e2, e3, e4, e5, e6, e7, e8, e9, e10, e11], _ =>
    intro s hs
    subst hs
    exact ⟨rfl, rfl, rfl, rfl, rfl, rfl⟩

theorem uuid_split (uu : List Nat) (hlen : uu.length = 16) :
    uu.take 4 ++ (uu.drop 4).take 2 ++ (uu.drop 6).take 2 ++ (uu.drop 8).take 2
      ++ (uu.drop 10).take 6 = uu ∧
    (uu.take 4).length = 4 ∧ ((uu.drop 4).take 2).length = 2 ∧ ((uu.drop 6).take 2).length = 2 ∧
    ((uu.drop 8).take 2).length = 2 ∧ ((uu.drop 10).take 6).length = 6 := by
  match uu, hlen with
  | [b0, b1, b2, b3, b4, b5, b6, b7, b8, b9, b10, b11, b12, b13, b14, b15], _ =>
    exact ⟨rfl, rfl, rfl, rfl, rfl, rfl⟩

theorem uuid_parse_unparse (uu : List Nat) (hlen : uu.length = 16) (hbytes : ∀ b ∈ uu, b < 256) :
    uuid_parse (uuid_unparse_upper uu) = some uu := by
  have hc : cString (uuid_unparse_upper uu) = uuid_unparse_upper uu := by
    apply cString_of_no_nul
    intro c hc
    simp only [uuid_unparse_upper, List.mem_append, List.mem_singleton] at hc
    have hx : ∀ d : List Nat, c ∈ binToHex d → c % 256 ≠ 0 := by
      intro d hd
      have := binToHex_chars d c hd
      omega
    rcases hc with ((((((((h | h) | h) | h) | h) | h) | h) | h) | h)
    all_goals first | exact hx _ h | (subst h; decide)
  obtain ⟨hsplit, l1, l2, l3, l4, l5⟩ := uuid_split uu hlen
  obtain ⟨hl, h8, h13, h18, h23, harg⟩ := uuid_layout
    (binToHex (uu.take 4)) (binToHex ((uu.drop 4).take 2)) (binToHex ((uu.drop 6).take 2))
    (binToHex ((uu.drop 8).take 2)) (binToHex ((uu.drop 10).take 6))
    (by rw [binToHex_length, l1]) (by rw [binToHex_length, l2]) (by rw [binToHex_length, l3])
    (by rw [binToHex_length, l4]) (by rw [binToHex_length, l5]) (uuid_unparse_upper uu) rfl
  unfold uuid_parse
  rw [hc]
  simp only [hl, h8, h13, h18, h23, ne_eq, not_true_eq_false, if_false, or_self, harg]
  rw [← binToHex_append, ← binToHex_append, ← binToHex_append, ← binToHex_append, hsplit]
  exact hexPairs_binToHex uu hbytes

theorem json_object_get_int_small (a : Nat) (h : a < 2 ^ 31) :
    (json_object_get_int (a : Int) % 2 ^ 32).toNat = a := by
  unfold json_object_get_int
  rw [if_neg (by omega)]
  by_cases h1 : (a : Int) ≥ 2147483647
  · rw [if_pos h1]
    have : a = 2147483647 := by omega
    subst this
    decide
  · rw [if_neg h1]
    omega

theorem loadLoop_jsonVar (fuel errno : Nat) (herrno : errno ≠ EINVAL)
    (it : VariableKey × VariableValue) (hit : Loadable it) (hfuel : it.2.data.length < fuel)
    (rest : List JsonVar) (vars : Variables) :
    loadLoop fuel errno (jsonVar it :: rest) vars =
      loadLoop fuel errno rest (vars.assign it.1 it.2) := by
  obtain ⟨hname, hnul, hlen, hguid, hattr, hdata, hbytes⟩ := hit
  have h1 : cString it.1.name = it.1.name := cString_of_no_nul _ hnul
  have h2 : charAt it.1.name ≠ 0 := by
    cases hn : it.1.name with
    | nil => exact absurd hn hname
    | cons c r =>
      simp only [charAt, List.headD_cons]
      exact hnul c (by rw [hn]; exact List.mem_cons_self _ _)
  have h3 := uuid_parse_unparse _ hlen hguid
  have h4 := json_object_get_int_small _ hattr
  have h5 := cString_binToHex it.2.data
  have h6 := charAt_binToHex _ hdata
  have h7 := hexToBin_binToHex _ hbytes hdata fuel hfuel
  simp only [loadLoop, jsonVar, h1, if_neg h2, h3, h4, h5, if_neg h6, h7, Outcome.ok_bind,
    herrno, and_false, if_false]

theorem loadLoop_map_jsonVar (fuel errno : Nat) (herrno : errno ≠ EINVAL) :
    ∀ (es : Variables) (vars : Variables),
      (∀ it ∈ es, Loadable it ∧ it.2.data.length < fuel) →
      loadLoop fuel errno (es.map jsonVar) vars =
        .ok (es.foldl (fun (acc : Variables) it => acc.assign it.1 it.2) vars) := by
  intro es
  induction es with
  | nil => intro vars _; rfl
  | cons it rest ih =>
    intro vars h
    obtain ⟨hit, hf⟩ := h it (List.mem_cons_self _ _)
    rw [List.map_cons, loadLoop_jsonVar fuel errno herrno it hit hf, List.foldl_cons]
    exact ih _ fun x hx => h x (List.mem_cons_of_mem _ hx)

theorem foldl_assign_reverse (vars : Variables) (hwf : vars.WF) :
    vars.reverse.foldl (fun (acc : Variables) it => acc.assign it.1 it.2) [] = vars := by
  induction vars with
  | nil => rfl
  | cons e rest ih =>
    have hrest : Variables.WF rest := (List.pairwise_cons.mp hwf).2
    rw [List.reverse_cons, List.foldl_append, ih hrest]
    cases rest with
    | nil => rfl
    | cons r tail =>
      have hlt : e.1.lt r.1 = true := (List.pairwise_cons.mp hwf).1 r (List.mem_cons_self _ _)
      simp only [List.foldl_cons, List.foldl_nil, Variables.assign, hlt, if_true]

theorem skipSeparators_all (s : List Nat)
    (hsep : ∀ c ∈ s, isspace (c % 256) = true ∨ c % 256 = 45) : skipSeparators s = [] := by
  induction s with
  | nil => rfl
  | cons c rest ih =>
    have hc := hsep c (List.mem_cons_self _ _)
    have hrest := ih fun x hx => hsep x (List.mem_cons_of_mem _ hx)
    rcases hc with hc | hc <;> simp [skipSeparators, hc, hrest]

/-! ## The decoder by the fields of the dump -/

namespace Nvram

theorem read_eq_ok (nv : Nvram) (p : Int) (i : Nat) (hp : p = (i : Int)) (b : Nat)
    (h : nv.read p = .ok b) : i < nv.dumpSize ∧ b = byteAt nv.dump i := by
  subst hp
  unfold read at h
  split_ifs at h with hc
  simp only [Int.toNat_ofNat] at h
  cases hg : nv.dump.get? i with
  | none => rw [hg] at h; cases h
  | some x =>
    rw [hg] at h
    simp only [Outcome.ok.injEq] at h
    refine ⟨by omega, ?_⟩
    have hx := List.get?_eq_some.mp hg
    obtain ⟨hlt, hget⟩ := hx
    simp only [byteAt, List.getD_eq_getElem _ _ hlt]
    rw [← h, ← hget]
    rfl

theorem read_nonneg (nv : Nvram) (p : Int) (b : Nat) (h : nv.read p = .ok b) : 0 ≤ p := by
  unfold read at h
  split_ifs at h with hc
  exact hc.1

theorem readU16_eq_ok (nv : Nvram) (p : Int) (i : Nat) (hp : p = (i : Int)) (v : Nat)
    (h : nv.readU16 p = .ok v) : i + 2 ≤ nv.dumpSize ∧ v = u16At nv.dump i := by
  unfold readU16 at h
  obtain ⟨b0, h0, h⟩ := Outcome.bind_eq_ok _ _ _ h
  obtain ⟨b1, h1, h⟩ := Outcome.bind_eq_ok _ _ _ h
  obtain ⟨_, e0⟩ := read_eq_ok nv p i hp b0 h0
  obtain ⟨l1, e1⟩ := read_eq_ok nv (p + 1) (i + 1) (by omega) b1 h1
  simp only [Outcome.pure_eq, Outcome.ok.injEq] at h
  exact ⟨by omega, by rw [← h, e0, e1]; rfl⟩

theorem readU32_eq_ok (nv : Nvram) (p : Int) (i : Nat) (hp : p = (i : Int)) (v : Nat)
    (h : nv.readU32 p = .ok v) : i + 4 ≤ nv.dumpSize ∧ v = u32At nv.dump i := by
  unfold readU32 at h
  obtain ⟨b0, h0, h⟩ := Outcome.bind_eq_ok _ _ _ h
  obtain ⟨b1, h1, h⟩ := Outcome.bind_eq_ok _ _ _ h
  obtain ⟨b2, h2, h⟩ := Outcome.bind_eq_ok _ _ _ h
  obtain ⟨b3, h3, h⟩ := Outcome.bind_eq_ok _ _ _ h
  obtain ⟨_, e0⟩ := read_eq_ok nv p i hp b0 h0
  obtain ⟨_, e1⟩ := read_eq_ok nv (p + 1) (i + 1) (by omega) b1 h1
  obtain ⟨_, e2⟩ := read_eq_ok nv (p + 2) (i + 2) (by omega) b2 h2
  obtain ⟨l3, e3⟩ := read_eq_ok nv (p + 3) (i + 3) (by omega) b3 h3
  simp only [Outcome.pure_eq, Outcome.ok.injEq] at h
  exact ⟨by omega, by rw [← h, e0, e1, e2, e3]; rfl⟩

theorem readRange_eq_ok (nv : Nvram) (count : Nat) :
    ∀ (p : Int) (i : Nat), p = (i : Int) → ∀ l, nv.readRange count p = .ok l →
      (count = 0 ∨ i + count ≤ nv.dumpSize) ∧ l = bytesAt nv.dump count i := by
  induction count with
  | zero =>
    intro p i _ l h
    simp only [readRange, Outcome.ok.injEq] at h
    exact ⟨Or.inl rfl, by rw [← h]; rfl⟩
  | succ count ih =>
    intro p i hp l h
    simp only [readRange] at h
    obtain ⟨b, hb, h⟩ := Outcome.bind_eq_ok _ _ _ h
    obtain ⟨rest, hr, h⟩ := Outcome.bind_eq_ok _ _ _ h
    obtain ⟨hlt, eb⟩ := read_eq_ok nv p i hp b hb
    obtain ⟨hle, er⟩ := ih (p + 1) (i + 1) (by omega) rest hr
    simp only [Outcome.pure_eq, Outcome.ok.injEq] at h
    refine ⟨Or.inr ?_, by rw [← h, eb, er]; rfl⟩
    rcases hle with h0 | h1
    · omega
    · omega

theorem bytesAt_length (bytes : List Nat) (count : Nat) :
    ∀ i, (bytesAt bytes count i).length = count := by
  induction count with
  | zero => intro i; rfl
  | succ count ih => intro i; simp only [bytesAt, List.length_cons, ih]

theorem nameLoop_eq_ok (nv : Nvram) (payloadEnd : Int) (fuel : Nat) :
    ∀ (p : Int) (i : Nat), p = (i : Int) → ∀ q, nv.nameLoop payloadEnd fuel p = .ok q →
      ∃ j : Nat, q = (j : Int) ∧ i ≤ j ∧ j < nv.dumpSize ∧ byteAt nv.dump j = 0 ∧
        (∀ t, i ≤ t → t < j → byteAt nv.dump t ≠ 0) ∧ (j = i ∨ (j : Int) < payloadEnd) := by
  induction fuel with
  | zero => intro p i _ q h; cases h
  | succ fuel ih =>
    intro p i hp q h
    simp only [nameLoop] at h
    obtain ⟨c, hc, h⟩ := Outcome.bind_eq_ok _ _ _ h
    obtain ⟨hlt, ec⟩ := read_eq_ok nv p i hp c hc
    split_ifs at h with h0 h1
    · obtain ⟨j, hq, hij, hj, hz, hall, hend⟩ := ih (p + 1) (i + 1) (by omega) q h
      refine ⟨j, hq, by omega, hj, hz, ?_, Or.inr ?_⟩
      · intro t ht1 ht2
        by_cases hti : t = i
        · rw [hti, ← ec]; exact h0
        · exact hall t (by omega) ht2
      · rcases hend with he | he
        · omega
        · exact he
    · simp only [Outcome.ok.injEq] at h
      refine ⟨i, by omega, le_refl _, hlt, ?_, ?_, Or.inl rfl⟩
      · rw [← ec]; simpa using h0
      · intro t ht1 ht2; omega

theorem nameLoop_ok (nv : Nvram) (payloadEnd : Int) (hsize : nv.dump.length = nv.dumpSize)
    (j : Nat) (hj : j < nv.dumpSize) (hz : byteAt nv.dump j = 0) (fuel : Nat) :
    ∀ (p : Int) (i : Nat), p = (i : Int) → i ≤ j → j - i < fuel →
      (∀ t, i ≤ t → t < j → byteAt nv.dump t ≠ 0) → (j = i ∨ (j : Int) < payloadEnd) →
      nv.nameLoop payloadEnd fuel p = .ok (j : Int) := by
  induction fuel with
  | zero => intro p i _ _ hf; omega
  | succ fuel ih =>
    intro p i hp hij hf hall hend
    simp only [nameLoop]
    rw [read_ok nv p i hp (by omega) (by omega), Outcome.ok_bind]
    by_cases hji : j = i
    · subst hji
      rw [if_neg (by simpa using hz), hp]
    · rw [if_pos (hall i (le_refl _) (by omega))]
      have hpe : ¬ (p + 1 ≥ payloadEnd) := by
        rcases hend with he | he
        · exact absurd he hji
        · omega
      simp only [if_neg hpe]
      exact ih (p + 1) (i + 1) (by omega) (by omega) (by omega)
        (fun t ht1 ht2 => hall t (by omega) ht2) (Or.inr (by
          rcases hend with he | he
          · exact absurd he hji
          · exact he))


theorem isPtrValid_iff (nv : Nvram) (p : Int) (n : Nat) :
    nv.isPtrValid p n = true ↔ 0 ≤ p ∧ p + (n : Int) ≤ (nv.dumpSize : Int) := by
  simp [isPtrValid]

theorem nextOf_ok (nv : Nvram) (hsize : nv.dump.length = nv.dumpSize) (p : Int) (o : Nat)
    (hp : p = (o : Int)) (h : o + 10 ≤ nv.dumpSize) : nv.nextOf p = .ok (nextAt nv.dump o) := by
  simp only [nextOf, nextAt]
  rw [readU32_ok nv (p + 6) (o + 6) (by omega) (by omega) (by omega)]
  rfl

theorem nextOf_eq_ok (nv : Nvram) (p : Int) (o : Nat) (hp : p = (o : Int)) (n : Nat)
    (h : nv.nextOf p = .ok n) : o + 10 ≤ nv.dumpSize ∧ n = nextAt nv.dump o := by
  unfold nextOf at h
  obtain ⟨w, hw, h⟩ := Outcome.bind_eq_ok _ _ _ h
  obtain ⟨hle, ew⟩ := readU32_eq_ok nv (p + 6) (o + 6) (by omega) w hw
  simp only [Outcome.pure_eq, Outcome.ok.injEq] at h
  exact ⟨by omega, by rw [← h, ew]; rfl⟩

theorem lastNodeLoop_of_ends (nv : Nvram) (hsize : nv.dump.length = nv.dumpSize) (o d : Nat)
    (h : ChainEnds nv o d) :
    ∀ (fuel : Nat) (p : Int), p = (o : Int) → nv.dumpSize - o < fuel →
      nv.lastNodeLoop fuel p (nextAt nv.dump o) = .ok (some (d : Int)) := by
  induction h with
  | last o hlast =>
    intro fuel p hp hf
    obtain ⟨f, rfl⟩ : ∃ f, fuel = f + 1 := ⟨fuel - 1, by omega⟩
    simp only [lastNodeLoop, hlast, ne_eq, not_true_eq_false, if_false, hp]
  | hop o d hne h0 hroom hsig _ ih =>
    intro fuel p hp hf
    obtain ⟨f, rfl⟩ : ∃ f, fuel = f + 1 := ⟨fuel - 1, by omega⟩
    have hv : nv.isPtrValid (p + (nextAt nv.dump o : Int)) sizeofNodeHeader = true := by
      rw [isPtrValid_iff]; simp only [sizeofNodeHeader]; constructor <;> omega
    simp only [lastNodeLoop, if_pos hne, if_neg h0, hv, Bool.not_true, Bool.false_eq_true,
      if_false]
    rw [readU32_ok nv _ (o + nextAt nv.dump o) (by omega) (by omega) (by omega), Outcome.ok_bind,
      if_neg (by rw [hsig]; simp),
      nextOf_ok nv hsize _ (o + nextAt nv.dump o) (by omega) hroom, Outcome.ok_bind]
    exact ih f _ (by omega) (by omega)

theorem lastNodeLoop_of_broken (nv : Nvram) (hsize : nv.dump.length = nv.dumpSize) (o : Nat)
    (h : ChainBroken nv o) :
    ∀ (fuel : Nat) (p : Int), p = (o : Int) → nv.dumpSize - o < fuel →
      nv.lastNodeLoop fuel p (nextAt nv.dump o) = .ok none := by
  induction h with
  | zero o hz =>
    intro fuel p hp hf
    obtain ⟨f, rfl⟩ : ∃ f, fuel = f + 1 := ⟨fuel - 1, by omega⟩
    simp [lastNodeLoop, hz]
  | noRoom o hne hroom =>
    intro fuel p hp hf
    obtain ⟨f, rfl⟩ : ∃ f, fuel = f + 1 := ⟨fuel - 1, by omega⟩
    have hv : nv.isPtrValid (p + (nextAt nv.dump o : Int)) sizeofNodeHeader = false := by
      rw [← Bool.not_eq_true, isPtrValid_iff]
      intro hc
      exact hroom (by have := hc.2; simp only [sizeofNodeHeader] at this; omega)
    simp only [lastNodeLoop, if_pos hne, hv, Bool.not_false, if_true]
    split_ifs <;> rfl
  | badSignature o hne hsig =>
    intro fuel p hp hf
    obtain ⟨f, rfl⟩ : ∃ f, fuel = f + 1 := ⟨fuel - 1, by omega⟩
    simp only [lastNodeLoop, if_pos hne]
    split_ifs with h0 hv
    · rfl
    · rfl
    · have hv2 : nv.isPtrValid (p + (nextAt nv.dump o : Int)) sizeofNodeHeader = true := by
        simpa using hv
      rw [isPtrValid_iff] at hv2
      have := hv2.2
      simp only [sizeofNodeHeader] at this
      rw [readU32_ok nv _ (o + nextAt nv.dump o) (by omega) (by omega) (by omega),
        Outcome.ok_bind, if_pos hsig]
  | hop o hne h0 hroom hsig _ ih =>
    intro fuel p hp hf
    obtain ⟨f, rfl⟩ : ∃ f, fuel = f + 1 := ⟨fuel - 1, by omega⟩
    have hv : nv.isPtrValid (p + (nextAt nv.dump o : Int)) sizeofNodeHeader = true := by
      rw [isPtrValid_iff]; simp only [sizeofNodeHeader]; constructor <;> omega
    simp only [lastNodeLoop, if_pos hne, if_neg h0, hv, Bool.not_true, Bool.false_eq_true,
      if_false]
    rw [readU32_ok nv _ (o + nextAt nv.dump o) (by omega) (by omega) (by omega), Outcome.ok_bind,
      if_neg (by rw [hsig]; simp),
      nextOf_ok nv hsize _ (o + nextAt nv.dump o) (by omega) hroom, Outcome.ok_bind]
    exact ih f _ (by omega) (by omega)

theorem lastNodeLoop_eq_some (nv : Nvram) (fuel : Nat) :
    ∀ (p : Int) (o : Nat), p = (o : Int) → ∀ d, nv.lastNodeLoop fuel p (nextAt nv.dump o) =
      .ok (some d) → ∃ d' : Nat, d = (d' : Int) ∧ ChainEnds nv o d' := by
  induction fuel with
  | zero => intro p o _ d h; cases h
  | succ fuel ih =>
    intro p o hp d h
    simp only [lastNodeLoop] at h
    by_cases hne : nextAt nv.dump o ≠ lastNodeId
    · rw [if_pos hne] at h
      by_cases h0 : nextAt nv.dump o = 0
      · rw [if_pos h0] at h; cases h
      · rw [if_neg h0] at h
        cases hv : nv.isPtrValid (p + (nextAt nv.dump o : Int)) sizeofNodeHeader with
        | false => rw [hv] at h; cases h
        | true =>
          rw [hv] at h
          simp only [Bool.not_true, Bool.false_eq_true, if_false] at h
          rw [isPtrValid_iff] at hv
          have hroom := hv.2
          simp only [sizeofNodeHeader] at hroom
          obtain ⟨sig, hs, h⟩ := Outcome.bind_eq_ok _ _ _ h
          obtain ⟨_, es⟩ := readU32_eq_ok nv _ (o + nextAt nv.dump o) (by omega) sig hs
          by_cases hsig : sig ≠ nvarSignature
          · rw [if_pos hsig] at h; cases h
          · rw [if_neg hsig] at h
            obtain ⟨n, hn, h⟩ := Outcome.bind_eq_ok _ _ _ h
            obtain ⟨_, en⟩ := nextOf_eq_ok nv _ (o + nextAt nv.dump o) (by omega) n hn
            rw [en] at h
            obtain ⟨d', hd, hch⟩ := ih _ (o + nextAt nv.dump o) (by omega) d h
            exact ⟨d', hd, ChainEnds.hop o d' hne h0 (by omega)
              (by rw [← es]; simpa using hsig) hch⟩
    · rw [if_neg hne] at h
      simp only [Outcome.ok.injEq, Option.some.injEq] at h
      exact ⟨o, by omega, ChainEnds.last o (by simpa using hne)⟩

theorem ChainEnds.le (nv : Nvram) (o d : Nat) (h : ChainEnds nv o d) :
    o ≤ d ∧ (d = o ↔ nextAt nv.dump o = lastNodeId) ∧ nextAt nv.dump d = lastNodeId ∧
    (d ≠ o → d + 10 ≤ nv.dumpSize ∧ u32At nv.dump d = nvarSignature) := by
  induction h with
  | last o hlast => exact ⟨le_refl _, ⟨fun _ => hlast, fun _ => rfl⟩, hlast, fun h => absurd rfl h⟩
  | hop o d hne h0 hroom hsig _ ih =>
    obtain ⟨hle, hiff, hl, hd⟩ := ih
    refine ⟨by omega, ⟨fun h => ?_, fun h => absurd h hne⟩, hl, fun _ => ?_⟩
    · exfalso; omega
    · by_cases hdo : d = o + nextAt nv.dump o
      · rw [hdo]; exact ⟨hroom, hsig⟩
      · exact hd hdo


theorem bytesAt_ne_nil (bytes : List Nat) (count i : Nat) (h : 0 < count) :
    bytesAt bytes count i ≠ [] := by
  intro he
  have := bytesAt_length bytes count i
  rw [he] at this
  simp at this
  omega

theorem readVariable_eq_ok (nv : Nvram) (fuel : Nat) (o : Nat) (key : VariableKey)
    (value : VariableValue) (h : nv.readVariable fuel (o : Int) = .ok (key, value)) :
    ∃ nul d : Nat,
      10 ≤ u16At nv.dump (o + 4) ∧ o + 10 < nv.dumpSize ∧
      o + u16At nv.dump (o + 4) ≤ nv.dumpSize ∧
      nv.getGuid (byteAt nv.dump (o + 10)) = .ok key.guid ∧
      o + 11 ≤ nul ∧ nul < nv.dumpSize ∧ byteAt nv.dump nul = 0 ∧
      (∀ t, o + 11 ≤ t → t < nul → byteAt nv.dump t ≠ 0) ∧
      key.name = bytesAt nv.dump (nul - (o + 11)) (o + 11) ∧
      value.attributes = getAttributes (byteAt nv.dump (o + 9)) ∧
      ChainEnds nv o d ∧
      (d = o → nul + 1 < o + u16At nv.dump (o + 4) ∧
        value.data = bytesAt nv.dump (o + u16At nv.dump (o + 4) - (nul + 1)) (nul + 1)) ∧
      (d ≠ o → d + 10 < d + u16At nv.dump (d + 4) ∧ d + 10 < nv.dumpSize ∧
        d + u16At nv.dump (d + 4) ≤ nv.dumpSize ∧
        value.data = bytesAt nv.dump (u16At nv.dump (d + 4) - 10) (d + 10)) := by
  unfold readVariable at h
  obtain ⟨size, hsz, h⟩ := Outcome.bind_eq_ok _ _ _ h
  obtain ⟨_, esz⟩ := readU16_eq_ok nv _ (o + 4) (by omega) size hsz
  by_cases hL : size < sizeofNodeHeader
  · rw [if_pos hL] at h; cases h
  rw [if_neg hL] at h
  simp only [sizeofNodeHeader] at hL
  dsimp only at h
  cases hv1 : nv.isPtrValid ((o : Int) + (sizeofNodeHeader : Nat)) 1 with
  | false => rw [hv1] at h; cases h
  | true =>
  cases hv2 : nv.isPtrValid ((o : Int) + (size : Int) - 1) 1 with
  | false => rw [hv1, hv2] at h; cases h
  | true =>
  rw [hv1, hv2] at h
  simp only [Bool.not_true, Bool.or_self, Bool.false_eq_true, if_false] at h
  rw [isPtrValid_iff] at hv1 hv2
  simp only [sizeofNodeHeader] at hv1
  obtain ⟨guidIndex, hgi, h⟩ := Outcome.bind_eq_ok _ _ _ h
  obtain ⟨_, egi⟩ := read_eq_ok nv _ (o + 10) (by simp only [sizeofNodeHeader]; omega) _ hgi
  obtain ⟨guid, hguid, h⟩ := Outcome.bind_eq_ok _ _ _ h
  obtain ⟨q, hq, h⟩ := Outcome.bind_eq_ok _ _ _ h
  obtain ⟨nul, eq, hle, hnul, hz, hall, hend⟩ :=
    nameLoop_eq_ok nv _ fuel _ (o + 11) (by simp only [sizeofNodeHeader]; omega) q hq
  subst eq
  obtain ⟨keyName, hkn, h⟩ := Outcome.bind_eq_ok _ _ _ h
  obtain ⟨_, ekn⟩ := readRange_eq_ok nv _ _ (o + 11) (by simp only [sizeofNodeHeader]; omega)
    keyName hkn
  have hcount : ((nul : Int) - ((o : Int) + (sizeofNodeHeader : Nat) + 1)).toNat
      = nul - (o + 11) := by simp only [sizeofNodeHeader]; omega
  rw [hcount] at ekn
  obtain ⟨flags, hfl, h⟩ := Outcome.bind_eq_ok _ _ _ h
  obtain ⟨_, efl⟩ := read_eq_ok nv _ (o + 9) (by omega) _ hfl
  obtain ⟨dataNode, hdn, h⟩ := Outcome.bind_eq_ok _ _ _ h
  unfold getLastNode at hdn
  obtain ⟨next, hnx, hdn⟩ := Outcome.bind_eq_ok _ _ _ hdn
  obtain ⟨_, enx⟩ := nextOf_eq_ok nv _ o rfl next hnx
  rw [enx] at hdn
  cases dataNode with
  | none => cases h
  | some dn =>
  obtain ⟨d, ed, hch⟩ := lastNodeLoop_eq_some nv fuel _ o rfl dn hdn
  subst ed
  dsimp only at h
  obtain ⟨⟨ps, pe⟩, hrng, h⟩ := Outcome.bind_eq_ok _ _ _ h
  dsimp only at h
  by_cases hemp : ps ≥ pe
  · rw [if_pos hemp] at h; cases h
  rw [if_neg hemp] at h
  obtain ⟨data, hdata, h⟩ := Outcome.bind_eq_ok _ _ _ h
  simp only [Outcome.pure_eq, Outcome.ok.injEq, Prod.mk.injEq] at h
  obtain ⟨hkey, hval⟩ := h
  refine ⟨nul, d, by omega, by omega, by omega, ?_, hle, hnul, hz, hall, ?_, ?_, hch, ?_, ?_⟩
  · rw [← egi, ← hkey]; exact hguid
  · rw [← hkey, ekn]
  · rw [← hval, efl]
  · intro hdo
    subst hdo
    rw [if_neg (by simp)] at hrng
    simp only [Outcome.ok.injEq, Prod.mk.injEq] at hrng
    obtain ⟨e1, e2⟩ := hrng
    subst e1 e2
    obtain ⟨_, edata⟩ := readRange_eq_ok nv _ _ (nul + 1) (by omega) data hdata
    have hc : ((d : Int) + (size : Int) - ((nul : Int) + 1)).toNat = d + size - (nul + 1) := by
      omega
    rw [hc] at edata
    rw [← esz]
    exact ⟨by omega, by rw [← hval, edata]⟩
  · intro hdo
    rw [if_pos (by intro hc; exact hdo (by omega))] at hrng
    obtain ⟨dataSize, hds, hrng⟩ := Outcome.bind_eq_ok _ _ _ hrng
    obtain ⟨_, eds⟩ := readU16_eq_ok nv _ (d + 4) (by omega) dataSize hds
    cases hw1 : nv.isPtrValid ((d : Int) + (sizeofNodeHeader : Nat)) 1 with
    | false => rw [hw1] at hrng; cases hrng
    | true =>
    cases hw2 : nv.isPtrValid ((d : Int) + (dataSize : Int) - 1) 1 with
    | false => rw [hw1, hw2] at hrng; cases hrng
    | true =>
    rw [hw1, hw2] at hrng
    simp only [Bool.not_true, Bool.or_self, Bool.false_eq_true, if_false, Outcome.ok.injEq,
      Prod.mk.injEq] at hrng
    obtain ⟨e1, e2⟩ := hrng
    subst e1 e2
    rw [isPtrValid_iff] at hw1 hw2
    simp only [sizeofNodeHeader] at hw1 hemp hdata
    obtain ⟨_, edata⟩ := readRange_eq_ok nv _ _ (d + 10) (by omega) data hdata
    have hc : ((d : Int) + (dataSize : Int) - ((d : Int) + ((10 : Nat) : Int))).toNat
        = dataSize - 10 := by omega
    rw [hc] at edata
    rw [← eds]
    exact ⟨by omega, by omega, by omega, by rw [← hval, edata]⟩


theorem nameLoop_total (nv : Nvram) (payloadEnd : Nat) (hsize : nv.dump.length = nv.dumpSize)
    (hend : payloadEnd ≤ nv.dumpSize) (fuel : Nat) :
    ∀ (p : Int) (i : Nat), p = (i : Int) → i < nv.dumpSize → payloadEnd - i < fuel →
      (∃ j : Nat, nv.nameLoop (payloadEnd : Int) fuel p = .ok (j : Int)) ∨
      nv.nameLoop (payloadEnd : Int) fuel p = .error .nameTooLong := by
  induction fuel with
  | zero => intro p i _ _ hf; omega
  | succ fuel ih =>
    intro p i hp hi hf
    simp only [nameLoop]
    rw [read_ok nv p i hp hi (by omega), Outcome.ok_bind]
    by_cases hc : byteAt nv.dump i ≠ 0
    · rw [if_pos hc]
      by_cases hpe : p + 1 ≥ (payloadEnd : Int)
      · simp only [if_pos hpe]
        exact Or.inr trivial
      · simp only [if_neg hpe]
        exact ih (p + 1) (i + 1) (by omega) (by omega) (by omega)
    · rw [if_neg hc]
      exact Or.inl ⟨i, by rw [hp]⟩

theorem getLastNode_of_broken (nv : Nvram) (hsize : nv.dump.length = nv.dumpSize) (o : Nat)
    (hroom : o + 10 ≤ nv.dumpSize) (h : ChainBroken nv o) (fuel : Nat)
    (hf : nv.dumpSize - o < fuel) : nv.getLastNode fuel (o : Int) = .ok none := by
  unfold getLastNode
  rw [nextOf_ok nv hsize _ o rfl hroom, Outcome.ok_bind]
  exact lastNodeLoop_of_broken nv hsize o h fuel _ rfl hf

theorem getLastNode_of_ends (nv : Nvram) (hsize : nv.dump.length = nv.dumpSize) (o d : Nat)
    (hroom : o + 10 ≤ nv.dumpSize) (h : ChainEnds nv o d) (fuel : Nat)
    (hf : nv.dumpSize - o < fuel) : nv.getLastNode fuel (o : Int) = .ok (some (d : Int)) := by
  unfold getLastNode
  rw [nextOf_ok nv hsize _ o rfl hroom, Outcome.ok_bind]
  exact lastNodeLoop_of_ends nv hsize o d h fuel _ rfl hf

theorem readVariable_of_broken (nv : Nvram) (hsize : nv.dump.length = nv.dumpSize) (o : Nat)
    (hroom : o + 10 ≤ nv.dumpSize) (hname : o + 11 < nv.dumpSize) (h : ChainBroken nv o)
    (fuel : Nat) (hf : nv.dumpSize < fuel) :
    ∃ e, e ∈ [Error.invalidHeader, Error.guidNotFound, Error.nameTooLong, Error.dataNotFound] ∧
      nv.readVariable fuel (o : Int) = .error e := by
  unfold readVariable
  rw [readU16_ok nv _ (o + 4) (by omega) (by omega) (by omega), Outcome.ok_bind]
  by_cases hL : u16At nv.dump (o + 4) < sizeofNodeHeader
  · rw [if_pos hL]; exact ⟨Error.invalidHeader, by decide, rfl⟩
  rw [if_neg hL]
  simp only [sizeofNodeHeader] at hL
  dsimp only
  cases hv1 : nv.isPtrValid ((o : Int) + (sizeofNodeHeader : Nat)) 1 with
  | false => exact ⟨Error.invalidHeader, by decide, rfl⟩
  | true =>
  cases hv2 : nv.isPtrValid ((o : Int) + (u16At nv.dump (o + 4) : Int) - 1) 1 with
  | false => exact ⟨Error.invalidHeader, by decide, rfl⟩
  | true =>
  simp only [Bool.not_true, Bool.or_self, Bool.false_eq_true, if_false]
  rw [isPtrValid_iff] at hv1 hv2
  simp only [sizeofNodeHeader] at hv1
  rw [read_ok nv _ (o + 10) (by simp only [sizeofNodeHeader]; omega) (by omega) (by omega),
    Outcome.ok_bind]
  by_cases hfit : 16 * (byteAt nv.dump (o + 10) + 1) ≤ nv.dumpSize
  swap
  · rw [getGuid_of_not_fits nv _ (by omega)]; exact ⟨Error.guidNotFound, by decide, rfl⟩
  rw [getGuid_of_fits nv _ hsize hfit, Outcome.ok_bind]
  have hpe : (o : Int) + (u16At nv.dump (o + 4) : Int) = ((o + u16At nv.dump (o + 4) : Nat) : Int) := by
    omega
  rw [hpe]
  rcases nameLoop_total nv (o + u16At nv.dump (o + 4)) hsize (by omega) fuel
    ((o : Int) + (sizeofNodeHeader : Nat) + 1) (o + 11)
    (by simp only [sizeofNodeHeader]; omega) hname (by omega) with ⟨nul, hn⟩ | hn
  swap
  · rw [hn]; exact ⟨Error.nameTooLong, by decide, rfl⟩
  rw [hn, Outcome.ok_bind]
  obtain ⟨j, ej, hle, hj, -, -, -⟩ := nameLoop_eq_ok nv _ fuel _ (o + 11)
    (by simp only [sizeofNodeHeader]; omega) _ hn
  have ej' : nul = j := by omega
  subst ej'
  rw [readRange_ok nv _ _ (o + 11) (by simp only [sizeofNodeHeader]; omega)
    (by simp only [sizeofNodeHeader]; omega) (by simp only [sizeofNodeHeader]; omega),
    Outcome.ok_bind,
    read_ok nv _ (o + 9) (by omega) (by omega) (by omega), Outcome.ok_bind,
    getLastNode_of_broken nv hsize o hroom h fuel (by omega), Outcome.ok_bind]
  exact ⟨Error.dataNotFound, by decide, rfl⟩

theorem readVariable_of_ends (nv : Nvram) (hsize : nv.dump.length = nv.dumpSize) (o nul d : Nat)
    (hL : 10 ≤ u16At nv.dump (o + 4)) (h1 : o + 10 < nv.dumpSize)
    (h2 : o + u16At nv.dump (o + 4) ≤ nv.dumpSize)
    (hfit : 16 * (byteAt nv.dump (o + 10) + 1) ≤ nv.dumpSize)
    (hle : o + 11 ≤ nul) (hnul : nul < nv.dumpSize) (hz : byteAt nv.dump nul = 0)
    (hall : ∀ t, o + 11 ≤ t → t < nul → byteAt nv.dump t ≠ 0)
    (hend : nul = o + 11 ∨ nul < o + u16At nv.dump (o + 4))
    (hch : ChainEnds nv o d) (fuel : Nat) (hf : nv.dumpSize < fuel) :
    nv.readVariable fuel (o : Int) =
      if d = o then
        if o + u16At nv.dump (o + 4) ≤ nul + 1 then .error .valueEmpty
        else .ok
          ({ name := bytesAt nv.dump (nul - (o + 11)) (o + 11),
             guid := uuidAt nv.dump (nv.dumpSize - 16 * (byteAt nv.dump (o + 10) + 1)) },
           { attributes := getAttributes (byteAt nv.dump (o + 9)),
             data := bytesAt nv.dump (o + u16At nv.dump (o + 4) - (nul + 1)) (nul + 1) })
      else if ¬ (d + 10 < nv.dumpSize ∧ d + u16At nv.dump (d + 4) ≤ nv.dumpSize) then
        .error .dataOutOfRange
      else if u16At nv.dump (d + 4) ≤ 10 then .error .valueEmpty
      else .ok
        ({ name := bytesAt nv.dump (nul - (o + 11)) (o + 11),
           guid := uuidAt nv.dump (nv.dumpSize - 16 * (byteAt nv.dump (o + 10) + 1)) },
         { attributes := getAttributes (byteAt nv.dump (o + 9)),
           data := bytesAt nv.dump (u16At nv.dump (d + 4) - 10) (d + 10) }) := by
  obtain ⟨hod, -, -, hdn⟩ := ChainEnds.le nv o d hch
  unfold readVariable
  rw [readU16_ok nv _ (o + 4) (by omega) (by omega) (by omega), Outcome.ok_bind,
    if_neg (by simp only [sizeofNodeHeader]; omega)]
  dsimp only
  have hv1 : nv.isPtrValid ((o : Int) + (sizeofNodeHeader : Nat)) 1 = true := by
    rw [isPtrValid_iff]; simp only [sizeofNodeHeader]; constructor <;> omega
  have hv2 : nv.isPtrValid ((o : Int) + (u16At nv.dump (o + 4) : Int) - 1) 1 = true := by
    rw [isPtrValid_iff]; constructor <;> omega
  rw [hv1, hv2]
  simp only [Bool.not_true, Bool.or_self, Bool.false_eq_true, if_false]
  rw [read_ok nv _ (o + 10) (by simp only [sizeofNodeHeader]; omega) (by omega) (by omega),
    Outcome.ok_bind, getGuid_of_fits nv _ hsize hfit, Outcome.ok_bind,
    nameLoop_ok nv _ hsize nul hnul hz fuel ((o : Int) + (sizeofNodeHeader : Nat) + 1) (o + 11)
      (by simp only [sizeofNodeHeader]; omega) hle (by omega) hall
      (by rcases hend with he | he
          · exact Or.inl he
          · exact Or.inr (by omega)),
    Outcome.ok_bind]
  have hcount : ((nul : Int) - ((o : Int) + (sizeofNodeHeader : Nat) + 1)).toNat
      = nul - (o + 11) := by simp only [sizeofNodeHeader]; omega
  rw [hcount, readRange_ok nv _ _ (o + 11) (by simp only [sizeofNodeHeader]; omega)
    (by omega) (by omega), Outcome.ok_bind,
    read_ok nv _ (o + 9) (by omega) (by omega) (by omega), Outcome.ok_bind,
    getLastNode_of_ends nv hsize o d (by omega) hch fuel (by omega), Outcome.ok_bind]
  dsimp only
  by_cases hdo : d = o
  · subst hdo
    rw [if_pos rfl, if_neg (by simp), Outcome.ok_bind]
    dsimp only
    by_cases hemp : d + u16At nv.dump (d + 4) ≤ nul + 1
    · rw [if_pos hemp, if_pos (by omega)]
    · rw [if_neg hemp, if_neg (by omega)]
      have hc : ((d : Int) + (u16At nv.dump (d + 4) : Int) - ((nul : Int) + 1)).toNat
          = d + u16At nv.dump (d + 4) - (nul + 1) := by omega
      rw [hc, readRange_ok nv _ _ (nul + 1) (by omega) (by omega) (by omega), Outcome.ok_bind]
      rfl
  · obtain ⟨hroom, -⟩ := hdn hdo
    rw [if_neg hdo, if_pos (by intro hc; exact hdo (by omega)),
      readU16_ok nv _ (d + 4) (by omega) (by omega) (by omega), Outcome.ok_bind]
    by_cases hr : d + 10 < nv.dumpSize ∧ d + u16At nv.dump (d + 4) ≤ nv.dumpSize
    · have hw1 : nv.isPtrValid ((d : Int) + (sizeofNodeHeader : Nat)) 1 = true := by
        rw [isPtrValid_iff]; simp only [sizeofNodeHeader]; constructor <;> omega
      have hw2 : nv.isPtrValid ((d : Int) + (u16At nv.dump (d + 4) : Int) - 1) 1 = true := by
        rw [isPtrValid_iff]; constructor <;> omega
      rw [hw1, hw2, if_neg (not_not.mpr hr)]
      simp only [Bool.not_true, Bool.or_self, Bool.false_eq_true, if_false, Outcome.ok_bind]
      by_cases hemp : u16At nv.dump (d + 4) ≤ 10
      · rw [if_pos hemp, if_pos (by simp only [sizeofNodeHeader]; omega)]
      · rw [if_neg hemp, if_neg (by simp only [sizeofNodeHeader]; omega)]
        have hc : ((d : Int) + (u16At nv.dump (d + 4) : Int)
            - ((d : Int) + (sizeofNodeHeader : Nat))).toNat = u16At nv.dump (d + 4) - 10 := by
          simp only [sizeofNodeHeader]; omega
        rw [hc, readRange_ok nv _ _ (d + 10) (by simp only [sizeofNodeHeader]; omega)
          (by omega) (by omega), Outcome.ok_bind]
        rfl
    · rw [if_pos hr]
      have hw : (!nv.isPtrValid ((d : Int) + (sizeofNodeHeader : Nat)) 1
          || !nv.isPtrValid ((d : Int) + (u16At nv.dump (d + 4) : Int) - 1) 1) = true := by
        rw [Bool.or_eq_true, Bool.not_eq_true', Bool.not_eq_true', ← Bool.not_eq_true,
          ← Bool.not_eq_true, isPtrValid_iff, isPtrValid_iff]
        simp only [sizeofNodeHeader]
        by_contra hcon
        push_neg at hcon
        exact hr ⟨by omega, by omega⟩
      rw [if_pos hw]
      rfl


theorem parseLoop_succ (nv : Nvram) (inner fuel : Nat) (node : Int) (vars : Variables) :
    nv.parseLoop inner (fuel + 1) node vars =
      (nv.scanStep inner node vars >>= fun state =>
        match state with
        | none => Outcome.ok vars
        | some s => nv.parseLoop inner fuel s.1 s.2) := by
  simp only [Nvram.parseLoop, Nvram.scanStep]
  split_ifs with hv
  · rfl
  · cases nv.readU32 node with
    | ok signature =>
      simp only [Outcome.ok_bind]
      split_ifs with hs
      · rfl
      · cases nv.read (node + 9) with
        | ok flags =>
          simp only [Outcome.ok_bind]
          split_ifs with hf
          · cases nv.readVariable inner node with
            | ok kv =>
              obtain ⟨key, value⟩ := kv
              simp only [Outcome.ok_bind, Outcome.pure_eq]
              cases nv.readU16 (node + 4) <;> rfl
            | error e => rfl
            | outOfBounds off => rfl
            | outOfFuel => rfl
          · simp only [Outcome.ok_bind, Outcome.pure_eq]
            cases nv.readU16 (node + 4) <;> rfl
        | error e => rfl
        | outOfBounds off => rfl
        | outOfFuel => rfl
    | error e => rfl
    | outOfBounds off => rfl
    | outOfFuel => rfl

theorem parseLoop_of_scanAfter (nv : Nvram) (inner : Nat) (turns : Nat) :
    ∀ (node : Int) (vars : Variables) (node' : Int) (vars' : Variables),
      nv.scanAfter inner turns node vars = .ok (some (node', vars')) →
      ∀ fuel, nv.parseLoop inner (turns + fuel) node vars = nv.parseLoop inner fuel node' vars' := by
  induction turns with
  | zero =>
    intro node vars node' vars' h fuel
    simp only [scanAfter, Outcome.ok.injEq, Option.some.injEq, Prod.mk.injEq] at h
    rw [h.1, h.2, Nat.zero_add]
  | succ turns ih =>
    intro node vars node' vars' h fuel
    simp only [scanAfter] at h
    obtain ⟨state, hs, h⟩ := Outcome.bind_eq_ok _ _ _ h
    cases state with
    | none => cases h
    | some s =>
      obtain ⟨n1, v1⟩ := s
      have e : turns + 1 + fuel = (turns + fuel) + 1 := by omega
      rw [e, parseLoop_succ, hs, Outcome.ok_bind]
      exact ih n1 v1 node' vars' h fuel

theorem scanStep_of_end (nv : Nvram) (hsize : nv.dump.length = nv.dumpSize) (inner : Nat)
    (o : Nat) (vars : Variables)
    (hend : nv.dumpSize < o + 10 ∨ u32At nv.dump o ≠ nvarSignature) :
    nv.scanStep inner (o : Int) vars = .ok none := by
  unfold scanStep
  by_cases hroom : o + 10 ≤ nv.dumpSize
  · have hv : nv.isPtrValid (o : Int) sizeofNodeHeader = true := by
      rw [isPtrValid_iff]; simp only [sizeofNodeHeader]; constructor <;> omega
    rw [hv]
    simp only [Bool.not_true, Bool.false_eq_true, if_false]
    rw [readU32_ok nv _ o rfl (by omega) (by omega), Outcome.ok_bind]
    rcases hend with he | he
    · omega
    · rw [if_pos he]
  · have hv : nv.isPtrValid (o : Int) sizeofNodeHeader = false := by
      rw [← Bool.not_eq_true, isPtrValid_iff]
      simp only [sizeofNodeHeader]
      intro hc
      omega
    rw [hv]
    rfl

theorem scanStep_of_record (nv : Nvram) (hsize : nv.dump.length = nv.dumpSize) (inner : Nat)
    (o : Nat) (vars : Variables) (hroom : o + 10 ≤ nv.dumpSize)
    (hsig : u32At nv.dump o = nvarSignature) :
    nv.scanStep inner (o : Int) vars =
      if byteAt nv.dump (o + 9) &&& flagValid ≠ 0 ∧ ¬ (byteAt nv.dump (o + 9) &&& flagDataOnly ≠ 0)
      then nv.readVariable inner (o : Int) >>= fun r =>
        .ok (some (((o + u16At nv.dump (o + 4) : Nat) : Int), vars.insert r.1 r.2))
      else .ok (some (((o + u16At nv.dump (o + 4) : Nat) : Int), vars)) := by
  unfold scanStep
  have hv : nv.isPtrValid (o : Int) sizeofNodeHeader = true := by
    rw [isPtrValid_iff]; simp only [sizeofNodeHeader]; constructor <;> omega
  rw [hv]
  simp only [Bool.not_true, Bool.false_eq_true, if_false]
  rw [readU32_ok nv _ o rfl (by omega) (by omega), Outcome.ok_bind, if_neg (by rw [hsig]; simp),
    read_ok nv _ (o + 9) (by omega) (by omega) (by omega), Outcome.ok_bind]
  have hcast : (o : Int) + (u16At nv.dump (o + 4) : Int) = ((o + u16At nv.dump (o + 4) : Nat) : Int) := by
    omega
  split_ifs with hf
  · cases nv.readVariable inner (o : Int) with
    | ok kv =>
      obtain ⟨key, value⟩ := kv
      simp only [Outcome.ok_bind, Outcome.pure_eq]
      rw [readU16_ok nv _ (o + 4) (by omega) (by omega) (by omega), Outcome.ok_bind, hcast]
    | error e => rfl
    | outOfBounds off => rfl
    | outOfFuel => rfl
  · simp only [Outcome.ok_bind, Outcome.pure_eq]
    rw [readU16_ok nv _ (o + 4) (by omega) (by omega) (by omega), Outcome.ok_bind, hcast]

theorem parseLoop_mem (nv : Nvram) (inner : Nat) (fuel : Nat) :
    ∀ (o : Nat) (vars out : Variables), nv.parseLoop inner fuel (o : Int) vars = .ok out →
      ∀ it ∈ out, it ∈ vars ∨ ∃ r : Nat, nv.readVariable inner (r : Int) = .ok it := by
  induction fuel with
  | zero => intro o vars out h; cases h
  | succ fuel ih =>
    intro o vars out h it hit
    simp only [parseLoop] at h
    by_cases hv : (!nv.isPtrValid (o : Int) sizeofNodeHeader) = true
    · rw [if_pos hv] at h
      simp only [Outcome.ok.injEq] at h
      rw [← h] at hit
      exact Or.inl hit
    rw [if_neg hv] at h
    obtain ⟨sig, -, h⟩ := Outcome.bind_eq_ok _ _ _ h
    by_cases hs : sig ≠ nvarSignature
    · rw [if_pos hs] at h
      simp only [Outcome.ok.injEq] at h
      rw [← h] at hit
      exact Or.inl hit
    rw [if_neg hs] at h
    obtain ⟨flags, -, h⟩ := Outcome.bind_eq_ok _ _ _ h
    by_cases hf : flags &&& flagValid ≠ 0 ∧ ¬ (flags &&& flagDataOnly ≠ 0)
    · rw [if_pos hf] at h
      obtain ⟨⟨key, value⟩, hrv, h⟩ := Outcome.bind_eq_ok _ _ _ h
      simp only [Outcome.pure_eq, Outcome.ok_bind] at h
      obtain ⟨size, -, h⟩ := Outcome.bind_eq_ok _ _ _ h
      have hcast : (o : Int) + (size : Int) = ((o + size : Nat) : Int) := by omega
      rw [hcast] at h
      rcases ih (o + size) _ out h it hit with hin | hr
      · rcases Variables.mem_insert vars key value it hin with he | hm
        · exact Or.inr ⟨o, by rw [he]; exact hrv⟩
        · exact Or.inl hm
      · exact Or.inr hr
    · rw [if_neg hf] at h
      simp only [Outcome.pure_eq, Outcome.ok_bind] at h
      obtain ⟨size, -, h⟩ := Outcome.bind_eq_ok _ _ _ h
      have hcast : (o : Int) + (size : Int) = ((o + size : Nat) : Int) := by omega
      rw [hcast] at h
      exact ih (o + size) _ out h it hit

end Nvram

theorem parseNvram_mem (fuel : Nat) (data : List Nat) (size : Nat) (vars : Variables)
    (h : parseNvram fuel data size = .ok vars) :
    ∀ it ∈ vars, ∃ o : Nat,
      Nvram.readVariable { dump := data, dumpSize := size } fuel (o : Int) = .ok it := by
  intro it hit
  unfold parseNvram Nvram.parse at h
  split_ifs at h with hs
  rcases Nvram.parseLoop_mem _ fuel fuel 0 [] vars h it hit with hin | hr
  · cases hin
  · exact hr

theorem parseNvram_of_scanAfter (fuel turns : Nat) (data : List Nat) (size : Nat) (o : Nat)
    (vars : Variables) (hsz : 10 ≤ size) (hturns : turns < fuel)
    (hreach : Nvram.scanAfter { dump := data, dumpSize := size } fuel turns 0 []
      = .ok (some ((o : Int), vars))) :
    parseNvram fuel data size =
      (Nvram.scanStep { dump := data, dumpSize := size } fuel (o : Int) vars >>= fun state =>
        match state with
        | none => Outcome.ok vars
        | some s => Nvram.parseLoop { dump := data, dumpSize := size } fuel (fuel - turns - 1)
            s.1 s.2) := by
  have e := Nvram.parseLoop_of_scanAfter _ fuel turns 0 [] (o : Int) vars hreach
    (fuel - turns - 1 + 1)
  have hf : turns + (fuel - turns - 1 + 1) = fuel := by omega
  rw [hf, Nvram.parseLoop_succ] at e
  unfold parseNvram Nvram.parse
  rw [if_neg (by simp only [Nvram.sizeofNodeHeader]; omega)]
  exact e

theorem getAttributes_byte (f : Nat) (hf : f < 256) :
    Nvram.getAttributes f =
      (0x3 ||| (if f &&& 0x01 ≠ 0 then 0x4 else 0) ||| (if f &&& 0x20 ≠ 0 then 0x8 else 0)
        ||| (if f &&& 0x40 ≠ 0 then 0x10 else 0)) ∧
    Nvram.getAttributes f &&& 0x3 = 0x3 ∧
    Nvram.getAttributes f &&& 0x1f = Nvram.getAttributes f ∧
    Nvram.getAttributes (f &&& 0x61) = Nvram.getAttributes f := by
  revert f; decide

theorem byteAt_lt (bytes : List Nat) (i : Nat) : byteAt bytes i < 256 :=
  Nat.mod_lt _ (by decide)

/-! ## The end of a chain walk, the byte order of a GUID, the merge run twice -/

namespace Nvram

theorem read_ne_outOfFuel (nv : Nvram) (p : Int) : nv.read p ≠ .outOfFuel := by
  unfold read
  split_ifs
  · cases nv.dump.get? p.toNat <;> simp
  · simp

theorem readU32_ne_outOfFuel (nv : Nvram) (p : Int) : nv.readU32 p ≠ .outOfFuel := by
  unfold readU32
  have h0 := read_ne_outOfFuel nv p
  have h1 := read_ne_outOfFuel nv (p + 1)
  have h2 := read_ne_outOfFuel nv (p + 2)
  have h3 := read_ne_outOfFuel nv (p + 3)
  cases e0 : nv.read p with
  | ok b0 =>
    cases e1 : nv.read (p + 1) with
    | ok b1 =>
      cases e2 : nv.read (p + 2) with
      | ok b2 =>
        cases e3 : nv.read (p + 3) with
        | ok b3 => simp
        | error e => simp
        | outOfBounds off => simp
        | outOfFuel => exact absurd e3 h3
      | error e => simp
      | outOfBounds off => simp
      | outOfFuel => exact absurd e2 h2
    | error e => simp
    | outOfBounds off => simp
    | outOfFuel => exact absurd e1 h1
  | error e => simp
  | outOfBounds off => simp
  | outOfFuel => exact absurd e0 h0

theorem nextOf_ne_outOfFuel (nv : Nvram) (p : Int) : nv.nextOf p ≠ .outOfFuel := by
  unfold nextOf
  have h := readU32_ne_outOfFuel nv (p + 6)
  cases e : nv.readU32 (p + 6) with
  | ok w => simp
  | error e => simp
  | outOfBounds off => simp
  | outOfFuel => exact absurd e h

theorem lastNodeLoop_ne_outOfFuel (nv : Nvram) (fuel : Nat) :
    ∀ (node : Int) (next : Nat), ((nv.dumpSize : Int) - node).toNat < fuel →
      nv.lastNodeLoop fuel node next ≠ .outOfFuel := by
  induction fuel with
  | zero => intro node next hf; omega
  | succ fuel ih =>
    intro node next hf
    simp only [lastNodeLoop]
    by_cases hne : next ≠ lastNodeId
    · rw [if_pos hne]
      by_cases h0 : next = 0
      · rw [if_pos h0]; simp
      · rw [if_neg h0]
        cases hv : nv.isPtrValid (node + (next : Int)) sizeofNodeHeader with
        | false => simp
        | true =>
          simp only [Bool.not_true, Bool.false_eq_true, if_false]
          rw [isPtrValid_iff] at hv
          have hroom := hv.2
          simp only [sizeofNodeHeader] at hroom
          have hs := readU32_ne_outOfFuel nv (node + (next : Int))
          cases es : nv.readU32 (node + (next : Int)) with
          | ok sig =>
            simp only [Outcome.ok_bind]
            by_cases hsig : sig ≠ nvarSignature
            · rw [if_pos hsig]; simp
            · rw [if_neg hsig]
              have hn := nextOf_ne_outOfFuel nv (node + (next : Int))
              cases en : nv.nextOf (node + (next : Int)) with
              | ok n =>
                simp only [Outcome.ok_bind]
                exact ih _ n (by omega)
              | error e => simp
              | outOfBounds off => simp
              | outOfFuel => exact absurd en hn
          | error e => simp
          | outOfBounds off => simp
          | outOfFuel => exact absurd es hs
    · rw [if_neg hne]; simp

theorem getLastNode_ne_outOfFuel (nv : Nvram) (fuel : Nat) (node : Int)
    (hf : ((nv.dumpSize : Int) - node).toNat < fuel) : nv.getLastNode fuel node ≠ .outOfFuel := by
  unfold getLastNode
  have hn := nextOf_ne_outOfFuel nv node
  cases en : nv.nextOf node with
  | ok n =>
    simp only [Outcome.ok_bind]
    exact lastNodeLoop_ne_outOfFuel nv fuel node n hf
  | error e => simp
  | outOfBounds off => simp
  | outOfFuel => exact absurd en hn

theorem chain_total (nv : Nvram) (n : Nat) :
    ∀ o : Nat, nv.dumpSize - o ≤ n → (∃ d, ChainEnds nv o d) ∨ ChainBroken nv o := by
  induction n with
  | zero =>
    intro o ho
    by_cases hl : nextAt nv.dump o = lastNodeId
    · exact Or.inl ⟨o, ChainEnds.last o hl⟩
    · exact Or.inr (ChainBroken.noRoom o hl (by omega))
  | succ n ih =>
    intro o ho
    by_cases hl : nextAt nv.dump o = lastNodeId
    · exact Or.inl ⟨o, ChainEnds.last o hl⟩
    by_cases h0 : nextAt nv.dump o = 0
    · exact Or.inr (ChainBroken.zero o h0)
    by_cases hroom : o + nextAt nv.dump o + 10 ≤ nv.dumpSize
    swap
    · exact Or.inr (ChainBroken.noRoom o hl hroom)
    by_cases hsig : u32At nv.dump (o + nextAt nv.dump o) = nvarSignature
    swap
    · exact Or.inr (ChainBroken.badSignature o hl hsig)
    rcases ih (o + nextAt nv.dump o) (by omega) with ⟨d, hd⟩ | hb
    · exact Or.inl ⟨d, ChainEnds.hop o d hl h0 hroom hsig hd⟩
    · exact Or.inr (ChainBroken.hop o hl h0 hroom hsig hb)

theorem nextAt_le (bytes : List Nat) (i : Nat) : nextAt bytes i ≤ 0xffffff := by
  unfold nextAt
  exact Nat.and_le_right

end Nvram

theorem be32_bytes (b0 b1 b2 b3 : Nat) (h0 : b0 < 256) (h1 : b1 < 256) (h2 : b2 < 256)
    (h3 : b3 < 256) : be32 (b0 + b1 * 2 ^ 8 + b2 * 2 ^ 16 + b3 * 2 ^ 24) = [b3, b2, b1, b0] := by
  simp only [be32, List.cons.injEq, and_true]
  norm_num
  refine ⟨?_, ?_, ?_, ?_⟩ <;> omega

theorem be16_bytes (b0 b1 : Nat) (h0 : b0 < 256) (h1 : b1 < 256) :
    be16 (b0 + b1 * 2 ^ 8) = [b1, b0] := by
  simp only [be16, List.cons.injEq, and_true]
  norm_num
  refine ⟨?_, ?_⟩ <;> omega

theorem uuidAt_bytes (bytes : List Nat) (i : Nat) :
    uuidAt bytes i =
      [byteAt bytes (i + 3), byteAt bytes (i + 2), byteAt bytes (i + 1), byteAt bytes i,
       byteAt bytes (i + 5), byteAt bytes (i + 4), byteAt bytes (i + 7), byteAt bytes (i + 6),
       byteAt bytes (i + 8), byteAt bytes (i + 9), byteAt bytes (i + 10), byteAt bytes (i + 11),
       byteAt bytes (i + 12), byteAt bytes (i + 13), byteAt bytes (i + 14),
       byteAt bytes (i + 15)] := by
  simp only [uuidAt, efiGuidAt, Guid, u32At, u16At, bytesAt]
  rw [be32_bytes _ _ _ _ (byteAt_lt _ _) (byteAt_lt _ _) (byteAt_lt _ _) (byteAt_lt _ _),
    be16_bytes _ _ (byteAt_lt _ _) (byteAt_lt _ _),
    be16_bytes _ _ (byteAt_lt _ _) (byteAt_lt _ _)]
  rfl

theorem bytesAt_sixteen (bytes : List Nat) (i : Nat) :
    bytesAt bytes 16 i =
      [byteAt bytes i, byteAt bytes (i + 1), byteAt bytes (i + 2), byteAt bytes (i + 3),
       byteAt bytes (i + 4), byteAt bytes (i + 5), byteAt bytes (i + 6), byteAt bytes (i + 7),
       byteAt bytes (i + 8), byteAt bytes (i + 9), byteAt bytes (i + 10), byteAt bytes (i + 11),
       byteAt bytes (i + 12), byteAt bytes (i + 13), byteAt bytes (i + 14),
       byteAt bytes (i + 15)] := by
  simp only [bytesAt]

theorem byteAt_cons_byteAt (bytes : List Nat) (j : Nat) (rest : List Nat) :
    byteAt (byteAt bytes j :: rest) 0 = byteAt bytes j := by
  simp only [byteAt, List.getD_cons_zero]
  exact Nat.mod_mod _ _

theorem uuidAt_uuidAt (bytes : List Nat) (i : Nat) :
    uuidAt (uuidAt bytes i) 0 = bytesAt bytes 16 i := by
  rw [bytesAt_sixteen, uuidAt_bytes (uuidAt bytes i) 0, uuidAt_bytes bytes i]
  simp only [byteAt, List.getD_cons_succ, List.getD_cons_zero, Nat.zero_add, Nat.mod_mod]

theorem uuidAt_eq_iff (bytes bytes' : List Nat) (i j : Nat) :
    uuidAt bytes i = uuidAt bytes' j ↔ bytesAt bytes 16 i = bytesAt bytes' 16 j := by
  constructor
  · intro h
    rw [← uuidAt_uuidAt, ← uuidAt_uuidAt, h]
  · intro h
    rw [bytesAt_sixteen, bytesAt_sixteen] at h
    rw [uuidAt_bytes, uuidAt_bytes]
    simp only [List.cons.injEq, and_true] at h ⊢
    obtain ⟨h0, h1, h2, h3, h4, h5, h6, h7, h8, h9, h10, h11, h12, h13, h14, h15⟩ := h
    exact ⟨h3, h2, h1, h0, h5, h4, h7, h6, h8, h9, h10, h11, h12, h13, h14, h15⟩

namespace Variables

theorem modify_modify (m : Variables) (key : VariableKey) (f g : VariableValue → VariableValue) :
    modify (modify m key f) key g = modify m key (fun v => g (f v)) := by
  induction m with
  | nil => rfl
  | cons e rest ih =>
    by_cases h : e.1 = key
    · simp only [modify, if_pos h]
    · simp only [modify, if_neg h, ih]

theorem modify_comm (m : Variables) (key key' : VariableKey) (hne : key ≠ key')
    (f g : VariableValue → VariableValue) :
    modify (modify m key f) key' g = modify (modify m key' g) key f := by
  induction m with
  | nil => rfl
  | cons e rest ih =>
    by_cases h : e.1 = key
    · have h' : ¬ e.1 = key' := fun hc => hne (h.symm.trans hc)
      simp only [modify, if_pos h, if_neg h']
    · by_cases h' : e.1 = key'
      · simp only [modify, if_neg h, if_pos h']
      · simp only [modify, if_neg h, if_neg h', ih]

end Variables

namespace Storage

theorem mergeVar_mergeVar (oldVar newVar : VariableValue) :
    mergeVar (mergeVar oldVar newVar) newVar = mergeVar oldVar newVar := by
  have hlen : (mergeVar oldVar newVar).data.length = newVar.data.length := by
    rw [mergeVar_data, List.length_append, List.length_take, List.length_drop]
    omega
  have hattr : (mergeVar oldVar newVar).attributes = newVar.attributes := rfl
  cases hm : mergeVar oldVar newVar with
  | mk attributes data =>
    rw [hm] at hlen hattr
    simp only [] at hlen hattr
    simp only [mergeVar, hlen, gt_iff_lt, lt_self_iff_false, if_false, hattr]

theorem mergeLoop_modify (defVars vars : Variables) (key : VariableKey)
    (f : VariableValue → VariableValue) (hne : ∀ e ∈ defVars, e.1 ≠ key) :
    mergeLoop defVars (vars.modify key f) = (mergeLoop defVars vars).modify key f := by
  induction defVars generalizing vars with
  | nil => rfl
  | cons defVar rest ih =>
    rw [mergeLoop_cons, mergeLoop_cons,
      Variables.modify_comm vars key defVar.1 (hne defVar (List.mem_cons_self _ _)).symm,
      ih _ (fun e he => hne e (List.mem_cons_of_mem _ he))]

theorem mergeLoop_mergeLoop (defVars vars : Variables) (hwf : defVars.WF) :
    mergeLoop defVars (mergeLoop defVars vars) = mergeLoop defVars vars := by
  induction defVars generalizing vars with
  | nil => rfl
  | cons defVar rest ih =>
    have hrest : Variables.WF rest := (List.pairwise_cons.1 hwf).2
    have hne : ∀ e ∈ rest, e.1 ≠ defVar.1 := fun e he =>
      (VariableKey.ne_of_lt _ _ ((List.pairwise_cons.1 hwf).1 e he)).symm
    rw [mergeLoop_cons, mergeLoop_cons, mergeLoop_modify rest _ defVar.1 _ hne,
      mergeLoop_modify rest _ defVar.1 _ hne, mergeLoop_modify rest _ defVar.1 _ hne,
      ih _ hrest, Variables.modify_modify]
    have hf : (fun v => mergeVar (mergeVar v defVar.2) defVar.2)
        = fun v => mergeVar v defVar.2 := by
      funext v
      exact mergeVar_mergeVar v defVar.2
    rw [hf]

theorem updateVars_storage (fuel : Nat) (newNvram : Option (List Nat)) :
    (∀ (self : Storage) (writable : Bool),
      (self.updateVars fuel newNvram writable).storage = self) ∨
    ∃ defVars : Variables, defVars.WF ∧ ∀ (self : Storage) (writable : Bool),
      (self.updateVars fuel newNvram writable).storage = ⟨mergeLoop defVars self.vars⟩ := by
  cases hvol : parseVolume fuel newNvram with
  | ok newVars =>
    cases hit : newVars.findIt stdDefaults with
    | nil =>
      refine Or.inl fun self writable => ?_
      simp only [updateVars, hvol, hit]
      rfl
    | cons itDefaults tail =>
      cases hne : itDefaults.2.data.isEmpty with
      | true =>
        refine Or.inl fun self writable => ?_
        simp only [updateVars, hvol, hit, hne]
        rfl
      | false =>
        cases hdef : parseNvram fuel itDefaults.2.data itDefaults.2.data.length with
        | ok defVars =>
          refine Or.inr ⟨defVars, parseNvram_WF fuel _ _ defVars hdef, fun self writable => ?_⟩
          simp only [updateVars, hvol, hit, hne, hdef]
          exact saveAndLog_storage _ writable .update
        | error e =>
          refine Or.inl fun self writable => ?_
          simp only [updateVars, hvol, hit, hne, hdef]
          rfl
        | outOfBounds off =>
          refine Or.inl fun self writable => ?_
          simp only [updateVars, hvol, hit, hne, hdef]
          rfl
        | outOfFuel =>
          refine Or.inl fun self writable => ?_
          simp only [updateVars, hvol, hit, hne, hdef]
          rfl
  | error e =>
    refine Or.inl fun self writable => ?_
    simp only [updateVars, hvol]
    rfl
  | outOfBounds off =>
    refine Or.inl fun self writable => ?_
    simp only [updateVars, hvol]
    rfl
  | outOfFuel =>
    refine Or.inl fun self writable => ?_
    simp only [updateVars, hvol]
    rfl

end Storage

theorem getAttributes_flagAttributes (f : Nat) (hf : f < 256) :
    Nvram.getAttributes f = flagAttributes f := by
  revert f; decide

theorem getGuid_swapped (nv : Nvram) (index : Nat) (hsize : nv.dump.length = nv.dumpSize)
    (hfit : 16 * (index + 1) ≤ nv.dumpSize) :
    nv.getGuid index = .ok (swappedGuid nv.dump (nv.dumpSize - 16 * (index + 1))) := by
  rw [Nvram.getGuid_of_fits nv index hsize hfit, uuidAt_bytes]
  rfl

/-! ## The example image -/

set_option maxRecDepth 100000

namespace Example

theorem parseVolume_dumpFile : parseVolume 20 (some dumpFile) = .ok dumpVars := by decide

theorem find_dumpVars_stdDefaults :
    dumpVars.find stdDefaults = some { attributes := 3, data := defaultsPayload } := by decide

theorem parseNvram_defaultsPayload :
    parseNvram 20 defaultsPayload defaultsPayload.length = .ok dumpDefaults := by decide

theorem updateVars_dumpFile (self : Storage) (writable : Bool) :
    self.updateVars 20 (some dumpFile) writable =
      Storage.saveAndLog (Storage.mergeLoop dumpDefaults self.vars) writable .update :=
  Storage.updateVars_eq self 20 (some dumpFile) writable dumpVars dumpDefaults
    { attributes := 3, data := defaultsPayload } parseVolume_dumpFile find_dumpVars_stdDefaults
    parseNvram_defaultsPayload

theorem importVars_dumpFile (self : Storage) (writable : Bool) :
    self.importVars 20 (some dumpFile) writable =
      Storage.saveAndLog (Storage.importLoop dumpVars dumpDefaults) writable .importVars :=
  Storage.importVars_eq self 20 (some dumpFile) writable dumpVars dumpDefaults
    { attributes := 3, data := defaultsPayload } parseVolume_dumpFile find_dumpVars_stdDefaults
    parseNvram_defaultsPayload

end Example

/-! ## The claims -/

/-- C1, as the claim states it, fails: in the dump `twicePayload` two records
decode to the key A, the earlier with the value 1 and the later with the
value 2, and the set returned by `parseNvram` maps the key to the value of the
earlier record, not of the later. -/
theorem parseNvram_keeps_earlier_duplicate :
    Example.twicePayload.length = 44 ∧
      Nvram.decoded 5 Example.twicePayload 44 =
        .ok [(Example.keyA, { attributes := 3, data := [1] }),
             (Example.keyA, { attributes := 3, data := [2] })] ∧
      parseNvram 5 Example.twicePayload 44 =
        .ok [(Example.keyA, { attributes := 3, data := [1] })] ∧
      Variables.find [(Example.keyA, { attributes := 3, data := [1] })] Example.keyA ≠
        some { attributes := 3, data := [2] } := by
  decide

/-- C1, amended: duplicate keys are resolved first-write-wins. Whenever
`parseNvram` succeeds, the variable-definition records of the dump decode, in
scan order, to a list `recs`, and the returned set maps every key to the value
of the first pair of `recs` with that key (`List.lookup`), later records with
the same key being ignored; a key that no record decodes to is absent. -/
theorem parseNvram_first_write_wins (fuel : Nat) (data : List Nat) (size : Nat)
    (vars : Variables) (h : parseNvram fuel data size = .ok vars) :
    ∃ recs, Nvram.decoded fuel data size = .ok recs ∧
      ∀ key, vars.find key = recs.lookup key := by
  rw [parseNvram_eq_insertAll] at h
  cases hd : Nvram.decoded fuel data size with
  | ok recs =>
    rw [hd] at h
    simp only [Outcome.ok_bind, Outcome.ok.injEq] at h
    refine ⟨recs, rfl, fun key => ?_⟩
    rw [← h, find_insertAll recs [] List.Pairwise.nil key, Variables.find_nil]
  | error e => rw [hd] at h; cases h
  | outOfBounds off => rw [hd] at h; cases h
  | outOfFuel => rw [hd] at h; cases h

/-- C1, amended, at the dump `twicePayload`: the key A is mapped to the value
of the first of its two records. -/
theorem parseNvram_first_write_wins_twice :
    parseNvram 5 Example.twicePayload 44 =
        .ok [(Example.keyA, { attributes := 3, data := [1] })] ∧
      ∃ recs, Nvram.decoded 5 Example.twicePayload 44 = .ok recs ∧
        ∀ key, Variables.find [(Example.keyA, { attributes := 3, data := [1] })] key =
          recs.lookup key :=
  ⟨by decide, parseNvram_first_write_wins 5 Example.twicePayload 44 _ (by decide)⟩

/-- C2 fails on the dump `edgePayload` of 21 bytes: the second record has the
declared length 11, so its GUID index is the last byte of the dump, and the
name loop of `readVariable` dereferences `payloadStart` at offset 21, one past
the dump, before any comparison with `payloadEnd`. Whatever the step budget,
the decoder ends in this read, not in a format error. -/
theorem parseNvram_reads_past_dump (fuel : Nat) :
    Example.edgePayload.length = 21 ∧
      parseNvram (fuel + 2) Example.edgePayload 21 = .outOfBounds 21 :=
  ⟨rfl, rfl⟩

/-- C3 fails on the dump `stuckPayload`: its only record is skipped (flag byte
0) and declares the length 0, so the scan stays at offset 0 and no step budget
lets `parseNvram` reach a stop condition. -/
theorem parseNvram_never_stops (fuel : Nat) :
    Example.stuckPayload.length = 10 ∧
      parseNvram fuel Example.stuckPayload 10 = .outOfFuel := by
  refine ⟨rfl, ?_⟩
  have h : ∀ inner n : Nat,
      Nvram.parseLoop { dump := Example.stuckPayload, dumpSize := 10 } inner n 0 [] =
        .outOfFuel := by
    intro inner n
    induction n with
    | zero => rfl
    | succ n ih => exact ih
  exact h fuel fuel

/-- C4: the per-key merge of `updateVars`. When the image decodes (volume,
sentinel, nested default set `defVars`), every key present both in the store
(with value `oldVar`) and in `defVars` (with value `newVar`) is stored
afterwards with the attributes of `newVar` and the data made of the first
min(|old|, |new|) bytes of the old data followed by the bytes of the new
default from index |old| on. Hence the length is that of the new default, the
data is unchanged when the lengths agree, and it is the prefix of the old data
when the new default is not longer. -/
theorem updateVars_merges_shared_key (self : Storage) (fuel : Nat)
    (newNvram : Option (List Nat)) (writable : Bool) (newVars defVars : Variables)
    (defaults : VariableValue) (key : VariableKey) (oldVar newVar : VariableValue)
    (hvol : parseVolume fuel newNvram = .ok newVars)
    (hstd : newVars.find stdDefaults = some defaults)
    (hdef : parseNvram fuel defaults.data defaults.data.length = .ok defVars)
    (hold : self.get key = some oldVar) (hnew : defVars.find key = some newVar) :
    (self.updateVars fuel newNvram writable).storage.get key =
        some { attributes := newVar.attributes,
               data := oldVar.data.take (min oldVar.data.length newVar.data.length) ++
                 newVar.data.drop oldVar.data.length } ∧
      (oldVar.data.take (min oldVar.data.length newVar.data.length) ++
        newVar.data.drop oldVar.data.length).length = newVar.data.length ∧
      (oldVar.data.length = newVar.data.length →
        oldVar.data.take (min oldVar.data.length newVar.data.length) ++
          newVar.data.drop oldVar.data.length = oldVar.data) ∧
      (newVar.data.length ≤ oldVar.data.length →
        oldVar.data.take (min oldVar.data.length newVar.data.length) ++
          newVar.data.drop oldVar.data.length = oldVar.data.take newVar.data.length) := by
  refine ⟨?_, ?_, ?_, ?_⟩
  · rw [Storage.get_updateVars_shared self fuel newNvram writable newVars defVars defaults key
      oldVar newVar hvol hstd hdef hold hnew, ← Storage.mergeVar_data]
    rfl
  · simp only [List.length_append, List.length_take, List.length_drop]
    omega
  · intro hlen
    rw [hlen, Nat.min_self, List.drop_length, List.append_nil, ← hlen, List.take_length]
  · intro hle
    rw [Nat.min_eq_right hle, List.drop_eq_nil_of_le hle, List.append_nil]

/-- C4 at the downgrade of the tests: the store holds NetworkStackVar with 11
bytes, the image `dumpFile` has an 8-byte default for it, and the stored value
becomes its own first 8 bytes. -/
theorem updateVars_merges_shared_key_downgrade :
    parseVolume 20 (some Example.dumpFile) = .ok Example.dumpVars ∧
      (Storage.updateVars ⟨[(Example.netVar,
          { attributes := 3, data := [1, 2, 3, 4, 5, 6, 7, 8, 9, 10, 11] })]⟩ 20
        (some Example.dumpFile) true).storage.get Example.netVar =
        some { attributes := 3, data := [1, 2, 3, 4, 5, 6, 7, 8] } := by
  have hvol := Example.parseVolume_dumpFile
  exact ⟨hvol, (updateVars_merges_shared_key _ 20 (some Example.dumpFile) true Example.dumpVars
    Example.dumpDefaults { attributes := 3, data := Example.defaultsPayload } Example.netVar
    { attributes := 3, data := [1, 2, 3, 4, 5, 6, 7, 8, 9, 10, 11] }
    { attributes := 3, data := Example.netDefault } hvol Example.find_dumpVars_stdDefaults
    Example.parseNvram_defaultsPayload (by decide) (by decide)).1⟩

/-- C5, as the claim states it, fails: the image `dumpFile` holds the default
01 01 00 01 00 01 00 00 for NetworkStackVar, the store holds (3, [1,2,3]), and
after `updateVars` the stored data is [1,2,3,1,0,1,0,0], not
[1,2,3,1,0,1,1,1]. -/
theorem updateVars_upgrade_is_not_as_stated :
    parseNvram 20 Example.defaultsPayload Example.defaultsPayload.length =
        .ok [(Example.netVar, { attributes := 3, data := [1, 1, 0, 1, 0, 1, 0, 0] })] ∧
      (Storage.updateVars ⟨[(Example.netVar, { attributes := 3, data := [1, 2, 3] })]⟩ 20
        (some Example.dumpFile) true).storage.get Example.netVar =
        some { attributes := 3, data := [1, 2, 3, 1, 0, 1, 0, 0] } ∧
      (Storage.updateVars ⟨[(Example.netVar, { attributes := 3, data := [1, 2, 3] })]⟩ 20
        (some Example.dumpFile) true).storage.get Example.netVar ≠
        some { attributes := 3, data := [1, 2, 3, 1, 0, 1, 1, 1] } := by
  refine ⟨Example.parseNvram_defaultsPayload, ?_, ?_⟩
  · rw [Example.updateVars_dumpFile]
    decide
  · rw [Example.updateVars_dumpFile]
    decide

/-- C5, amended: when the store holds NetworkStackVar = (attributes 3, data
[1,2,3]) and `updateVars` merges against a default for that key whose data is
the 8 bytes 01 01 00 01 00 01 00 00, the stored data afterwards is
[1,2,3,1,0,1,0,0] (the old three bytes, then the last five bytes of the
default), with the attributes of the default. -/
theorem updateVars_upgrade_example (self : Storage) (fuel : Nat)
    (newNvram : Option (List Nat)) (writable : Bool) (newVars defVars : Variables)
    (defaults : VariableValue) (newAttributes : Nat)
    (hvol : parseVolume fuel newNvram = .ok newVars)
    (hstd : newVars.find stdDefaults = some defaults)
    (hdef : parseNvram fuel defaults.data defaults.data.length = .ok defVars)
    (hold : self.get Example.netVar = some { attributes := 3, data := [1, 2, 3] })
    (hnew : defVars.find Example.netVar =
      some { attributes := newAttributes, data := [1, 1, 0, 1, 0, 1, 0, 0] }) :
    (self.updateVars fuel newNvram writable).storage.get Example.netVar =
      some { attributes := newAttributes, data := [1, 2, 3, 1, 0, 1, 0, 0] } := by
  rw [Storage.get_updateVars_shared self fuel newNvram writable newVars defVars defaults
    Example.netVar _ _ hvol hstd hdef hold hnew]
  rfl

/-- C5, amended, on the image `dumpFile`. -/
theorem updateVars_upgrade_example_dump :
    parseVolume 20 (some Example.dumpFile) = .ok Example.dumpVars ∧
      (Storage.updateVars ⟨[(Example.netVar, { attributes := 3, data := [1, 2, 3] })]⟩ 20
        (some Example.dumpFile) false).storage.get Example.netVar =
        some { attributes := 3, data := [1, 2, 3, 1, 0, 1, 0, 0] } := by
  have hvol := Example.parseVolume_dumpFile
  exact ⟨hvol, updateVars_upgrade_example _ 20 (some Example.dumpFile) false Example.dumpVars
    Example.dumpDefaults { attributes := 3, data := Example.defaultsPayload } 3 hvol
    Example.find_dumpVars_stdDefaults Example.parseNvram_defaultsPayload (by decide)
    (by decide)⟩

/-- C6: the frame of `updateVars`. When the image decodes, the keys of the
store after the call are exactly the keys before it, in the same order, and
every key that the default set does not hold keeps its value. -/
theorem updateVars_frame (self : Storage) (fuel : Nat) (newNvram : Option (List Nat))
    (writable : Bool) (newVars defVars : Variables) (defaults : VariableValue)
    (hvol : parseVolume fuel newNvram = .ok newVars)
    (hstd : newVars.find stdDefaults = some defaults)
    (hdef : parseNvram fuel defaults.data defaults.data.length = .ok defVars) :
    (self.updateVars fuel newNvram writable).storage.vars.keys = self.vars.keys ∧
      ∀ key, defVars.find key = none →
        (self.updateVars fuel newNvram writable).storage.get key = self.get key := by
  rw [Storage.updateVars_eq self fuel newNvram writable newVars defVars defaults hvol hstd hdef,
    Storage.saveAndLog_storage]
  exact ⟨Storage.keys_mergeLoop defVars self.vars,
    fun key hkey => Storage.find_mergeLoop_of_none defVars self.vars key hkey⟩

/-- C6 on the image `dumpFile`, for a store with the keys A and
NetworkStackVar: both keys stay, and A, which has no default, keeps its
value. -/
theorem updateVars_frame_dump :
    parseVolume 20 (some Example.dumpFile) = .ok Example.dumpVars ∧
      (Storage.updateVars ⟨[(Example.keyA, { attributes := 1, data := [9] }),
          (Example.netVar, { attributes := 3, data := [1, 2, 3] })]⟩ 20
        (some Example.dumpFile) true).storage.vars.keys = [Example.keyA, Example.netVar] ∧
      (Storage.updateVars ⟨[(Example.keyA, { attributes := 1, data := [9] }),
          (Example.netVar, { attributes := 3, data := [1, 2, 3] })]⟩ 20
        (some Example.dumpFile) true).storage.get Example.keyA =
        some { attributes := 1, data := [9] } := by
  have hvol := Example.parseVolume_dumpFile
  have h := updateVars_frame ⟨[(Example.keyA, { attributes := 1, data := [9] }),
      (Example.netVar, { attributes := 3, data := [1, 2, 3] })]⟩ 20 (some Example.dumpFile) true
    Example.dumpVars Example.dumpDefaults { attributes := 3, data := Example.defaultsPayload }
    hvol Example.find_dumpVars_stdDefaults Example.parseNvram_defaultsPayload
  exact ⟨hvol, h.1, h.2 Example.keyA (by decide)⟩

/-- C7, as the claim states it, fails: in the image `dumpFile` the top-level
variable named StdDefaults under `guid1` has a key that differs from the
sentinel key (another GUID) and the recorded value (3, [7]); `importVars`
succeeds and the resulting store does not hold that key. -/
theorem importVars_drops_same_name :
    parseVolume 20 (some Example.dumpFile) = .ok Example.dumpVars ∧
      Example.dumpVars.find Example.otherDefaults = some { attributes := 3, data := [7] } ∧
      Example.otherDefaults ≠ stdDefaults ∧
      (Storage.importVars ⟨[]⟩ 20 (some Example.dumpFile) true).result = .ok () ∧
      (Storage.importVars ⟨[]⟩ 20 (some Example.dumpFile) true).storage.get
        Example.otherDefaults = none := by
  refine ⟨Example.parseVolume_dumpFile, by decide, by decide, ?_, ?_⟩
  · rw [Example.importVars_dumpFile]
    decide
  · rw [Example.importVars_dumpFile]
    decide

/-- C7, amended: when the image decodes (top-level set `oldVars`, sentinel,
nested default set `baseline`), the store after `importVars` does not depend
on the store before the call, and it maps every key whose name is not
StdDefaults to its top-level value in the image if there is one and else to
its value in `baseline`, and every key whose name is StdDefaults, whatever its
GUID, to its value in `baseline`. So every top-level variable whose name
differs from StdDefaults is present with its recorded attributes and data, and
no key of the prior store survives unless the image provides it. -/
theorem importVars_result (self : Storage) (fuel : Nat) (oldNvram : Option (List Nat))
    (writable : Bool) (oldVars baseline : Variables) (defaults : VariableValue)
    (hvol : parseVolume fuel oldNvram = .ok oldVars)
    (hstd : oldVars.find stdDefaults = some defaults)
    (hdef : parseNvram fuel defaults.data defaults.data.length = .ok baseline) :
    (∀ other : Storage, (other.importVars fuel oldNvram writable).storage =
        (self.importVars fuel oldNvram writable).storage) ∧
      ∀ key, (self.importVars fuel oldNvram writable).storage.get key =
        if key.name ≠ stdDefaults.name then
          (match oldVars.find key with
            | some recorded => some recorded
            | none => baseline.find key)
        else baseline.find key := by
  have hwf := parseVolume_WF fuel oldNvram oldVars hvol
  refine ⟨fun other => ?_, fun key => ?_⟩
  · rw [Storage.importVars_eq self fuel oldNvram writable oldVars baseline defaults hvol hstd hdef,
      Storage.importVars_eq other fuel oldNvram writable oldVars baseline defaults hvol hstd hdef]
  · rw [Storage.importVars_eq self fuel oldNvram writable oldVars baseline defaults hvol hstd hdef,
      Storage.saveAndLog_storage]
    exact Storage.importLoop_find oldVars baseline key hwf

/-- C7, amended, on the image `dumpFile` and a store that holds the key
`unnamed`: the variable A of the image is stored with its recorded value, and
the key of the prior store is gone. -/
theorem importVars_result_dump :
    parseVolume 20 (some Example.dumpFile) = .ok Example.dumpVars ∧
      (Storage.importVars ⟨[(Example.unnamed, { attributes := 0, data := [0] })]⟩ 20
        (some Example.dumpFile) true).storage.get Example.keyA =
        some { attributes := 7, data := [5] } ∧
      (Storage.importVars ⟨[(Example.unnamed, { attributes := 0, data := [0] })]⟩ 20
        (some Example.dumpFile) true).storage.get Example.unnamed = none := by
  have hvol := Example.parseVolume_dumpFile
  have h := (importVars_result ⟨[(Example.unnamed, { attributes := 0, data := [0] })]⟩ 20
    (some Example.dumpFile) true Example.dumpVars Example.dumpDefaults
    { attributes := 3, data := Example.defaultsPayload } hvol Example.find_dumpVars_stdDefaults
    Example.parseNvram_defaultsPayload).2
  exact ⟨hvol, h Example.keyA, h Example.unnamed⟩

/-- C8: atomicity on decode failure. If decoding the image throws, or the
decoded set lacks the sentinel StdDefaults, or the sentinel has no data, or
the nested decode of its value throws, then `updateVars` and `importVars` each
throw, leave the store as it was before the call, never call `saveVariables`
and log no audit record. -/
theorem decode_failure_is_atomic (self : Storage) (fuel : Nat) (image : Option (List Nat))
    (writable : Bool)
    (hfail : (∃ e, parseVolume fuel image = .error e) ∨
      ∃ vars, parseVolume fuel image = .ok vars ∧
        (vars.find stdDefaults = none ∨
          ∃ defaults, vars.find stdDefaults = some defaults ∧
            (defaults.data = [] ∨
              ∃ e, parseNvram fuel defaults.data defaults.data.length = .error e))) :
    ∃ e, self.updateVars fuel image writable =
          { storage := self, saveCalls := [], audit := [], result := .error e } ∧
        self.importVars fuel image writable =
          { storage := self, saveCalls := [], audit := [], result := .error e } := by
  rcases hfail with ⟨e, hvol⟩ | ⟨vars, hvol, hstd | ⟨defaults, hstd, hempty | ⟨e, hdef⟩⟩⟩
  · refine ⟨e, ?_, ?_⟩
    · simp only [Storage.updateVars, hvol]; rfl
    · simp only [Storage.importVars, hvol]; rfl
  · have hit := (Variables.findIt_eq_nil_iff vars stdDefaults).2 hstd
    refine ⟨.stdDefaultsNotFound, ?_, ?_⟩
    · simp only [Storage.updateVars, hvol, hit]; rfl
    · simp only [Storage.importVars, hvol, hit]; rfl
  · obtain ⟨tail, hit⟩ := Variables.find_eq_some_findIt vars stdDefaults defaults hstd
    refine ⟨.stdDefaultsNotFound, ?_, ?_⟩
    · simp only [Storage.updateVars, hvol, hit, hempty]; rfl
    · simp only [Storage.importVars, hvol, hit, hempty]; rfl
  · obtain ⟨tail, hit⟩ := Variables.find_eq_some_findIt vars stdDefaults defaults hstd
    by_cases hempty : defaults.data = []
    · refine ⟨.stdDefaultsNotFound, ?_, ?_⟩
      · simp only [Storage.updateVars, hvol, hit, hempty]; rfl
      · simp only [Storage.importVars, hvol, hit, hempty]; rfl
    · have hne : defaults.data.isEmpty = false := by
        cases hd : defaults.data with
        | nil => exact absurd hd hempty
        | cons b rest => rfl
      refine ⟨e, ?_, ?_⟩
      · simp only [Storage.updateVars, hvol, hit, hne, hdef]; rfl
      · simp only [Storage.importVars, hvol, hit, hne, hdef]; rfl

/-- C8 on an image that is too short for the volume header, and a store that
holds the key A. -/
theorem decode_failure_is_atomic_short :
    parseVolume 20 (some [1, 2, 3]) = .error .invalidVolumeHeader ∧
      ∃ e, Storage.updateVars ⟨[(Example.keyA, { attributes := 7, data := [5] })]⟩ 20
            (some [1, 2, 3]) true =
          { storage := ⟨[(Example.keyA, { attributes := 7, data := [5] })]⟩, saveCalls := [],
            audit := [], result := .error e } ∧
        Storage.importVars ⟨[(Example.keyA, { attributes := 7, data := [5] })]⟩ 20
            (some [1, 2, 3]) true =
          { storage := ⟨[(Example.keyA, { attributes := 7, data := [5] })]⟩, saveCalls := [],
            audit := [], result := .error e } :=
  ⟨by decide, decode_failure_is_atomic _ 20 (some [1, 2, 3]) true
    (Or.inl ⟨.invalidVolumeHeader, by decide⟩)⟩

/-- C9, as the claim states it, fails for each of the five mutating members:
with a snapshot write that fails, the call throws and the store in memory is
already changed (the key inserted by `set`, erased by `remove`, the store
cleared by `reset`, merged by `updateVars`, replaced by `importVars`). -/
theorem write_failure_is_not_rolled_back :
    ((Storage.set ⟨[]⟩ Example.keyA { attributes := 7, data := [5] } false).result =
        .error .writeFailed ∧
      (Storage.set ⟨[]⟩ Example.keyA { attributes := 7, data := [5] } false).storage ≠ ⟨[]⟩) ∧
    ((Storage.remove ⟨[(Example.keyA, { attributes := 7, data := [5] })]⟩ Example.keyA
        false).result = .error .writeFailed ∧
      (Storage.remove ⟨[(Example.keyA, { attributes := 7, data := [5] })]⟩ Example.keyA
        false).storage ≠ ⟨[(Example.keyA, { attributes := 7, data := [5] })]⟩) ∧
    ((Storage.reset ⟨[(Example.keyA, { attributes := 7, data := [5] })]⟩ false).result =
        .error .writeFailed ∧
      (Storage.reset ⟨[(Example.keyA, { attributes := 7, data := [5] })]⟩ false).storage ≠
        ⟨[(Example.keyA, { attributes := 7, data := [5] })]⟩) ∧
    ((Storage.updateVars ⟨[(Example.netVar, { attributes := 3, data := [1, 2, 3] })]⟩ 20
        (some Example.dumpFile) false).result = .error .writeFailed ∧
      (Storage.updateVars ⟨[(Example.netVar, { attributes := 3, data := [1, 2, 3] })]⟩ 20
        (some Example.dumpFile) false).storage ≠
        ⟨[(Example.netVar, { attributes := 3, data := [1, 2, 3] })]⟩) ∧
    ((Storage.importVars ⟨[]⟩ 20 (some Example.dumpFile) false).result = .error .writeFailed ∧
      (Storage.importVars ⟨[]⟩ 20 (some Example.dumpFile) false).storage ≠ ⟨[]⟩) := by
  refine ⟨by decide, by decide, by decide, ?_, ?_⟩
  · rw [Example.updateVars_dumpFile]
    decide
  · rw [Example.importVars_dumpFile]
    decide

/-- C9, amended: for each mutating member (`set`, `remove`, `reset`,
`updateVars`, `importVars`), if the call reaches `saveVariables` and the write
of the snapshot fails, the call throws the write error, logs no audit record,
and leaves the store in memory as the operation has changed it: equal to the
store that the same call leaves when the write succeeds. Nothing is rolled
back. -/
theorem write_failure_keeps_mutation (self : Storage) (key : VariableKey)
    (value : VariableValue) (fuel : Nat) (image : Option (List Nat)) :
    ((self.set key value false).saveCalls ≠ [] →
      (self.set key value false).result = .error .writeFailed ∧
      (self.set key value false).audit = [] ∧
      (self.set key value false).storage = (self.set key value true).storage) ∧
    ((self.remove key false).saveCalls ≠ [] →
      (self.remove key false).result = .error .writeFailed ∧
      (self.remove key false).audit = [] ∧
      (self.remove key false).storage = (self.remove key true).storage) ∧
    ((self.reset false).saveCalls ≠ [] →
      (self.reset false).result = .error .writeFailed ∧
      (self.reset false).audit = [] ∧
      (self.reset false).storage = (self.reset true).storage) ∧
    ((self.updateVars fuel image false).saveCalls ≠ [] →
      (self.updateVars fuel image false).result = .error .writeFailed ∧
      (self.updateVars fuel image false).audit = [] ∧
      (self.updateVars fuel image false).storage = (self.updateVars fuel image true).storage) ∧
    ((self.importVars fuel image false).saveCalls ≠ [] →
      (self.importVars fuel image false).result = .error .writeFailed ∧
      (self.importVars fuel image false).audit = [] ∧
      (self.importVars fuel image false).storage =
        (self.importVars fuel image true).storage) := by
  refine ⟨?_, ?_, ?_, ?_, ?_⟩
  · unfold Storage.set
    split
    · intro _; exact ⟨rfl, rfl, rfl⟩
    · split_ifs
      · intro _; exact ⟨rfl, rfl, rfl⟩
      · intro h; exact absurd rfl h
  · unfold Storage.remove
    split
    · intro h; exact absurd rfl h
    · intro _; exact ⟨rfl, rfl, rfl⟩
  · intro _; exact ⟨rfl, rfl, rfl⟩
  · unfold Storage.updateVars
    split
    · split
      · intro h; exact absurd rfl h
      · split_ifs
        · intro h; exact absurd rfl h
        · split
          · intro _; exact ⟨rfl, rfl, rfl⟩
          · intro h; exact absurd rfl h
    · intro h; exact absurd rfl h
  · unfold Storage.importVars
    split
    · split
      · intro h; exact absurd rfl h
      · split_ifs
        · intro h; exact absurd rfl h
        · split
          · intro _; exact ⟨rfl, rfl, rfl⟩
          · intro h; exact absurd rfl h
    · intro h; exact absurd rfl h

/-- C9, amended, at `set` of the key A on an empty store with a failing
write: the call reaches `saveVariables`, throws, and the key is stored. -/
theorem write_failure_keeps_mutation_set :
    (Storage.set ⟨[]⟩ Example.keyA { attributes := 7, data := [5] } false).saveCalls ≠ [] ∧
      (Storage.set ⟨[]⟩ Example.keyA { attributes := 7, data := [5] } false).result =
        .error .writeFailed ∧
      (Storage.set ⟨[]⟩ Example.keyA { attributes := 7, data := [5] } false).storage =
        ⟨[(Example.keyA, { attributes := 7, data := [5] })]⟩ := by
  have hcall : (Storage.set ⟨[]⟩ Example.keyA { attributes := 7, data := [5] } false).saveCalls
      ≠ [] := by decide
  have h := (write_failure_keeps_mutation ⟨[]⟩ Example.keyA { attributes := 7, data := [5] } 0
    none).1 hcall
  exact ⟨hcall, h.1, h.2.2⟩

/-- C10, as the claim states it, fails: `set` accepts a key with an empty
name, and in the store `unnamedStore` (keys A and the unnamed key, in this
order) `next` of the unnamed key, the last of the store, is read as the
request for the first variable and returns A again, so the enumeration never
ends. -/
theorem next_restarts_at_unnamed_key :
    ((Storage.set ⟨[]⟩ Example.keyA { attributes := 0, data := [0] } true).storage.set
        Example.unnamed { attributes := 0, data := [0] } true).result = .ok () ∧
      Example.unnamedStore.vars.keys = [Example.keyA, Example.unnamed] ∧
      Example.unnamedStore.next { name := [], guid := [] } = some Example.keyA ∧
      Example.unnamedStore.next Example.keyA = some Example.unnamed ∧
      Example.unnamedStore.next Example.unnamed = some Example.keyA ∧
      Example.unnamedStore.walk 5 (Example.unnamedStore.next { name := [], guid := [] }) =
        ([Example.keyA, Example.unnamed, Example.keyA, Example.unnamed, Example.keyA],
          false) := by
  decide

/-- C10, amended: for every store in which no key has an empty name, `next`
of a key with an empty name returns the first key of the store, which is its
minimum in the GUID-major order (nothing if the store is empty), and calling
`next` on each returned key in turn visits the keys of the store exactly once,
in strictly ascending order, and then returns nothing. -/
theorem next_enumerates (self : Storage) (start : VariableKey) (hwf : self.vars.WF)
    (hnamed : ∀ e ∈ self.vars, e.1.name ≠ []) (hstart : start.name = []) :
    self.next start = self.vars.keys.head? ∧
      (∀ first, self.next start = some first →
        ∀ key ∈ self.vars.keys, key = first ∨ first.lt key = true) ∧
      self.walk self.vars.length (self.next start) = (self.vars.keys, true) ∧
      self.vars.keys.Pairwise (fun a b => a.lt b = true) := by
  have hnext := Storage.next_of_empty_name self start hstart
  have hsorted : self.vars.keys.Pairwise (fun a b => a.lt b = true) :=
    List.pairwise_map.2 hwf
  refine ⟨?_, ?_, ?_, hsorted⟩
  · rw [hnext]
    cases self.vars <;> rfl
  · intro first hfirst key hkey
    rw [hnext] at hfirst
    unfold Variables.keys at hkey hsorted
    cases hv : self.vars with
    | nil => rw [hv] at hfirst; cases hfirst
    | cons e rest =>
      rw [hv] at hfirst hkey hsorted
      simp only [List.head?_cons, Option.map_some', Option.some.injEq] at hfirst
      rw [← hfirst]
      rcases List.mem_cons.1 hkey with h | h
      · exact Or.inl h
      · exact Or.inr ((List.pairwise_cons.1 hsorted).1 key h)
  · rw [hnext]
    exact Storage.walk_suffix self hwf hnamed self.vars [] rfl

/-- C10, amended, on a store with the keys A and NetworkStackVar: `next` of
the empty key returns A, then NetworkStackVar, then nothing. -/
theorem next_enumerates_two :
    Storage.next ⟨[(Example.keyA, { attributes := 0, data := [0] }),
        (Example.netVar, { attributes := 0, data := [0] })]⟩ { name := [], guid := [] } =
        some Example.keyA ∧
      Storage.walk ⟨[(Example.keyA, { attributes := 0, data := [0] }),
        (Example.netVar, { attributes := 0, data := [0] })]⟩ 2 (some Example.keyA) =
        ([Example.keyA, Example.netVar], true) := by
  have h := next_enumerates ⟨[(Example.keyA, { attributes := 0, data := [0] }),
      (Example.netVar, { attributes := 0, data := [0] })]⟩ { name := [], guid := [] }
    (by unfold Variables.WF; decide) (by decide) rfl
  exact ⟨h.1, h.2.2.1⟩

/-- C11: `next` on a key with a non-empty name. If the store does not hold the
key, `next` returns nothing, whatever greater keys are stored. If the store
holds the key, `next` returns the key of the entry that immediately follows
it: that key is stored, greater than the given key, and no stored key lies
between them; it returns nothing exactly when no stored key is greater. The
store is an argument of `next` and not a result: the call leaves it as it
is. -/
theorem next_unknown_or_following (self : Storage) (key : VariableKey) (hwf : self.vars.WF)
    (hname : key.name ≠ []) :
    (self.get key = none → self.next key = none) ∧
      (∀ pre post value, self.vars = pre ++ (key, value) :: post →
        self.next key = (post.head?).map Prod.fst) ∧
      (∀ value, self.get key = some value →
        (∀ following, self.next key = some following →
          following ∈ self.vars.keys ∧ key.lt following = true ∧
            ∀ k ∈ self.vars.keys, key.lt k = true → k = following ∨ following.lt k = true) ∧
        (self.next key = none → ∀ k ∈ self.vars.keys, key.lt k = false)) := by
  refine ⟨Storage.next_of_absent self key hname, ?_, ?_⟩
  · intro pre post value hvars
    exact Storage.next_of_mem self pre post (key, value) hwf hvars hname
  · intro value hget
    obtain ⟨pre, post, hvars⟩ := Storage.split_of_get self key value hget
    have hnext := Storage.next_of_mem self pre post (key, value) hwf hvars hname
    have hwf' : Variables.WF (pre ++ (key, value) :: post) := hvars ▸ hwf
    have hparts := List.pairwise_append.1 hwf'
    have hpost := List.pairwise_cons.1 hparts.2.1
    have hbefore : ∀ k ∈ pre, k.1.lt key = true := fun k hk =>
      hparts.2.2 k hk (key, value) (List.mem_cons_self _ _)
    have hkeys : ∀ k ∈ self.vars.keys,
        (∃ e ∈ pre, e.1 = k) ∨ k = key ∨ ∃ e ∈ post, e.1 = k := by
      intro k hk
      unfold Variables.keys at hk
      rw [hvars] at hk
      obtain ⟨e, he, hek⟩ := List.mem_map.1 hk
      rcases List.mem_append.1 he with h | h
      · exact Or.inl ⟨e, h, hek⟩
      · rcases List.mem_cons.1 h with h | h
        · exact Or.inr (Or.inl (by rw [← hek, h]))
        · exact Or.inr (Or.inr ⟨e, h, hek⟩)
    constructor
    · intro following hfol
      rw [hnext] at hfol
      cases post with
      | nil => cases hfol
      | cons e rest =>
        simp only [List.head?_cons, Option.map_some', Option.some.injEq] at hfol
        have hkf : key.lt e.1 = true := hpost.1 e (List.mem_cons_self _ _)
        refine ⟨?_, ?_, ?_⟩
        · unfold Variables.keys
          rw [hvars, ← hfol]
          exact List.mem_map.2 ⟨e, List.mem_append_right _
            (List.mem_cons_of_mem _ (List.mem_cons_self _ _)), rfl⟩
        · rw [← hfol]; exact hkf
        · intro k hk hlt
          rcases hkeys k hk with ⟨x, hx, hxk⟩ | h | ⟨x, hx, hxk⟩
          · have h1 := hbefore x hx
            rw [hxk] at h1
            rw [VariableKey.lt_asymm k key h1] at hlt
            exact absurd hlt (by decide)
          · rw [h, VariableKey.lt_irrefl] at hlt
            exact absurd hlt (by decide)
          · rcases List.mem_cons.1 hx with h | h
            · exact Or.inl (by rw [← hxk, h, hfol])
            · have h2 := (List.pairwise_cons.1 hpost.2).1 x h
              exact Or.inr (by rw [← hfol, ← hxk]; exact h2)
    · intro hnone k hk
      rw [hnext] at hnone
      cases post with
      | cons e rest => simp at hnone
      | nil =>
        rcases hkeys k hk with ⟨x, hx, hxk⟩ | h | ⟨x, hx, hxk⟩
        · have h1 := hbefore x hx
          rw [hxk] at h1
          exact VariableKey.lt_asymm k key h1
        · rw [h]; exact VariableKey.lt_irrefl key
        · cases hx

/-- C11 on the store of the test `GetNext` (keys A and NetworkStackVar): an
unknown key between the two has no next key, and A is followed by
NetworkStackVar. -/
theorem next_unknown_or_following_two :
    Storage.next ⟨[(Example.keyA, { attributes := 0, data := [0] }),
        (Example.netVar, { attributes := 0, data := [0] })]⟩
        { name := [66], guid := Example.guid1 } = none ∧
      Storage.next ⟨[(Example.keyA, { attributes := 0, data := [0] }),
        (Example.netVar, { attributes := 0, data := [0] })]⟩ Example.keyA =
        some Example.netVar := by
  have h := next_unknown_or_following ⟨[(Example.keyA, { attributes := 0, data := [0] }),
      (Example.netVar, { attributes := 0, data := [0] })]⟩
  exact ⟨(h { name := [66], guid := Example.guid1 } (by unfold Variables.WF; decide)
      (by decide)).1 (by decide),
    (h Example.keyA (by unfold Variables.WF; decide) (by decide)).2.1 [] _ _ rfl⟩

/-- C12: `set` then `get`. After `set(k, v)`, whether the snapshot is written
or not, `get(k)` returns exactly `v`, and `get` of every other key returns
what it returned before the call. -/
theorem set_then_get (self : Storage) (key : VariableKey) (value : VariableValue)
    (writable : Bool) :
    (self.set key value writable).storage.get key = some value ∧
      ∀ other, other ≠ key → (self.set key value writable).storage.get other = self.get other := by
  refine ⟨?_, fun other hne => ?_⟩
  · rw [Storage.set_storage_get, if_pos rfl]
  · rw [Storage.set_storage_get, if_neg hne]

/-- C13: the no-op write. If the store already maps the key to a value with
the same attributes and data, `set` returns with the store unchanged, without
a call of `saveVariables` and without an audit record. In every other case
(key absent, or attributes or data differ) `saveVariables` is called exactly
once, and when the call returns normally exactly one audit record (Create or
Change, of that key) has been logged. -/
theorem set_noop_or_single_write (self : Storage) (key : VariableKey) (value : VariableValue)
    (writable : Bool) :
    (self.get key = some value →
      self.set key value writable =
        { storage := self, saveCalls := [], audit := [], result := .ok () }) ∧
      (self.get key ≠ some value →
        (self.set key value writable).saveCalls.length = 1 ∧
          ((self.set key value writable).result = .ok () →
            (self.set key value writable).audit = [.create key] ∨
              (self.set key value writable).audit = [.change key])) := by
  refine ⟨Storage.set_of_get_eq self key value writable, fun hne => ?_⟩
  obtain ⟨vars, record, hrun, hrec⟩ := Storage.set_of_get_ne self key value writable hne
  rw [hrun]
  cases writable with
  | true =>
    refine ⟨rfl, fun _ => ?_⟩
    rcases hrec with h | h
    · exact Or.inl (by rw [h]; rfl)
    · exact Or.inr (by rw [h]; rfl)
  | false =>
    refine ⟨rfl, fun h => ?_⟩
    cases h

/-- C13 on the steps of the test `SetAndGet`: the first `set` of the key A
writes once and logs Create, the same `set` again does nothing, and a `set`
with other data writes once and logs Change. -/
theorem set_noop_or_single_write_steps :
    Storage.set ⟨[]⟩ Example.keyA { attributes := 42, data := [1, 2, 3] } true =
        { storage := ⟨[(Example.keyA, { attributes := 42, data := [1, 2, 3] })]⟩,
          saveCalls := [[(Example.keyA, { attributes := 42, data := [1, 2, 3] })]],
          audit := [.create Example.keyA], result := .ok () } ∧
      Storage.set ⟨[(Example.keyA, { attributes := 42, data := [1, 2, 3] })]⟩ Example.keyA
          { attributes := 42, data := [1, 2, 3] } true =
        { storage := ⟨[(Example.keyA, { attributes := 42, data := [1, 2, 3] })]⟩,
          saveCalls := [], audit := [], result := .ok () } ∧
      (Storage.set ⟨[(Example.keyA, { attributes := 42, data := [1, 2, 3] })]⟩ Example.keyA
          { attributes := 42, data := [1, 2] } true).saveCalls.length = 1 := by
  refine ⟨by decide, ?_, ?_⟩
  · exact (set_noop_or_single_write ⟨[(Example.keyA, { attributes := 42, data := [1, 2, 3] })]⟩
      Example.keyA { attributes := 42, data := [1, 2, 3] } true).1 (by decide)
  · exact ((set_noop_or_single_write ⟨[(Example.keyA, { attributes := 42, data := [1, 2, 3] })]⟩
      Example.keyA { attributes := 42, data := [1, 2] } true).2 (by decide)).1

/-- C14: `remove`. After `remove(k)`, `get(k)` returns nothing and every other
key keeps its value; if the key was absent, the call returns normally with the
store unchanged, without a call of `saveVariables` and without an audit
record. -/
theorem remove_then_get (self : Storage) (key : VariableKey) (writable : Bool)
    (hwf : self.vars.WF) :
    (self.remove key writable).storage.get key = none ∧
      (∀ other, other ≠ key →
        (self.remove key writable).storage.get other = self.get other) ∧
      (self.get key = none →
        self.remove key writable =
          { storage := self, saveCalls := [], audit := [], result := .ok () }) := by
  refine ⟨?_, fun other hne => ?_, Storage.remove_of_get_none self key writable⟩
  · rw [Storage.remove_storage_get self key writable key hwf, if_pos rfl]
  · rw [Storage.remove_storage_get self key writable other hwf, if_neg hne]

/-- C14 on a store with the keys A and NetworkStackVar: after `remove` of A,
A is not found and NetworkStackVar keeps its value. -/
theorem remove_then_get_two :
    (Storage.remove ⟨[(Example.keyA, { attributes := 42, data := [1, 2, 3] }),
        (Example.netVar, { attributes := 3, data := [7] })]⟩ Example.keyA true).storage.get
        Example.keyA = none ∧
      (Storage.remove ⟨[(Example.keyA, { attributes := 42, data := [1, 2, 3] }),
        (Example.netVar, { attributes := 3, data := [7] })]⟩ Example.keyA true).storage.get
        Example.netVar = some { attributes := 3, data := [7] } := by
  have h := remove_then_get ⟨[(Example.keyA, { attributes := 42, data := [1, 2, 3] }),
      (Example.netVar, { attributes := 3, data := [7] })]⟩ Example.keyA true
    (by unfold Variables.WF; decide)
  exact ⟨h.1, h.2.1 Example.netVar (by decide)⟩

/-- C15: the key order is GUID-major lexicographic. `a < b` holds exactly when
the GUID bytes of `a` are lexicographically smaller than those of `b`, or the
GUIDs are equal and the name of `a` is lexicographically smaller; and `<` is a
strict total order: irreflexive, transitive, and for different keys exactly
one of `a < b`, `b < a` holds. -/
theorem key_order_is_guid_major (a b c : VariableKey) :
    (a.lt b = true ↔ guidMajorLt a b) ∧
      a.lt a = false ∧
      (a.lt b = true → b.lt c = true → a.lt c = true) ∧
      (a ≠ b → (a.lt b = true ∧ b.lt a = false) ∨ (b.lt a = true ∧ a.lt b = false)) := by
  refine ⟨?_, VariableKey.lt_irrefl a, VariableKey.lt_trans a b c, fun hne => ?_⟩
  · unfold guidMajorLt
    rw [VariableKey.lt_iff, stringLt_iff_lexSmaller, stringLt_iff_lexSmaller]
  · rcases VariableKey.lt_total a b hne with h | h
    · exact Or.inl ⟨h, VariableKey.lt_asymm a b h⟩
    · exact Or.inr ⟨h, VariableKey.lt_asymm b a h⟩

/-- C15 on the keys of the test `VariableKeyTest.Less`: Abc under `GUID1` is
smaller than Def under `GUID2`, the GUID deciding, and than Def under `GUID1`,
the name deciding. -/
theorem key_order_is_guid_major_test :
    guidMajorLt { name := Example.nameAbc, guid := Example.guid1 }
        { name := Example.nameDef, guid := Example.guid2 } ∧
      VariableKey.lt { name := Example.nameDef, guid := Example.guid2 }
        { name := Example.nameAbc, guid := Example.guid1 } = false ∧
      guidMajorLt { name := Example.nameAbc, guid := Example.guid1 }
        { name := Example.nameDef, guid := Example.guid1 } :=
  ⟨(key_order_is_guid_major _ _ { name := [], guid := [] }).1.1 (by decide), by decide,
    (key_order_is_guid_major _ _ { name := [], guid := [] }).1.1 (by decide)⟩

/-- C16 fails on the image `alignedFile`: its extended header, at offset 64
with `ExtHeaderSize` 22, ends at offset 86, and its file header stands at 88,
the least multiple of 8 from 86 on. `parseVolume` adds 86 % 8 = 6 and reads
the file header at offset 92, which is no multiple of 8, so the image is
rejected; the image `shiftedFile`, with the file header at 92, decodes. -/
theorem parseVolume_reads_file_header_off_boundary :
    (extHeaderOffsetOf Example.alignedFile = 64 ∧ extHeaderSizeOf Example.alignedFile = 22) ∧
      uuidAt Example.alignedFile 88 = Guid Nvram.ffsGuid ∧
      ffsStartOf Example.alignedFile = 92 ∧
      parseVolume 20 (some Example.alignedFile) = .error .unsupportedNvram ∧
      ffsStartOf Example.shiftedFile = 92 ∧
      parseVolume 20 (some Example.shiftedFile) = .ok Example.dumpVars := by
  refine ⟨by decide, by decide, by decide, by decide, by decide, by decide⟩

/-- C17 fails on the image `shortSizeFile` of 122 bytes: the size field of its
file is 0, less than the 24 bytes of the file header. The subtraction wraps
to 2^64 - 24, the sum that is compared with the image size wraps back to 88,
and `parseVolume` hands this payload length to `parseNvram` and returns its
result (no variables) where the claim has a format error. -/
theorem parseVolume_accepts_short_size_field :
    Example.shortSizeFile.length = 122 ∧
      ffsSizeOf Example.shortSizeFile = 0 ∧
      unwrapVolume Example.shortSizeFile = .ok (112, 2 ^ 64 - 24) ∧
      parseVolume 20 (some Example.shortSizeFile) = .ok [] := by
  refine ⟨by decide, by decide, by decide, by decide⟩

/-- C18: the container checks are hard failures. If the image is shorter than
the 64 bytes of the volume header, or the filesystem GUID of the volume
differs from the FFS2 constant, or `ExtHeaderOffset` is zero, or the extended
header does not fit in the image, or its `FvName` differs from the
NVRAM-volume GUID, or the file header does not fit, or the name GUID of the
file differs from the NVRAM filesystem GUID, then the checks of `parseVolume`
end in one of its format errors before the call of `parseNvram`, and
`parseVolume` throws that error whatever the step budget of the decoder. -/
theorem parseVolume_fingerprint_failure (bytes : List Nat)
    (h : bytes.length < 64 ∨
      uuidAt bytes 16 ≠ Guid EFI_FIRMWARE_FILE_SYSTEM2_GUID ∨
      extHeaderOffsetOf bytes = 0 ∨
      bytes.length < extHeaderOffsetOf bytes + 20 ∨
      uuidAt bytes (extHeaderOffsetOf bytes) ≠ Guid Nvram.volumeGuid ∨
      bytes.length < ffsStartOf bytes + 24 ∨
      uuidAt bytes (ffsStartOf bytes) ≠ Guid Nvram.ffsGuid) :
    ∃ e, e ∈ [Error.invalidVolumeHeader, .unsupportedFileSystem, .extHeaderNotFound,
        .invalidExtHeader, .unsupportedVolume, .ffsHeaderNotFound, .unsupportedNvram] ∧
      unwrapVolume bytes = .error e ∧
      ∀ fuel, parseVolume fuel (some bytes) = .error e := by
  obtain ⟨e, he, hmem⟩ := unwrapVolume_failure bytes h
  refine ⟨e, hmem, he, fun fuel => ?_⟩
  rw [parseVolume_eq_unwrap, he]
  rfl

/-- C18 on the volume `dumpFile` with one byte of the filesystem GUID
changed. -/
theorem parseVolume_fingerprint_failure_guid :
    uuidAt (Example.dumpFile.set 16 0) 16 ≠ Guid EFI_FIRMWARE_FILE_SYSTEM2_GUID ∧
      ∃ e, e ∈ [Error.invalidVolumeHeader, .unsupportedFileSystem, .extHeaderNotFound,
          .invalidExtHeader, .unsupportedVolume, .ffsHeaderNotFound, .unsupportedNvram] ∧
        unwrapVolume (Example.dumpFile.set 16 0) = .error e ∧
        ∀ fuel, parseVolume fuel (some (Example.dumpFile.set 16 0)) = .error e :=
  ⟨by decide, parseVolume_fingerprint_failure _ (Or.inr (Or.inl (by decide)))⟩

/-- C19: the GUID-table lookup. In a dump of `S` bytes, resolving the index
`n` fails with the error "GUID not found" exactly when 16 * (n + 1) > S, and
otherwise gives the `uuid_t` made of the 16 bytes at the offsets from
S - 16 * (n + 1) up to S - 16 * n: index 0 is the last 16 bytes of the dump,
each further index 16 bytes earlier. -/
theorem getGuid_lookup (nv : Nvram) (n : Nat) (hsize : nv.dump.length = nv.dumpSize) :
    (nv.getGuid n = .error .guidNotFound ↔ 16 * (n + 1) > nv.dumpSize) ∧
      (16 * (n + 1) ≤ nv.dumpSize →
        nv.getGuid n =
          .ok (uuidAt ((nv.dump.drop (nv.dumpSize - 16 * (n + 1))).take 16) 0)) := by
  constructor
  · constructor
    · intro herr
      by_contra hfit
      rw [Nvram.getGuid_of_fits nv n hsize (by omega)] at herr
      cases herr
    · intro hfit
      exact Nvram.getGuid_of_not_fits nv n hfit
  · intro hfit
    rw [Nvram.getGuid_of_fits nv n hsize hfit, uuidAt_slice]

/-- C19 on the dump `twicePayload` of 44 bytes: index 0 is `guid1`, stored in
the last 16 bytes, and index 2 is not found. -/
theorem getGuid_lookup_twice :
    Nvram.getGuid { dump := Example.twicePayload, dumpSize := 44 } 0 = .ok Example.guid1 ∧
      Nvram.getGuid { dump := Example.twicePayload, dumpSize := 44 } 2 =
        .error .guidNotFound :=
  ⟨(getGuid_lookup { dump := Example.twicePayload, dumpSize := 44 } 0 (by decide)).2
      (by decide),
    (getGuid_lookup { dump := Example.twicePayload, dumpSize := 44 } 2 (by decide)).1.2
      (by decide)⟩

/-- C20 fails on the dump `namelessPayload` of 39 bytes: the record at offset
0 declares the length 11, so there is no NUL in the offsets from 11 up to
11 (none at all), yet the decode does not fail with "Variable name too long":
the name loop reads the byte at offset 11 = 0 + 11, outside the record, finds
it 0 and takes it as the terminator, and the variable is decoded with an empty
name and the value of its data node. -/
theorem readVariable_takes_terminator_outside_record :
    Example.namelessPayload.length = 39 ∧
      u16At Example.namelessPayload 4 = 11 ∧
      byteAt Example.namelessPayload 11 = 0 ∧
      (∀ fuel, Nvram.nameLoop { dump := Example.namelessPayload, dumpSize := 39 } 11
        (fuel + 1) 11 = .ok 11) ∧
      parseNvram 5 Example.namelessPayload 39 =
        .ok [({ name := [], guid := Example.guid1 }, { attributes := 3, data := [42] })] := by
  refine ⟨by decide, by decide, by decide, fun fuel => rfl, by decide⟩

/-- Claim C21, the value location: when `readVariable` decodes the record at
offset `o`, then with the `next` field 0xFFFFFF the value is the bytes of the
record from the byte after the first NUL of the name to the declared length,
and with another `next` field the chain ends at another node `d` and the
value is the bytes of `d` from the end of its header to its declared length;
in both cases the bytes lie inside the dump. -/
theorem readVariable_value_location (nv : Nvram) (fuel : Nat) (o : Nat) (key : VariableKey)
    (value : VariableValue) (h : nv.readVariable fuel (o : Int) = .ok (key, value)) :
    (nextAt nv.dump o = Nvram.lastNodeId →
      ∃ nul : Nat, o + 11 ≤ nul ∧ byteAt nv.dump nul = 0 ∧
        (∀ t, o + 11 ≤ t → t < nul → byteAt nv.dump t ≠ 0) ∧
        nul + 1 < o + u16At nv.dump (o + 4) ∧ o + u16At nv.dump (o + 4) ≤ nv.dumpSize ∧
        value.data = bytesAt nv.dump (o + u16At nv.dump (o + 4) - (nul + 1)) (nul + 1)) ∧
    (nextAt nv.dump o ≠ Nvram.lastNodeId →
      ∃ d : Nat, ChainEnds nv o d ∧ d ≠ o ∧
        d + 10 < d + u16At nv.dump (d + 4) ∧ d + u16At nv.dump (d + 4) ≤ nv.dumpSize ∧
        value.data = bytesAt nv.dump (u16At nv.dump (d + 4) - 10) (d + 10)) := by
  obtain ⟨nul, d, -, -, hL, -, hle, -, hz, hall, -, -, hch, hsame, hother⟩ :=
    Nvram.readVariable_eq_ok nv fuel o key value h
  obtain ⟨-, hiff, -, -⟩ := Nvram.ChainEnds.le nv o d hch
  constructor
  · intro hnext
    obtain ⟨h1, h2⟩ := hsame (hiff.mpr hnext)
    exact ⟨nul, hle, hz, hall, h1, hL, h2⟩
  · intro hnext
    have hdo : d ≠ o := fun hc => hnext (hiff.mp hc)
    obtain ⟨h1, -, h2, h3⟩ := hother hdo
    exact ⟨d, hch, hdo, h1, h2, h3⟩

/-- Claim C21 on `Example.namelessPayload`, whose record at offset 0 has the
`next` field 12 and takes the value byte 42 from the node at offset 12. -/
theorem readVariable_value_location_chain :
    nextAt Example.namelessPayload 0 ≠ Nvram.lastNodeId ∧
    ∃ d : Nat, ChainEnds { dump := Example.namelessPayload, dumpSize := 39 } 0 d ∧ d ≠ 0 ∧
      d + 10 < d + u16At Example.namelessPayload (d + 4) ∧
      d + u16At Example.namelessPayload (d + 4) ≤ 39 ∧
      [42] = bytesAt Example.namelessPayload (u16At Example.namelessPayload (d + 4) - 10) (d + 10) :=
  ⟨by decide,
    (readVariable_value_location { dump := Example.namelessPayload, dumpSize := 39 } 40 0
      { name := [], guid := Example.guid1 } { attributes := 3, data := [42] } (by decide)).2
      (by decide)⟩

/-- Claim C22, amended: every value that `parseNvram` returns has at least one
data byte; and when the scan has reached a variable-definition record whose
header, GUID index and name are in order and whose chain ends at a node
without value bytes, the whole decode fails, with "Value data is empty", or,
when that node is another node whose header ends with the dump, with "Data
out of range". -/
theorem decoded_values_not_empty :
    (∀ (fuel : Nat) (data : List Nat) (size : Nat) (vars : Variables),
      parseNvram fuel data size = .ok vars → ∀ it ∈ vars, it.2.data ≠ []) ∧
    (∀ (data : List Nat) (fuel turns o nul d : Nat) (vars : Variables),
      data.length < fuel → turns < fuel →
      Nvram.scanAfter { dump := data, dumpSize := data.length } fuel turns 0 []
        = .ok (some ((o : Int), vars)) →
      u32At data o = Nvram.nvarSignature →
      (byteAt data (o + 9) &&& Nvram.flagValid ≠ 0
        ∧ ¬ (byteAt data (o + 9) &&& Nvram.flagDataOnly ≠ 0)) →
      10 ≤ u16At data (o + 4) → o + 10 < data.length → o + u16At data (o + 4) ≤ data.length →
      16 * (byteAt data (o + 10) + 1) ≤ data.length →
      o + 11 ≤ nul → nul < data.length → byteAt data nul = 0 →
      (∀ t, o + 11 ≤ t → t < nul → byteAt data t ≠ 0) →
      (nul = o + 11 ∨ nul < o + u16At data (o + 4)) →
      ChainEnds { dump := data, dumpSize := data.length } o d →
      (d = o ∧ o + u16At data (o + 4) ≤ nul + 1 ∨ d ≠ o ∧ u16At data (d + 4) ≤ 10) →
      parseNvram fuel data data.length =
        if d ≠ o ∧ d + 10 = data.length then .error .dataOutOfRange else .error .valueEmpty) := by
  constructor
  · intro fuel data size vars h it hit
    obtain ⟨o, ho⟩ := parseNvram_mem fuel data size vars h it hit
    obtain ⟨nul, d, -, -, -, -, -, -, -, -, -, -, -, hsame, hother⟩ :=
      Nvram.readVariable_eq_ok _ fuel o it.1 it.2 ho
    by_cases hdo : d = o
    · obtain ⟨h1, h2⟩ := hsame hdo
      rw [h2]
      exact Nvram.bytesAt_ne_nil _ _ _ (by omega)
    · obtain ⟨h1, -, -, h2⟩ := hother hdo
      rw [h2]
      exact Nvram.bytesAt_ne_nil _ _ _ (by omega)
  · intro data fuel turns o nul d vars hfuel hturns hreach hsig hflags hL h1 h2 hfit hle hnul hz
      hall hend hch hempty
    obtain ⟨-, -, -, hdn⟩ := Nvram.ChainEnds.le _ o d hch
    rw [parseNvram_of_scanAfter fuel turns data data.length o vars (by omega) hturns hreach,
      Nvram.scanStep_of_record _ rfl fuel o vars (by show o + 10 ≤ data.length; omega) hsig, if_pos hflags,
      Nvram.readVariable_of_ends _ rfl o nul d hL h1 h2 hfit hle hnul hz hall hend hch fuel hfuel]
    rcases hempty with ⟨hdo, hno⟩ | ⟨hdo, hno⟩
    · rw [if_pos hdo, if_pos hno, if_neg (fun hc => hc.1 hdo)]
      rfl
    · have hroom : d + 10 ≤ data.length := (hdn hdo).1
      rw [if_neg hdo]
      by_cases hlast : d + 10 = data.length
      · rw [if_pos (fun hc => by have h3 : d + 10 < data.length := hc.1; omega),
          if_pos ⟨hdo, hlast⟩]
        rfl
      · have hin : d + 10 < data.length ∧ d + u16At data (d + 4) ≤ data.length :=
          ⟨by omega, by omega⟩
        rw [if_neg (not_not.mpr hin), if_pos hno, if_neg (fun hc => hlast hc.2)]
        rfl

/-- Claim C22 on `Example.emptyValuePayload`, a record that holds its own
value and ends with the NUL of its name. -/
theorem decoded_values_not_empty_record :
    parseNvram 30 Example.emptyValuePayload Example.emptyValuePayload.length
      = .error .valueEmpty := by
  have h := decoded_values_not_empty.2 Example.emptyValuePayload 30 0 0 12 0 [] (by decide)
    (by decide) (by decide) (by decide) (by decide) (by decide) (by decide) (by decide)
    (by decide) (by decide) (by decide) (by decide)
    (by intro t h1 h2; have ht : t = 11 := by omega
        subst ht; decide)
    (by decide) (ChainEnds.last 0 (by decide)) (by decide)
  rw [h]
  decide

/-- Claim C22 as stated fails. On `Example.endNodePayload` the chain of the
record at offset 0 ends at the node at offset 19, which declares the length 10
and so has no value bytes, and the decode fails with "Data out of range". On
a record without value bytes whose GUID index 5 is outside the table the
decode fails with "GUID not found". -/
theorem terminal_node_at_end_is_out_of_range :
    nextAt Example.endNodePayload 0 = 19 ∧ nextAt Example.endNodePayload 19 = Nvram.lastNodeId ∧
    u32At Example.endNodePayload 19 = Nvram.nvarSignature ∧
    u16At Example.endNodePayload (19 + 4) = 10 ∧
    parseNvram 30 Example.endNodePayload Example.endNodePayload.length
      = .error .dataOutOfRange ∧
    parseNvram 30 (Example.record 0x80 5 [65] [] ++ Example.efiBytes Example.guid1)
        (Example.record 0x80 5 [65] [] ++ Example.efiBytes Example.guid1).length
      = .error .guidNotFound := by
  decide

/-- Claim C23, the broken value chain: when the scan has reached a
variable-definition record whose chain of `next` offsets is broken (a `next`
field 0, a hop target without room for a header, or a hop target without the
signature) and whose name starts inside the dump, `parseNvram` ends in one of
the format errors of `readVariable`, for every step budget above the size of
the dump; and a record
is decoded only when its chain, followed from node to node, ends at a node
whose `next` field is 0xFFFFFF. -/
theorem broken_chain_is_fatal :
    (∀ (data : List Nat) (fuel turns o : Nat) (vars : Variables),
      data.length < fuel → turns < fuel →
      Nvram.scanAfter { dump := data, dumpSize := data.length } fuel turns 0 []
        = .ok (some ((o : Int), vars)) →
      o + 11 < data.length → u32At data o = Nvram.nvarSignature →
      (byteAt data (o + 9) &&& Nvram.flagValid ≠ 0
        ∧ ¬ (byteAt data (o + 9) &&& Nvram.flagDataOnly ≠ 0)) →
      ChainBroken { dump := data, dumpSize := data.length } o →
      ∃ e, e ∈ [Error.invalidHeader, Error.guidNotFound, Error.nameTooLong, Error.dataNotFound] ∧
        parseNvram fuel data data.length = .error e) ∧
    (∀ (nv : Nvram) (fuel o : Nat) (key : VariableKey) (value : VariableValue),
      nv.readVariable fuel (o : Int) = .ok (key, value) →
      ∃ d, ChainEnds nv o d ∧ nextAt nv.dump d = Nvram.lastNodeId) := by
  constructor
  · intro data fuel turns o vars hfuel hturns hreach hname hsig hflags hbroken
    obtain ⟨e, hmem, he⟩ := Nvram.readVariable_of_broken
      { dump := data, dumpSize := data.length } rfl o
      (by show o + 10 ≤ data.length; omega) hname hbroken fuel hfuel
    refine ⟨e, hmem, ?_⟩
    rw [parseNvram_of_scanAfter fuel turns data data.length o vars (by omega) hturns hreach,
      Nvram.scanStep_of_record _ rfl fuel o vars (by show o + 10 ≤ data.length; omega) hsig,
      if_pos hflags, he]
    rfl
  · intro nv fuel o key value h
    obtain ⟨nul, d, -, -, -, -, -, -, -, -, -, -, hch, -, -⟩ :=
      Nvram.readVariable_eq_ok nv fuel o key value h
    exact ⟨d, hch, (Nvram.ChainEnds.le nv o d hch).2.2.1⟩

/-- Claim C23 on `Example.brokenPayload`, a record whose `next` field is 0. -/
theorem broken_chain_is_fatal_zero :
    ∃ e, e ∈ [Error.invalidHeader, Error.guidNotFound, Error.nameTooLong, Error.dataNotFound] ∧
      parseNvram 31 Example.brokenPayload Example.brokenPayload.length = .error e :=
  broken_chain_is_fatal.1 Example.brokenPayload 31 0 0 [] (by decide) (by decide) (by decide)
    (by decide) (by decide) (by decide) (ChainBroken.zero 0 (by decide))

/-- Claim C24, the attribute derivation: for every record flag byte `f`
`getAttributes` gives 0x3, or-ed with 0x4 when `f` has the bit 0x01, with 0x8
when it has the bit 0x20 and with 0x10 when it has the bit 0x40; two flag
bytes that agree on these three bits give the same attributes; the attributes
of every record that `readVariable` decodes are this value for the flag byte
of that record (offset 9 of its header); and every variable that `parseNvram`
returns is the decode of a record of the buffer, has the attributes of the
flag byte of that record, and so has both base bits and no bit outside 0x1F. -/
theorem getAttributes_derivation :
    (∀ f, f < 256 →
      Nvram.getAttributes f =
        (0x3 ||| (if f &&& 0x01 ≠ 0 then 0x4 else 0) ||| (if f &&& 0x20 ≠ 0 then 0x8 else 0)
          ||| (if f &&& 0x40 ≠ 0 then 0x10 else 0))) ∧
    (∀ f g, f < 256 → g < 256 → f &&& 0x61 = g &&& 0x61 →
      Nvram.getAttributes f = Nvram.getAttributes g) ∧
    (∀ (nv : Nvram) (fuel o : Nat) (key : VariableKey) (value : VariableValue),
      nv.readVariable fuel (o : Int) = .ok (key, value) →
      value.attributes = flagAttributes (byteAt nv.dump (o + 9))) ∧
    (∀ fuel data size vars, parseNvram fuel data size = .ok vars →
      ∀ it ∈ vars,
        (∃ o : Nat,
          Nvram.readVariable { dump := data, dumpSize := size } fuel (o : Int) = .ok it ∧
          it.2.attributes = flagAttributes (byteAt data (o + 9))) ∧
        it.2.attributes &&& 0x3 = 0x3 ∧ it.2.attributes &&& 0x1f = it.2.attributes) := by
  refine ⟨fun f hf => (getAttributes_byte f hf).1, ?_, ?_, ?_⟩
  · intro f g hf hg h
    rw [← (getAttributes_byte f hf).2.2.2, ← (getAttributes_byte g hg).2.2.2, h]
  · intro nv fuel o key value h
    obtain ⟨nul, d, -, -, -, -, -, -, -, -, -, hattr, -⟩ :=
      Nvram.readVariable_eq_ok nv fuel o key value h
    rw [hattr]
    exact getAttributes_flagAttributes _ (byteAt_lt nv.dump (o + 9))
  · intro fuel data size vars h it hit
    obtain ⟨o, ho⟩ := parseNvram_mem fuel data size vars h it hit
    obtain ⟨nul, d, -, -, -, -, -, -, -, -, -, hattr, -⟩ :=
      Nvram.readVariable_eq_ok _ fuel o it.1 it.2 ho
    have hb := getAttributes_byte _ (byteAt_lt data (o + 9))
    refine ⟨⟨o, ho, ?_⟩, ?_, ?_⟩
    · rw [hattr]
      exact getAttributes_flagAttributes _ (byteAt_lt data (o + 9))
    · rw [hattr]; exact hb.2.1
    · rw [hattr]; exact hb.2.2.1

/-- Claim C24 on `Example.flagsPayload`: the record with the flag byte 0x81
decodes to the attributes 7, the one with 0xE1 to 31. -/
theorem getAttributes_derivation_flags :
    Nvram.getAttributes 0x81 = 0x7 ∧ Nvram.getAttributes 0xe9 = Nvram.getAttributes 0x61 ∧
    byteAt Example.flagsPayload (0 + 9) = 0x81 ∧
    ({ attributes := 7, data := [5] } : VariableValue).attributes
      = flagAttributes (byteAt Example.flagsPayload (0 + 9)) ∧
    byteAt Example.flagsPayload (14 + 9) = 0xe1 ∧
    ({ attributes := 31, data := [6] } : VariableValue).attributes
      = flagAttributes (byteAt Example.flagsPayload (14 + 9)) ∧
    ∀ it ∈ [(Example.keyA, ({ attributes := 7, data := [5] } : VariableValue)),
        ({ name := [66], guid := Example.guid1 }, { attributes := 31, data := [6] })],
      (∃ o : Nat,
        Nvram.readVariable { dump := Example.flagsPayload, dumpSize := 44 } 50 (o : Int)
          = .ok it ∧
        it.2.attributes = flagAttributes (byteAt Example.flagsPayload (o + 9))) ∧
      it.2.attributes &&& 0x3 = 0x3 ∧ it.2.attributes &&& 0x1f = it.2.attributes :=
  ⟨getAttributes_derivation.1 0x81 (by decide),
    getAttributes_derivation.2.1 0xe9 0x61 (by decide) (by decide) (by decide),
    by decide,
    getAttributes_derivation.2.2.1
      { dump := Example.flagsPayload, dumpSize := Example.flagsPayload.length } 50 0
      Example.keyA { attributes := 7, data := [5] } (by decide),
    by decide,
    getAttributes_derivation.2.2.1
      { dump := Example.flagsPayload, dumpSize := Example.flagsPayload.length } 50 14
      { name := [66], guid := Example.guid1 } { attributes := 31, data := [6] } (by decide),
    getAttributes_derivation.2.2.2 50 Example.flagsPayload 44 _ (by decide)⟩

/-- Claim C25, amended: for every variable set whose names are not empty and
hold no NUL, whose GUIDs are sixteen bytes, whose attributes are below
`2 ^ 31` and whose data are not empty, loading the snapshot written by
`saveVariables` succeeds and yields the same set, when `errno` is not left at
`EINVAL` and the step budget is above the length of every value. -/
theorem snapshot_round_trip (fuel errno : Nat) (herrno : errno ≠ EINVAL) (vars : Variables)
    (hwf : vars.WF) (h : ∀ it ∈ vars, Loadable it ∧ it.2.data.length < fuel) :
    loadVariables fuel errno (savedFile vars) = .ok vars := by
  simp only [savedFile, loadVariables]
  rw [← List.map_reverse, loadLoop_map_jsonVar fuel errno herrno _ _
    (fun it hit => h it (List.mem_reverse.mp hit)), foldl_assign_reverse vars hwf]

/-- Claim C25 on the variable of the test `VariablesTest.LoadSave`. -/
theorem snapshot_round_trip_test :
    loadVariables 5 0 (savedFile Example.testVariable) = .ok Example.testVariable :=
  snapshot_round_trip 5 0 (by decide) Example.testVariable
    (by simp [Variables.WF, Example.testVariable])
    (by
      intro it hit
      simp only [Example.testVariable, List.mem_singleton] at hit
      subst hit
      exact ⟨⟨by decide, by decide, by decide, by decide, by decide, by decide, by decide⟩,
        by decide⟩)

/-- Claim C25 as stated fails: `set` accepts a key with an empty name and a
value without data bytes, and the snapshot of either store is rejected by
`loadVariables`. -/
theorem snapshot_of_accepted_set_is_rejected :
    (Storage.set ⟨[]⟩ Example.unnamed { attributes := 3, data := [1] } true).result = .ok () ∧
    (∀ fuel errno, loadVariables fuel errno (savedFile
      (Storage.set ⟨[]⟩ Example.unnamed { attributes := 3, data := [1] } true).storage.vars)
        = .error .jsonInvalidName) ∧
    (Storage.set ⟨[]⟩ Example.keyA { attributes := 3, data := [] } true).result = .ok () ∧
    (∀ fuel errno, loadVariables fuel errno (savedFile
      (Storage.set ⟨[]⟩ Example.keyA { attributes := 3, data := [] } true).storage.vars)
        = .error .jsonInvalidData) :=
  ⟨by decide, fun _ _ => rfl, by decide, fun _ _ => rfl⟩

/-- Claim C26: a string that is not empty and holds only white space and
hyphens passes the test for an empty string, and `hexToBin` returns an empty
byte sequence for it without an exception. -/
theorem hexToBin_returns_empty (s : List Nat) (hs : s ≠ [])
    (hsep : ∀ c ∈ s, isspace (c % 256) = true ∨ c % 256 = 45) (fuel : Nat) :
    hexToBin (fuel + 1) s = .ok [] := by
  have hall := skipSeparators_all s hsep
  cases s with
  | nil => exact absurd rfl hs
  | cons c rest =>
    have hc := hsep c (List.mem_cons_self _ _)
    have h0 : charAt (c :: rest) ≠ 0 := by
      simp only [charAt, List.headD_cons]
      intro h
      rw [h] at hc
      revert hc
      decide
    simp only [hexToBin, if_neg h0, hexToBinLoop, hall]
    simp [charAt]

/-- Claim C26 on the string of one space. -/
theorem hexToBin_returns_empty_space : hexToBin 1 [32] = .ok [] :=
  hexToBin_returns_empty [32] (by decide) (by decide) 0

/-- Claim C27, the truncated buffer: for every size from 0 to 9 `parseNvram`
ends in the format error "Not enough data in NVRAM", whatever the bytes of
the buffer and the step budget are, and also when no byte can be read. -/
theorem parseNvram_truncated (fuel : Nat) (data : List Nat) (size : Nat) (h : size < 10) :
    parseNvram fuel data size = .error .notEnoughData ∧
    parseNvram fuel [] size = .error .notEnoughData := by
  unfold parseNvram Nvram.parse
  rw [if_pos h, if_pos h]
  exact ⟨rfl, rfl⟩

/-- Claim C27 on a buffer of nine bytes. -/
theorem parseNvram_truncated_nine :
    parseNvram 20 [78, 86, 65, 82, 9, 0, 255, 255, 255] 9 = .error .notEnoughData ∧
    parseNvram 20 [] 9 = .error .notEnoughData :=
  parseNvram_truncated 20 [78, 86, 65, 82, 9, 0, 255, 255, 255] 9 (by decide)

/-- Claim C28, the hex codec round trip: for every non-empty sequence `d` of
bytes, `binToHex d` has exactly `2 * |d|` characters, each of them one of 0-9
and A-F, and with a step budget above `|d|` `hexToBin` gives back `d` from
`binToHex d` and also from its lower-cased form. -/
theorem binToHex_round_trip (d : List Nat) (hbytes : ∀ b ∈ d, b < 256) (hd : d ≠ []) :
    (binToHex d).length = 2 * d.length ∧
    (∀ c ∈ binToHex d, 48 ≤ c ∧ c ≤ 57 ∨ 65 ≤ c ∧ c ≤ 70) ∧
    ∀ fuel, d.length < fuel →
      hexToBin fuel (binToHex d) = .ok d ∧ hexToBin fuel (lowerCase (binToHex d)) = .ok d := by
  refine ⟨binToHex_length d, binToHex_chars d, fun fuel hf => ⟨hexToBin_binToHex d hbytes hd fuel hf, ?_⟩⟩
  simp only [hexToBin, if_neg (charAt_lowerCase_binToHex d hd)]
  exact hexToBinLoop_lowerCase d hbytes fuel hf

/-- Claim C28 on the two bytes 0x1F and 0xA0. -/
theorem binToHex_round_trip_two :
    (binToHex [0x1f, 0xa0]).length = 2 * [0x1f, 0xa0].length ∧
    (∀ c ∈ binToHex [0x1f, 0xa0], 48 ≤ c ∧ c ≤ 57 ∨ 65 ≤ c ∧ c ≤ 70) ∧
    ∀ fuel, [0x1f, 0xa0].length < fuel →
      hexToBin fuel (binToHex [0x1f, 0xa0]) = .ok [0x1f, 0xa0] ∧
      hexToBin fuel (lowerCase (binToHex [0x1f, 0xa0])) = .ok [0x1f, 0xa0] :=
  binToHex_round_trip [0x1f, 0xa0] (by decide) (by decide)

/-- Claim C29, the clean end of a list: in a buffer of at least 10 bytes, when
the scan has reached a position where fewer than 10 bytes remain or where the
signature is not NVAR, `parseNvram` returns the variables decoded so far,
whatever the step budget above the number of turns taken; and a buffer of at
least 10 bytes that does not start with NVAR decodes to the empty set. -/
theorem parseNvram_clean_end :
    (∀ (fuel turns : Nat) (data : List Nat) (o : Nat) (vars : Variables),
      10 ≤ data.length → turns < fuel →
      Nvram.scanAfter { dump := data, dumpSize := data.length } fuel turns 0 []
        = .ok (some ((o : Int), vars)) →
      (data.length < o + 10 ∨ u32At data o ≠ Nvram.nvarSignature) →
      parseNvram fuel data data.length = .ok vars) ∧
    (∀ (fuel : Nat) (data : List Nat), 10 ≤ data.length → 0 < fuel →
      u32At data 0 ≠ Nvram.nvarSignature → parseNvram fuel data data.length = .ok []) := by
  have main : ∀ (fuel turns : Nat) (data : List Nat) (o : Nat) (vars : Variables),
      10 ≤ data.length → turns < fuel →
      Nvram.scanAfter { dump := data, dumpSize := data.length } fuel turns 0 []
        = .ok (some ((o : Int), vars)) →
      (data.length < o + 10 ∨ u32At data o ≠ Nvram.nvarSignature) →
      parseNvram fuel data data.length = .ok vars := by
    intro fuel turns data o vars hlen hturns hreach hend
    rw [parseNvram_of_scanAfter fuel turns data data.length o vars hlen hturns hreach,
      Nvram.scanStep_of_end _ rfl fuel o vars hend]
    rfl
  exact ⟨main, fun fuel data hlen hfuel hsig => main fuel 0 data 0 [] hlen hfuel rfl (Or.inr hsig)⟩

/-- Claim C29 on `Example.twicePayload`, whose scan ends at offset 28, and on
ten zero bytes. -/
theorem parseNvram_clean_end_twice :
    parseNvram 45 Example.twicePayload Example.twicePayload.length
      = .ok [(Example.keyA, { attributes := 3, data := [1] })] ∧
    parseNvram 1 (List.replicate 10 0) (List.replicate 10 0).length = .ok [] :=
  ⟨parseNvram_clean_end.1 45 2 Example.twicePayload 28
      [(Example.keyA, { attributes := 3, data := [1] })] (by decide) (by decide) (by decide)
      (by decide),
    parseNvram_clean_end.2 1 (List.replicate 10 0) (by decide) (by decide) (by decide)⟩

/-- Claim C30 fails on `Example.overlapPayload`: the record at offset 0 has
the valid bit clear and declares the length 6, so the scan goes on at offset
6, inside its header; the two dumps differ only in the `next` field of that
record (offsets 6 to 8), which no record uses as a GUID-table entry or as a
chain node, and the decode returns the variable A for one and no variable for
the other. -/
theorem parseNvram_depends_on_skipped_next_field :
    (Example.overlapPayload [78, 86, 65]).length = 36 ∧
    (Example.overlapPayload [0, 0, 0]).length = 36 ∧
    (∀ i, i < 36 → (i < 6 ∨ 9 ≤ i) →
      byteAt (Example.overlapPayload [78, 86, 65]) i = byteAt (Example.overlapPayload [0, 0, 0]) i) ∧
    byteAt (Example.overlapPayload [78, 86, 65]) 9 &&& Nvram.flagValid = 0 ∧
    nextAt (Example.overlapPayload [78, 86, 65]) 6 = Nvram.lastNodeId ∧
    byteAt (Example.overlapPayload [78, 86, 65]) 16 = 0 ∧
    parseNvram 40 (Example.overlapPayload [78, 86, 65]) 36
      = .ok [(Example.keyA, { attributes := 3, data := [5] })] ∧
    parseNvram 40 (Example.overlapPayload [0, 0, 0]) 36 = .ok [] := by
  decide

/-- Claim C31, the end of the chain walk: `getLastNode` never uses up a step
budget above the distance from the start node to the end of the dump, whatever
the start node is; from a node whose header lies inside the dump it returns
the end `d` of the chain, which is not before the start node and whose header
lies inside the dump, or `nullptr` for a broken chain; and every `next` field
that is followed is an offset from 1 to 0xFFFFFE. -/
theorem getLastNode_terminates (nv : Nvram) :
    (∀ (fuel : Nat) (node : Int), ((nv.dumpSize : Int) - node).toNat < fuel →
      nv.getLastNode fuel node ≠ .outOfFuel) ∧
    (nv.dump.length = nv.dumpSize →
      ∀ (fuel o : Nat), o + 10 ≤ nv.dumpSize → nv.dumpSize - o < fuel →
        (nv.getLastNode fuel (o : Int) = .ok none ∧ ChainBroken nv o) ∨
        ∃ d : Nat, nv.getLastNode fuel (o : Int) = .ok (some (d : Int)) ∧ ChainEnds nv o d ∧
          o ≤ d ∧ d + 10 ≤ nv.dumpSize) ∧
    (∀ o : Nat, nextAt nv.dump o ≠ Nvram.lastNodeId → nextAt nv.dump o ≠ 0 →
      1 ≤ nextAt nv.dump o ∧ nextAt nv.dump o ≤ 0xfffffe ∧ o < o + nextAt nv.dump o) := by
  refine ⟨fun fuel node hf => Nvram.getLastNode_ne_outOfFuel nv fuel node hf, ?_, ?_⟩
  · intro hsize fuel o hroom hf
    rcases Nvram.chain_total nv (nv.dumpSize - o) o (le_refl _) with ⟨d, hd⟩ | hb
    · obtain ⟨hle, -, -, hdn⟩ := Nvram.ChainEnds.le nv o d hd
      refine Or.inr ⟨d, Nvram.getLastNode_of_ends nv hsize o d hroom hd fuel hf, hd, hle, ?_⟩
      by_cases hdo : d = o
      · rw [hdo]; exact hroom
      · exact (hdn hdo).1
    · exact Or.inl ⟨Nvram.getLastNode_of_broken nv hsize o hroom hb fuel hf, hb⟩
  · intro o hl h0
    have hle := Nvram.nextAt_le nv.dump o
    simp only [Nvram.lastNodeId] at hl
    omega

/-- Claim C31 on `Example.namelessPayload`, whose chain goes from offset 0 to
the node at offset 12. -/
theorem getLastNode_terminates_chain :
    ∃ d : Nat, Nvram.getLastNode { dump := Example.namelessPayload, dumpSize := 39 } 40 (0 : Nat)
        = .ok (some (d : Int)) ∧
      ChainEnds { dump := Example.namelessPayload, dumpSize := 39 } 0 d ∧ 0 ≤ d ∧ d + 10 ≤ 39 := by
  rcases (getLastNode_terminates { dump := Example.namelessPayload, dumpSize := 39 }).2.1
    (by decide) 40 0 (by decide) (by decide) with ⟨h, -⟩ | h
  · exact absurd h (by decide)
  · exact h

/-- Claim C32, the byte order of a GUID: for the table entry with the raw
bytes b0 .. b15 that an index selects, `getGuid` gives the key GUID b3 b2 b1
b0, b5 b4, b7 b6, b8 .. b15, and this is the GUID of the key of every record
that `readVariable` decodes, taken at the GUID index of the record; making a
GUID of these bytes again gives back the raw bytes; and two entries, of one
dump or of two, and two indices that `getGuid` resolves, give the same key
GUID exactly when their raw bytes are equal. -/
theorem guid_byte_order :
    (∀ (nv : Nvram) (index : Nat), nv.dump.length = nv.dumpSize →
      16 * (index + 1) ≤ nv.dumpSize →
      nv.getGuid index = .ok (swappedGuid nv.dump (nv.dumpSize - 16 * (index + 1)))) ∧
    (∀ (nv : Nvram) (fuel o : Nat) (key : VariableKey) (value : VariableValue),
      nv.dump.length = nv.dumpSize → nv.readVariable fuel (o : Int) = .ok (key, value) →
      16 * (byteAt nv.dump (o + 10) + 1) ≤ nv.dumpSize ∧
      key.guid = swappedGuid nv.dump (nv.dumpSize - 16 * (byteAt nv.dump (o + 10) + 1))) ∧
    (∀ (bytes : List Nat) (i : Nat), uuidAt bytes i = swappedGuid bytes i) ∧
    (∀ (bytes : List Nat) (i : Nat), swappedGuid (swappedGuid bytes i) 0 = bytesAt bytes 16 i) ∧
    (∀ (bytes bytes' : List Nat) (i j : Nat),
      swappedGuid bytes i = swappedGuid bytes' j ↔ bytesAt bytes 16 i = bytesAt bytes' 16 j) ∧
    (∀ (nv : Nvram) (index index' : Nat), nv.dump.length = nv.dumpSize →
      16 * (index + 1) ≤ nv.dumpSize → 16 * (index' + 1) ≤ nv.dumpSize →
      (nv.getGuid index = nv.getGuid index' ↔
        bytesAt nv.dump 16 (nv.dumpSize - 16 * (index + 1))
          = bytesAt nv.dump 16 (nv.dumpSize - 16 * (index' + 1)))) := by
  have hsw : ∀ (bytes : List Nat) (i : Nat), uuidAt bytes i = swappedGuid bytes i :=
    fun bytes i => uuidAt_bytes bytes i
  refine ⟨getGuid_swapped, ?_, hsw, ?_, ?_, ?_⟩
  · intro nv fuel o key value hsize h
    obtain ⟨nul, d, -, -, -, hguid, -⟩ := Nvram.readVariable_eq_ok nv fuel o key value h
    by_cases hfit : 16 * (byteAt nv.dump (o + 10) + 1) ≤ nv.dumpSize
    · rw [getGuid_swapped nv _ hsize hfit] at hguid
      simp only [Outcome.ok.injEq] at hguid
      exact ⟨hfit, hguid.symm⟩
    · rw [Nvram.getGuid_of_not_fits nv _ (by omega)] at hguid
      cases hguid
  · intro bytes i
    rw [← hsw, ← hsw]
    exact uuidAt_uuidAt bytes i
  · intro bytes bytes' i j
    rw [← hsw, ← hsw]
    exact uuidAt_eq_iff bytes bytes' i j
  · intro nv index index' hsize h1 h2
    rw [Nvram.getGuid_of_fits nv index hsize h1, Nvram.getGuid_of_fits nv index' hsize h2,
      ← uuidAt_eq_iff]
    constructor
    · intro h
      simpa using h
    · intro h
      rw [h]

/-- Claim C32 on `Example.dumpPayload`, whose table holds the image of `guid1`
at index 1: the raw bytes 04 03 02 01 06 05 08 07 09 .. 10 give the key GUID
01 02 .. 10. -/
theorem guid_byte_order_dump :
    bytesAt Example.dumpPayload 16 (Example.dumpPayload.length - 16 * (1 + 1))
      = [4, 3, 2, 1, 6, 5, 8, 7, 9, 10, 11, 12, 13, 14, 15, 16] ∧
    Nvram.getGuid { dump := Example.dumpPayload, dumpSize := Example.dumpPayload.length } 1
      = .ok [1, 2, 3, 4, 5, 6, 7, 8, 9, 10, 11, 12, 13, 14, 15, 16] :=
  ⟨by decide,
    (guid_byte_order.1
      { dump := Example.dumpPayload, dumpSize := Example.dumpPayload.length } 1 (by decide)
      (by decide)).trans (by decide)⟩

/-- Claim C33, the merge of `updateVars` applied twice: for every store and
every default set (a map), the merge loop run again on its own result changes
nothing; after one merge a key that the store shares with the default set has
the attributes of the default and data of the length of the default; and a
second call of `updateVars` with the same image leaves the store that the
first call has left, whether the snapshot can be written or not. -/
theorem updateVars_is_idempotent (defVars : Variables) (hwf : defVars.WF) :
    (∀ vars : Variables,
      Storage.mergeLoop defVars (Storage.mergeLoop defVars vars) = Storage.mergeLoop defVars vars) ∧
    (∀ (vars : Variables) (key : VariableKey) (oldVar newVar : VariableValue),
      vars.find key = some oldVar → defVars.find key = some newVar →
      ∃ merged, (Storage.mergeLoop defVars vars).find key = some merged ∧
        merged.attributes = newVar.attributes ∧ merged.data.length = newVar.data.length) ∧
    (∀ (self : Storage) (fuel : Nat) (newNvram : Option (List Nat)) (writable again : Bool),
      ((self.updateVars fuel newNvram writable).storage.updateVars fuel newNvram again).storage
        = (self.updateVars fuel newNvram writable).storage) := by
  refine ⟨fun vars => Storage.mergeLoop_mergeLoop defVars vars hwf, ?_, ?_⟩
  · intro vars key oldVar newVar hold hnew
    refine ⟨Storage.mergeVar oldVar newVar, ?_, rfl, ?_⟩
    · rw [Storage.find_mergeLoop_of_some defVars vars key newVar hwf hnew, hold]
      rfl
    · rw [Storage.mergeVar_data, List.length_append, List.length_take, List.length_drop]
      omega
  · intro self fuel newNvram writable again
    rcases Storage.updateVars_storage fuel newNvram with h | ⟨defs, hdefs, h⟩
    · rw [h, h]
    · rw [h, h]
      simp only []
      rw [Storage.mergeLoop_mergeLoop defs self.vars hdefs]

/-- Claim C33 on the default set of `dumpFile` and a store that holds
NetworkStackVar with three data bytes. -/
theorem updateVars_is_idempotent_dump :
    Storage.mergeLoop Example.dumpDefaults (Storage.mergeLoop Example.dumpDefaults
        [(Example.netVar, { attributes := 7, data := [9, 9, 9] })])
      = Storage.mergeLoop Example.dumpDefaults
        [(Example.netVar, { attributes := 7, data := [9, 9, 9] })] :=
  (updateVars_is_idempotent Example.dumpDefaults (by simp [Variables.WF, Example.dumpDefaults])).1
    [(Example.netVar, { attributes := 7, data := [9, 9, 9] })]

end UefiVar
